import Mathlib

/-!
# textDisplay: window stack, compositor and diff renderer

A shallow embedding of `src/lib/display.c` / `src/lib/display.h`.

Modelling conventions

* C `int` is `Int` (no claim here depends on wrap-around), `color_t` and
  `background_t` (`unsigned char`) are `Nat`, `char` cells are `Char`
  (`'\x00'` is the NUL character).  C `char` flags (`boarder`, `hidden`,
  `dirty`, `setBack`, `auto_size`) are only ever tested for truth and are `Bool`.
* A `char **` / `color_t **` block is a function `Int → Int → α`; the block
  built by `buildStringBlock (x, y)` has `x` rows of `y + 1` cells, and every
  store is checked against that extent (`Fault.gridIndex` otherwise).
* Window objects live in a heap `Nat → Option Window`; `next` / `last` are
  `Option Nat` (`none` is `NULL`).  The model holds one display object, so a
  `display_t *` is either the pointer to it or a value that is no pointer.
* Undefined behaviour and fuel exhaustion are explicit results (`Fault`).
* What is written to `display->term` is recorded as a list of `Out` items,
  one per `fprintf` call.
-/

namespace TextDisplay

/-- The `point_struct` of display.h (also `dimension_t`): `x` is the row, `y` the column. -/
structure Point where
  x : Int
  y : Int
deriving DecidableEq, Repr

/-- The ways an execution can leave defined behaviour, plus fuel exhaustion. -/
inductive Fault where
  | fuel
  | strIndex
  | gridIndex
  | badPointer
  | alloc
deriving DecidableEq, Repr

/-- A value of type `display_t *` held by a window: the pointer to the display
object of the model, or an integer stored into the pointer field. -/
inductive DisplayPtr where
  | valid
  | raw (n : Nat)
deriving DecidableEq, Repr

/-- The `window_struct` of display.h. -/
structure Window where
  contents : Int → Int → Char
  color : Nat
  colors : Int → Int → Nat
  background : Nat
  backgrounds : Int → Int → Nat
  pos : Point
  dim : Point
  display : DisplayPtr
  boarder : Bool
  setBack : Bool
  hidden : Bool
  next : Option Nat
  last : Option Nat

/-- One `fprintf` to the terminal sink. -/
inductive Out where
  | clear
  | cursorRow (row : Int)
  | hideCursor
  | showCursor
  | ctrlA
  | flush
  | saveCursor
  | restoreCursor
  | cursorPos (row col : Int)
  | foreground (n : Nat)
  | backgroundColor (n : Nat)
  | chr (c : Char)
  | resetAttr
deriving DecidableEq, Repr

/-- The `display_struct` of display.h (with the `auto_size` field that display.c uses). -/
structure Display where
  current : Int → Int → Char
  current_color : Int → Int → Nat
  default_color : Nat
  current_background : Int → Int → Nat
  default_background : Nat
  dim : Point
  term : List Out
  top_window : Option Nat
  bottom_window : Option Nat
  hidden : Bool
  dirty : Bool
  auto_size : Bool

/-- The program state: the display object and the heap of window objects. -/
structure World where
  display : Display
  windows : Nat → Option Window

/-- The colour constants of `enum color_enum`. -/
def RESET : Nat := 7
def BLACK : Nat := 0
def RED : Nat := 1
def GREEN : Nat := 2
def YELLOW : Nat := 3
def BLUE : Nat := 4
def WHITE : Nat := 7

/-- The `char_struct` of display.c: one composited cell. -/
structure char_struct where
  data : Char
  color : Nat
  background : Nat
deriving DecidableEq, Repr

/-- Store into a two-dimensional block. -/
def setAt {α : Type} (g : Int → Int → α) (i j : Int) (v : α) : Int → Int → α :=
  fun a b => if a = i ∧ b = j then v else g a b

/-- Whether `[i][j]` lies inside a block built for `dim` (`dim.x` rows of `dim.y + 1` cells). -/
def inBlock (dim : Point) (i j : Int) : Bool :=
  decide (0 ≤ i) && decide (i < dim.x) && decide (0 ≤ j) && decide (j ≤ dim.y)

/-- Dereference of a window pointer. -/
def derefWindow (s : World) (a : Nat) : Except Fault Window :=
  match s.windows a with
  | some w => .ok w
  | none => .error .badPointer

/-- Dereference of a `display_t *`. -/
def derefDisplay (s : World) : DisplayPtr → Except Fault Display
  | .valid => .ok s.display
  | .raw _ => .error .badPointer

/-- The body of the `for (current = window; ...)` loop of `renderPoint`.
`startHidden` is `window->hidden` of the window the walk started from. -/
def renderLoop (s : World) (startHidden : Bool) (x y : Int) :
    Nat → Option Nat → char_struct → Except Fault char_struct
  | _, none, acc => .ok acc
  | 0, some _, _ => .error .fuel
  | fuel + 1, some a, acc =>
    match derefWindow s a with
    | .error e => .error e
    | .ok current =>
      if startHidden then renderLoop s startHidden x y fuel current.next acc
      else
        let i := x - current.pos.x
        if x < 0 then renderLoop s startHidden x y fuel current.next acc
        else
          match derefDisplay s current.display with
          | .error e => .error e
          | .ok d =>
            if x < d.dim.x ∧ 0 ≤ i ∧ i < current.dim.x then
              let j := y - current.pos.y
              if 0 ≤ y ∧ y < d.dim.y ∧ 0 ≤ j ∧ j < current.dim.y then
                renderLoop s startHidden x y fuel current.next
                  ⟨current.contents i j, current.colors i j, current.backgrounds i j⟩
              else renderLoop s startHidden x y fuel current.next acc
            else renderLoop s startHidden x y fuel current.next acc

/-- The `renderPoint` of display.c; `fuel` bounds the walk along `next`. -/
def renderPoint (fuel : Nat) (s : World) (window : Option Nat) (x y : Int) :
    Except Fault char_struct :=
  let char_data : char_struct :=
    ⟨' ', s.display.default_color, s.display.default_background⟩
  match window with
  | none => .ok char_data
  | some a =>
    match derefWindow s a with
    | .error e => .error e
    | .ok w => renderLoop s w.hidden x y fuel (some a) char_data

/-! ## The window stack as a list -/

/-- The first address of `l`, or `nxt` when `l` is empty. -/
def headOr (l : List Nat) (nxt : Option Nat) : Option Nat :=
  match l with
  | [] => nxt
  | b :: _ => some b

/-- The last address of `l`, or `prev` when `l` is empty. -/
def lastOr : List Nat → Option Nat → Option Nat
  | [], prev => prev
  | a :: rest, _ => lastOr rest (some a)

/-- The windows of `l` form a doubly linked segment: each is allocated, its
`last` is its predecessor in `l` (`prev` for the first) and its `next` is its
successor in `l` (`nxt` for the last). -/
def Seg (h : Nat → Option Window) : Option Nat → List Nat → Option Nat → Prop
  | _, [], _ => True
  | prev, a :: rest, nxt =>
    ∃ w, h a = some w ∧ w.last = prev ∧ w.next = headOr rest nxt ∧ Seg h (some a) rest nxt

/-- The stack of the display, read bottom to top, is the list `L`. -/
structure StackIs (s : World) (L : List Nat) : Prop where
  nodup : L.Nodup
  chain : Seg s.windows none L none
  bottom : s.display.bottom_window = L.head?
  top : s.display.top_window = L.getLast?

/-- The backing rectangle of `w` contains the display point `(x, y)`. -/
def covers (w : Window) (x y : Int) : Prop :=
  0 ≤ x - w.pos.x ∧ x - w.pos.x < w.dim.x ∧ 0 ≤ y - w.pos.y ∧ y - w.pos.y < w.dim.y

instance (w : Window) (x y : Int) : Decidable (covers w x y) := by
  unfold covers; infer_instance

/-- The cell of `w` shown at display point `(x, y)`. -/
def cellAt (w : Window) (x y : Int) : char_struct :=
  ⟨w.contents (x - w.pos.x) (y - w.pos.y), w.colors (x - w.pos.x) (y - w.pos.y),
    w.backgrounds (x - w.pos.x) (y - w.pos.y)⟩

/-- Overwrite `acc` by the cell of each window of `L`, in order, that covers the point. -/
def overlay (s : World) (x y : Int) : List Nat → char_struct → char_struct
  | [], acc => acc
  | a :: rest, acc =>
    match s.windows a with
    | some w => overlay s x y rest (if covers w x y then cellAt w x y else acc)
    | none => overlay s x y rest acc

/-! ## Blocks and counted loops -/

/-- The `buildStringBlock` of display.c: every cell NUL.  The sizes are
`unsigned int`; a negative `int` argument is an allocation that cannot succeed. -/
def buildStringBlock (x y : Int) : Except Fault (Int → Int → Char) :=
  if x < 0 ∨ y < 0 then .error .alloc else .ok (fun _ _ => '\x00')

/-- The `buildColorBlock` of display.c: every cell `color`. -/
def buildColorBlock (x y : Int) (color : Nat) : Except Fault (Int → Int → Nat) :=
  if x < 0 ∨ y < 0 then .error .alloc else .ok (fun _ _ => color)

/-- The counted loop `for (i = lo; i < lo + n; i++) body`. -/
def forLoop {σ : Type} (body : Int → σ → Except Fault σ) : Nat → Int → σ → Except Fault σ
  | 0, _, st => .ok st
  | n + 1, lo, st =>
    match body lo st with
    | .error e => .error e
    | .ok st1 => forLoop body n (lo + 1) st1

/-- The loop `for (i = lo; i < hi; i++) body`. -/
def forRange {σ : Type} (lo hi : Int) (body : Int → σ → Except Fault σ) (st : σ) :
    Except Fault σ :=
  forLoop body (hi - lo).toNat lo st

/-- The offset of the content area inside the backing grid: `window->boarder ? 1 : 0`. -/
def Window.d (w : Window) : Int := if w.boarder then 1 else 0

/-! ## Printing -/

/-- The `isNotPrinted` of display.c. -/
def isNotPrinted (c : Char) : Bool :=
  if c = '\n' then false
  else if c = '\r' then false
  else true

/-- The read `str[i]` of a NUL-terminated string whose characters are `str`;
indices before the string or past its terminator are outside the object. -/
def strAt (str : List Char) (i : Int) : Except Fault Char :=
  if i < 0 ∨ (str.length : Int) < i then .error .strIndex
  else .ok (str.getD i.toNat '\x00')

/-- The three stores of `windowPrint` into cell `[r][c]`: the character, the pen
colour, and the pen background when `setBack` is on. -/
def putCell (w : Window) (r c : Int) (ch : Char) : Except Fault Window :=
  if inBlock w.dim r c then
    .ok { w with
      contents := setAt w.contents r c ch
      colors := setAt w.colors r c w.color
      backgrounds := if w.setBack then setAt w.backgrounds r c w.background
                     else w.backgrounds }
  else .error .gridIndex

/-- The tab loop `for (; i + y < end; y++)` of `windowPrint`, as `n` iterations
from column offset `y`; returns the window and the final `y`. -/
def tabLoop (row i d : Int) : Nat → Window → Int → Except Fault (Window × Int)
  | 0, w, y => .ok (w, y)
  | n + 1, w, y =>
    match putCell w row (i + y + d) ' ' with
    | .error e => .error e
    | .ok w1 => tabLoop row i d n w1 (y + 1)

/-- The `for (i = 0; str[i] != 0; i++)` loop of `windowPrint` from loop state
`(i, x, y)`.  The result carries `true` when the loop ran to the terminator and
`false` when it left through the `return` of the row test. -/
def windowPrintLoop (str : List Char) (d : Int) :
    Nat → Window → Int → Int → Int → Except Fault (Window × Bool)
  | 0, _, _, _, _ => .error .fuel
  | fuel + 1, w, i, x, y =>
    match strAt str i with
    | .error e => .error e
    | .ok c =>
      if c = '\x00' then .ok (w, true)
      else if x + d ≥ w.dim.x - d then .ok (w, false)
      else if isNotPrinted c = true ∧ i + y + d < w.dim.y - d then
        let tabbed : Except Fault (Window × Int) :=
          if c = '\t' then
            let pos := i + y
            let stop := (Int.tdiv (pos + 8) 8) * 8
            tabLoop (x + d) i d (stop - (i + y)).toNat w y
          else .ok (w, y)
        match tabbed with
        | .error e => .error e
        | .ok (w1, y1) =>
          match putCell w1 (x + d) (i + y1 + d) c with
          | .error e => .error e
          | .ok w2 => windowPrintLoop str d fuel w2 (i + 1) x y1
      else
        let i1 := if isNotPrinted c = true then i - 1 else i
        match strAt str i1 with
        | .error e => .error e
        | .ok c1 =>
          if c1 = '\r' then
            match strAt str (i1 + 1) with
            | .error e => .error e
            | .ok c2 =>
              windowPrintLoop str d fuel w (i1 + 1) (if c2 ≠ '\n' then x + 1 else x) y
          else windowPrintLoop str d fuel w (i1 + 1) (x + 1) (-1 - i1)

/-- Fuel that covers every run of the print loop: each iteration moves to the
next character or to a later row. -/
def printFuel (w : Window) (str : List Char) (x : Int) : Nat :=
  str.length + (w.dim.x - x).toNat + 2

/-- Set `window->display->dirty = TRUE` through the back-reference of window `a`. -/
def markDirty (s : World) (w : Window) : Except Fault World :=
  match derefDisplay s w.display with
  | .error e => .error e
  | .ok d => .ok { s with display := { d with dirty := true } }

/-- The `windowPrint` of display.c on the window at address `a`. -/
def windowPrint (s : World) (a : Nat) (str : List Char) (x y : Int) : Except Fault World :=
  match derefWindow s a with
  | .error e => .error e
  | .ok w =>
    match windowPrintLoop str w.d (printFuel w str x) w 0 x y with
    | .error e => .error e
    | .ok (w1, finished) =>
      let s1 : World := { s with windows := Function.update s.windows a (some w1) }
      if finished then markDirty s1 w1 else .ok s1

/-- Store into a field of the window at address `a`. -/
def modifyWindow (s : World) (a : Nat) (f : Window → Window) : Except Fault World :=
  match derefWindow s a with
  | .error e => .error e
  | .ok w => .ok { s with windows := Function.update s.windows a (some (f w)) }

/-- The `windowPrintColor` of display.c. -/
def windowPrintColor (s : World) (a : Nat) (str : List Char) (color : Nat) (x y : Int) :
    Except Fault World :=
  match derefWindow s a with
  | .error e => .error e
  | .ok w =>
    let orginal := w.color
    match modifyWindow s a (fun w => { w with color := color }) with
    | .error e => .error e
    | .ok s1 =>
      match windowPrint s1 a str x y with
      | .error e => .error e
      | .ok s2 => modifyWindow s2 a (fun w => { w with color := orginal })

/-- The `windowPrintBackground` of display.c. -/
def windowPrintBackground (s : World) (a : Nat) (str : List Char) (color background : Nat)
    (x y : Int) : Except Fault World :=
  match derefWindow s a with
  | .error e => .error e
  | .ok w =>
    let original := w.background
    match modifyWindow s a (fun w => { w with setBack := true, background := background }) with
    | .error e => .error e
    | .ok s1 =>
      match windowPrintColor s1 a str color x y with
      | .error e => .error e
      | .ok s2 =>
        modifyWindow s2 a (fun w => { w with background := original, setBack := false })

/-! ## Creation -/

/-- The `newDisplay` of display.c.  `(background_t) -1` is 255. -/
def newDisplay (rows cols : Int) : Except Fault World :=
  match buildStringBlock rows cols, buildColorBlock rows cols WHITE,
      buildColorBlock rows cols 255 with
  | .ok current, .ok current_color, .ok current_background =>
    .ok {
      display := {
        current := current
        current_color := current_color
        default_color := WHITE
        current_background := current_background
        default_background := BLACK
        dim := ⟨rows, cols⟩
        term := [Out.clear, Out.cursorRow (rows + 1), Out.hideCursor, Out.flush]
        top_window := none
        bottom_window := none
        hidden := false
        dirty := true
        auto_size := false }
      windows := fun _ => none }
  | _, _, _ => .error .alloc

/-- A checked store into `window->contents`. -/
def putChar (w : Window) (r c : Int) (ch : Char) : Except Fault Window :=
  if inBlock w.dim r c then .ok { w with contents := setAt w.contents r c ch }
  else .error .gridIndex

/-- The glyph stamping shared by `newWindow` and `windowSetBoarder`: four
corners, then the two vertical and the two horizontal edges. -/
def stampBoarder (w : Window) (vertical horizontal corner : Char) : Except Fault Window :=
  let dx := w.dim.x
  let dy := w.dim.y
  match putChar w 0 0 corner with
  | .error e => .error e
  | .ok w1 =>
  match putChar w1 0 (dy - 1) corner with
  | .error e => .error e
  | .ok w2 =>
  match putChar w2 (dx - 1) 0 corner with
  | .error e => .error e
  | .ok w3 =>
  match putChar w3 (dx - 1) (dy - 1) corner with
  | .error e => .error e
  | .ok w4 =>
  match forRange 1 (dx - 1) (fun i wi =>
      match putChar wi i 0 vertical with
      | .error e => .error e
      | .ok wj => putChar wj i (dy - 1) vertical) w4 with
  | .error e => .error e
  | .ok w5 =>
    forRange 1 (dy - 1) (fun i wi =>
      match putChar wi 0 i horizontal with
      | .error e => .error e
      | .ok wj => putChar wj (dx - 1) i horizontal) w5

/-- The `newWindow` of display.c; `a` is the address `malloc` returns for the
window object, which is not the address of a live window. -/
def newWindow (s : World) (a : Nat) (boarder : Bool) (pos_x pos_y dim_x dim_y : Int) :
    Except Fault World :=
  let px := if boarder then pos_x - 1 else pos_x
  let py := if boarder then pos_y - 1 else pos_y
  let dx := if boarder then dim_x + 2 else dim_x
  let dy := if boarder then dim_y + 2 else dim_y
  if (s.windows a).isSome then .error .alloc
  else
    match buildStringBlock dx dy, buildColorBlock dx dy WHITE, buildColorBlock dx dy BLACK with
    | .ok contents, .ok colors, .ok backgrounds =>
      let window : Window := {
        contents := contents
        color := RESET
        colors := colors
        background := BLACK
        backgrounds := backgrounds
        pos := ⟨px, py⟩
        dim := ⟨dx, dy⟩
        display := DisplayPtr.valid
        boarder := boarder
        setBack := false
        hidden := false
        next := none
        last := none }
      let linked : Except Fault World :=
        match s.display.top_window with
        | none =>
          .ok { display := { s.display with bottom_window := some a }
                windows := Function.update s.windows a (some { window with last := none }) }
        | some t =>
          match derefWindow s t with
          | .error e => .error e
          | .ok wt =>
            .ok { display := s.display
                  windows := Function.update
                    (Function.update s.windows a (some { window with last := some t }))
                    t (some { wt with next := some a }) }
      match linked with
      | .error e => .error e
      | .ok s1 =>
        let s2 : World := { s1 with display := { s1.display with top_window := some a } }
        match derefWindow s2 a with
        | .error e => .error e
        | .ok w =>
          let stamped : Except Fault Window :=
            if boarder then stampBoarder w '|' '-' '+' else .ok w
          match stamped with
          | .error e => .error e
          | .ok w1 =>
            .ok { display := { s2.display with dirty := true }
                  windows := Function.update s2.windows a (some w1) }
    | _, _, _ => .error .alloc

/-! ## Stack operations -/

/-- The `yankWindow` of display.c. -/
def yankWindow (s : World) (a : Nat) : Except Fault World :=
  match derefWindow s a with
  | .error e => .error e
  | .ok window =>
    match derefDisplay s window.display with
    | .error e => .error e
    | .ok d =>
      if d.top_window = some a then
        let s1 : World := { s with display := { d with top_window := window.last } }
        match window.last with
        | none => .ok { s1 with display := { s1.display with bottom_window := none } }
        | some l => modifyWindow s1 l (fun wl => { wl with next := none })
      else
        match window.next with
        | none => .error .badPointer
        | some n =>
          match modifyWindow s n (fun wn => { wn with last := window.last }) with
          | .error e => .error e
          | .ok s1 =>
            match window.last with
            | some l => modifyWindow s1 l (fun wl => { wl with next := window.next })
            | none => .ok { s1 with display := { s1.display with bottom_window := window.next } }

/-- The `setTopWindow` of display.c. -/
def setTopWindow (s : World) (a : Nat) : Except Fault World :=
  match derefWindow s a with
  | .error e => .error e
  | .ok window =>
    match derefDisplay s window.display with
    | .error e => .error e
    | .ok d =>
      if d.top_window = some a then .ok s
      else
        match yankWindow s a with
        | .error e => .error e
        | .ok s1 =>
          match modifyWindow s1 a (fun w => { w with next := none }) with
          | .error e => .error e
          | .ok s2 =>
            match modifyWindow s2 a (fun w => { w with last := s2.display.top_window }) with
            | .error e => .error e
            | .ok s3 =>
              match s3.display.top_window with
              | none => .error .badPointer
              | some t =>
                match modifyWindow s3 t (fun wt => { wt with next := some a }) with
                | .error e => .error e
                | .ok s4 =>
                  .ok { s4 with display := { s4.display with top_window := some a, dirty := true } }

/-- The `freeWindow` of display.c: unlink, release the blocks, mark the display
dirty, release the window object. -/
def freeWindow (s : World) (a : Nat) : Except Fault World :=
  match yankWindow s a with
  | .error e => .error e
  | .ok s1 =>
    match derefWindow s1 a with
    | .error e => .error e
    | .ok window =>
      match markDirty s1 window with
      | .error e => .error e
      | .ok s2 => .ok { s2 with windows := Function.update s2.windows a none }

/-- The `windowSetHide` of display.c: stores the flag, then stores `TRUE` into
the `display` pointer field. -/
def windowSetHide (s : World) (a : Nat) (hidden : Bool) : Except Fault World :=
  modifyWindow s a (fun w => { w with hidden := hidden, display := DisplayPtr.raw 1 })

/-- The three stores of `windowClear` and `windowChar` into cell `[r][c]`. -/
def putPenCell (w : Window) (r c : Int) (ch : Char) : Except Fault Window :=
  if inBlock w.dim r c then
    .ok { w with
      contents := setAt w.contents r c ch
      colors := setAt w.colors r c w.color
      backgrounds := setAt w.backgrounds r c w.background }
  else .error .gridIndex

/-- The `windowClear` of display.c. -/
def windowClear (s : World) (a : Nat) : Except Fault World :=
  match derefWindow s a with
  | .error e => .error e
  | .ok w =>
    let d := w.d
    match forRange d (w.dim.x - d) (fun i wi =>
        forRange d (w.dim.y - d) (fun j wj => putPenCell wj i j '\x00') wi) w with
    | .error e => .error e
    | .ok w1 =>
      markDirty { s with windows := Function.update s.windows a (some w1) } w1

/-! ## Rendering -/

/-- The `displaySetSize` of display.c. -/
def displaySetSize (s : World) (rows cols : Int) : Except Fault World :=
  let display := s.display
  if rows = display.dim.x ∧ cols = display.dim.y then .ok s
  else
    match buildStringBlock rows cols, buildColorBlock rows cols display.default_color,
        buildColorBlock rows cols display.default_background with
    | .ok current, .ok current_color, .ok current_background =>
      .ok { s with display := { display with
              dim := ⟨rows, cols⟩
              dirty := true
              current := current
              current_color := current_color
              current_background := current_background } }
    | _, _, _ => .error .alloc

/-- The `checkAndUpdateDisplaySize` of display.c; `ws` is the terminal size the
`ioctl` reports (`ws_row`, `ws_col`). -/
def checkAndUpdateDisplaySize (s : World) (ws : Point) : Except Fault World :=
  if !s.display.auto_size then .ok s
  else displaySetSize s ws.x ws.y

/-- The `displaySetAutoSize` of display.c. -/
def displaySetAutoSize (s : World) (autoSet : Bool) : World :=
  { s with display := { s.display with auto_size := autoSet } }

/-- The C `isspace` in the "C" locale. -/
def isspace (c : Char) : Bool :=
  c = ' ' ∨ c = '\t' ∨ c = '\n' ∨ c = Char.ofNat 11 ∨ c = Char.ofNat 12 ∨ c = '\r'

/-- The loop variables of the scan of `displayUpdate`. -/
structure Scan where
  world : World
  current_x : Int
  current_y : Int
  current_color : Int
  current_background : Int

/-- Append one item to the terminal sink. -/
def emit (s : World) (o : Out) : World :=
  { s with display := { s.display with term := s.display.term ++ [o] } }

/-- The body of the inner loop of `displayUpdate` at cell `(i, j)`. -/
def updateCell (fuel : Nat) (i j : Int) (st : Scan) : Except Fault Scan :=
  match renderPoint fuel st.world st.world.display.bottom_window i j with
  | .error e => .error e
  | .ok next =>
    let display := st.world.display
    if display.current i j ≠ next.data ∨ display.current_color i j ≠ next.color
        ∨ display.current_background i j ≠ next.background then
      let st1 : Scan :=
        if st.current_x ≠ i ∨ st.current_y ≠ j then
          { st with world := emit st.world (Out.cursorPos (i + 1) (j + 1))
                    current_x := i
                    current_y := j }
        else st
      let st2 : Scan :=
        if st1.current_color ≠ (next.color : Int) then
          { st1 with world := emit st1.world (Out.foreground next.color)
                     current_color := next.color }
        else st1
      let st3 : Scan :=
        if st2.current_background ≠ (next.background : Int) then
          { st2 with world := emit st2.world (Out.backgroundColor next.background)
                     current_background := next.background }
        else st2
      let c := next.data
      let data : Char := if isspace c = true ∨ c = '\x00' then ' ' else c
      let w4 := emit st3.world (Out.chr data)
      let d4 := w4.display
      .ok { st3 with
        world := { w4 with display := { d4 with
          current := setAt d4.current i j data
          current_color := setAt d4.current_color i j next.color
          current_background := setAt d4.current_background i j next.background } }
        current_y := st3.current_y + 1 }
    else .ok st

/-- The `displayUpdate` of display.c.  `fuel` bounds each walk of the window
stack and `ws` is the terminal size seen by the auto-size check. -/
def displayUpdate (fuel : Nat) (ws : Point) (s : World) : Except Fault World :=
  match checkAndUpdateDisplaySize s ws with
  | .error e => .error e
  | .ok s0 =>
    if s0.display.hidden ∨ !s0.display.dirty then .ok s0
    else
      let s1 : World := { s0 with display := { s0.display with dirty := false } }
      let s2 := emit s1 Out.saveCursor
      match forRange 0 s2.display.dim.x (fun i st =>
          forRange 0 s2.display.dim.y (fun j st1 => updateCell fuel i j st1) st)
          ⟨s2, -1, -1, -1, -1⟩ with
      | .error e => .error e
      | .ok st =>
        let s3 := if st.current_color ≠ (RESET : Int) then emit st.world Out.resetAttr
                  else st.world
        .ok (emit (emit s3 Out.restoreCursor) Out.flush)

/-! ## Single cells, colours and backgrounds -/

/-- The `windowChar` of display.c: the display is marked dirty first; the test
compares the shifted coordinates with zero and with the dimension of the
display. -/
def windowChar (s : World) (a : Nat) (c : Char) (x y : Int) : Except Fault World :=
  match derefWindow s a with
  | .error e => .error e
  | .ok window =>
    match markDirty s window with
    | .error e => .error e
    | .ok s1 =>
      let d := window.d
      let x := x + d
      let y := y + d
      if x > 0 ∧ x < s1.display.dim.x - d ∧ y > 0 ∧ y < s1.display.dim.y then
        match putPenCell window x y c with
        | .error e => .error e
        | .ok w1 => .ok { s1 with windows := Function.update s1.windows a (some w1) }
      else .ok s1

/-- The body of the loops of `windowSetColor` at cell `[i][j]`: the colour is
replaced when it equals `original`. -/
def recolorCell (original color : Nat) (i j : Int) (w : Window) : Except Fault Window :=
  if w.colors i j = original then
    if inBlock w.dim i j then .ok { w with colors := setAt w.colors i j color }
    else .error .gridIndex
  else .ok w

/-- The `windowSetColor` of display.c. -/
def windowSetColor (s : World) (a : Nat) (color : Nat) : Except Fault World :=
  match derefWindow s a with
  | .error e => .error e
  | .ok window =>
    let original := window.color
    let d := window.d
    match forRange d (window.dim.x - d) (fun i wi =>
        forRange d (window.dim.y - d) (fun j wj => recolorCell original color i j wj) wi)
        window with
    | .error e => .error e
    | .ok w1 =>
      let w2 : Window := { w1 with color := color }
      markDirty { s with windows := Function.update s.windows a (some w2) } w2

/-- A checked store into `window->backgrounds`. -/
def putBackground (w : Window) (r c : Int) (background : Nat) : Except Fault Window :=
  if inBlock w.dim r c then .ok { w with backgrounds := setAt w.backgrounds r c background }
  else .error .gridIndex

/-- The `windowDrawBackground` of display.c.  The outer loop runs while
`i < end_x + d && i < dim.x - d`; the test of the inner loop is
`j < end_y + d && i < dim.y - d`, whose second part does not depend on `j`. -/
def windowDrawBackground (s : World) (a : Nat) (background : Nat)
    (start_x start_y end_x end_y : Int) : Except Fault World :=
  match derefWindow s a with
  | .error e => .error e
  | .ok window =>
    let d := window.d
    match forRange (start_x + d) (min (end_x + d) (window.dim.x - d)) (fun i wi =>
        if i < window.dim.y - d then
          forRange (start_y + d) (end_y + d) (fun j wj => putBackground wj i j background) wi
        else .ok wi) window with
    | .error e => .error e
    | .ok w1 =>
      markDirty { s with windows := Function.update s.windows a (some w1) } w1

/-! ## Sequences of stack operations -/

/-- A call of one of the three operations that change the window stack. -/
inductive StackOp where
  | newWindow (a : Nat) (boarder : Bool) (pos_x pos_y dim_x dim_y : Int)
  | setTopWindow (a : Nat)
  | freeWindow (a : Nat)

/-- Run one stack operation. -/
def applyOp (s : World) : StackOp → Except Fault World
  | .newWindow a boarder pos_x pos_y dim_x dim_y => newWindow s a boarder pos_x pos_y dim_x dim_y
  | .setTopWindow a => setTopWindow s a
  | .freeWindow a => freeWindow s a

/-- Run a sequence of stack operations, first to last. -/
def runOps (s : World) : List StackOp → Except Fault World
  | [] => .ok s
  | op :: rest =>
    match applyOp s op with
    | .error e => .error e
    | .ok s1 => runOps s1 rest

/-- The precondition of one call: `newWindow` is given an address that holds no
live window and non-negative content dimensions; `setTopWindow` and `freeWindow`
are given a live window. -/
def opAllowed (s : World) : StackOp → Bool
  | .newWindow a _ _ _ dim_x dim_y =>
    (s.windows a).isNone && decide (0 ≤ dim_x) && decide (0 ≤ dim_y)
  | .setTopWindow a => (s.windows a).isSome
  | .freeWindow a => (s.windows a).isSome

/-- Every call of the sequence meets its precondition in the state it is made in. -/
def opsAllowed (s : World) : List StackOp → Bool
  | [] => true
  | op :: rest =>
    opAllowed s op &&
      (match applyOp s op with
       | .ok s1 => opsAllowed s1 rest
       | .error _ => true)

/-- The well-formed doubly linked stack of the claim: `L` lists the windows met
by following `next` from `bottom_window`; they are exactly the live windows, each
once; the walk ends at `top_window`; `last` inverts `next`; the outer links are
`NULL`; and both ends are `NULL` exactly when no window is live. -/
structure WellFormedStack (s : World) (L : List Nat) : Prop where
  stack : StackIs s L
  live : ∀ a, a ∈ L ↔ (s.windows a).isSome = true
  attached : ∀ a w, s.windows a = some w → w.display = DisplayPtr.valid
  bottom_last : ∀ b w, s.display.bottom_window = some b → s.windows b = some w → w.last = none
  top_next : ∀ t w, s.display.top_window = some t → s.windows t = some w → w.next = none
  next_last : ∀ a b wa, s.windows a = some wa → wa.next = some b →
    ∃ wb, s.windows b = some wb ∧ wb.last = some a
  last_next : ∀ a b wb, s.windows b = some wb → wb.last = some a →
    ∃ wa, s.windows a = some wa ∧ wa.next = some b
  empty_iff : (s.display.top_window = none ∧ s.display.bottom_window = none) ↔
    ∀ a, s.windows a = none

/-- Window `w'` is `w` with possibly different stack links. -/
def SameData (w w' : Window) : Prop :=
  w' = { w with next := w'.next, last := w'.last }

/-- Heap `h'` has the windows of `h`, with possibly different stack links. -/
def LinksOnly (h h' : Nat → Option Window) : Prop :=
  ∀ b, (h b = none ∧ h' b = none) ∨ ∃ w w', h b = some w ∧ h' b = some w' ∧ SameData w w'

/-- Display `d'` is `d` with possibly different stack ends. -/
def SameButEnds (d d' : Display) : Prop :=
  d' = { d with top_window := d'.top_window, bottom_window := d'.bottom_window }

/-- The inductive core of the stack invariant: the stack is `L`, the windows of
`L` are exactly the live ones, and every live window points back to the display. -/
structure StackInv (s : World) (L : List Nat) : Prop where
  stack : StackIs s L
  live : ∀ a, a ∈ L ↔ (s.windows a).isSome = true
  attached : ∀ a w, s.windows a = some w → w.display = DisplayPtr.valid

/-- A run of stack operations used as an example: three windows are created,
the bottom one is promoted, the middle one destroyed, the top one promoted
again, and a fourth window is created at the freed address. -/
def exampleOps : List StackOp :=
  [StackOp.newWindow 0 true 1 1 1 3, StackOp.newWindow 1 false 0 0 2 2,
   StackOp.newWindow 2 true 2 2 0 0, StackOp.setTopWindow 0, StackOp.freeWindow 1,
   StackOp.setTopWindow 0, StackOp.setTopWindow 2, StackOp.newWindow 1 false 1 1 1 1]

/-- Window `w'` is `w` with possibly different cell blocks. -/
def SameMeta (w w' : Window) : Prop :=
  w' = { w with contents := w'.contents, colors := w'.colors, backgrounds := w'.backgrounds }

/-- A character that `windowPrint` stores as a glyph and that is no tab: not NUL,
tab, newline or carriage return. -/
def plainChar (c : Char) : Bool :=
  decide (c ≠ '\x00') && decide (c ≠ '\t') && decide (c ≠ '\n') && decide (c ≠ '\r')

/-- The fields `newWindow` gives a window created with these arguments. -/
def FreshShape (boarder : Bool) (pos_x pos_y dim_x dim_y : Int) (w : Window) : Prop :=
  w.pos = ⟨if boarder then pos_x - 1 else pos_x, if boarder then pos_y - 1 else pos_y⟩ ∧
  w.dim = ⟨if boarder then dim_x + 2 else dim_x, if boarder then dim_y + 2 else dim_y⟩ ∧
  w.boarder = boarder ∧ w.hidden = false ∧ w.color = RESET ∧ w.background = BLACK ∧
  w.setBack = false

/-- Cell `[r][c]` is the same in `w` and `w'`: character, colour and background. -/
def SameCell (w w' : Window) (r c : Int) : Prop :=
  w'.contents r c = w.contents r c ∧ w'.colors r c = w.colors r c ∧
    w'.backgrounds r c = w.backgrounds r c

/-- Cell `[r][c]` of `w'` carries the pen of `w` the way `windowPrint` applies it:
the pen colour, and the pen background when `setBack` is on, else the
background the cell had. -/
def PenCell (w w' : Window) (r c : Int) : Prop :=
  w'.colors r c = w.color ∧
    w'.backgrounds r c = (if w.setBack then w.background else w.backgrounds r c)

/-- From `w` to `w'` only cell blocks changed, and every cell is either
untouched or carries the pen. -/
def PenStep (w w' : Window) : Prop :=
  SameMeta w w' ∧ ∀ r c, SameCell w w' r c ∨ PenCell w w' r c

/-- Every content cell of `w` has the pen colour. -/
def PenColoured (w : Window) : Prop :=
  ∀ i j, w.d ≤ i → i < w.dim.x - w.d → w.d ≤ j → j < w.dim.y - w.d → w.colors i j = w.color

/-- The character of cell `[i][j]` of a `dx` x `dy` grid after its border has
been stamped over the characters `old`: the corner glyph in the four corners,
the vertical glyph in the rest of columns `0` and `dy - 1`, the horizontal glyph
in the rest of rows `0` and `dx - 1`, and the old character elsewhere. -/
def boarderGlyph (dx dy : Int) (vertical horizontal corner : Char) (old : Int → Int → Char)
    (i j : Int) : Char :=
  if (i = 0 ∨ i = dx - 1) ∧ (j = 0 ∨ j = dy - 1) then corner
  else if (j = 0 ∨ j = dy - 1) ∧ 1 ≤ i ∧ i < dx - 1 then vertical
  else if (i = 0 ∨ i = dx - 1) ∧ 1 ≤ j ∧ j < dy - 1 then horizontal
  else old i j

/-- The cell blocks `newWindow` gives a window: the stamped border over NUL
characters when bordered, NUL characters otherwise; colour WHITE and background
BLACK everywhere. -/
def FreshCells (boarder : Bool) (dim_x dim_y : Int) (w : Window) : Prop :=
  (∀ i j, w.contents i j =
    if boarder then boarderGlyph (dim_x + 2) (dim_y + 2) '|' '-' '+' (fun _ _ => '\x00') i j
    else '\x00') ∧
  (∀ i j, w.colors i j = WHITE) ∧ (∀ i j, w.backgrounds i j = BLACK)

/-! ## Iterations of the print loop -/

/-- What one iteration of the loop of `windowPrint` leaves behind: the loop is
left (`finished` tells whether the terminator was reached), or the loop goes on
from the next loop state `(i, x, y)`. -/
inductive PrintStep where
  | done (w : Window) (finished : Bool)
  | next (w : Window) (i x y : Int)

/-- One iteration of the `for` loop of `windowPrint` from loop state `(i, x, y)`:
the test `str[i] != 0`, the body and the `i++`. -/
def printIter (str : List Char) (d : Int) (w : Window) (i x y : Int) : Except Fault PrintStep :=
  match strAt str i with
  | .error e => .error e
  | .ok c =>
    if c = '\x00' then .ok (.done w true)
    else if x + d ≥ w.dim.x - d then .ok (.done w false)
    else if isNotPrinted c = true ∧ i + y + d < w.dim.y - d then
      let tabbed : Except Fault (Window × Int) :=
        if c = '\t' then
          let pos := i + y
          let stop := (Int.tdiv (pos + 8) 8) * 8
          tabLoop (x + d) i d (stop - (i + y)).toNat w y
        else .ok (w, y)
      match tabbed with
      | .error e => .error e
      | .ok (w1, y1) =>
        match putCell w1 (x + d) (i + y1 + d) c with
        | .error e => .error e
        | .ok w2 => .ok (.next w2 (i + 1) x y1)
    else
      let i1 := if isNotPrinted c = true then i - 1 else i
      match strAt str i1 with
      | .error e => .error e
      | .ok c1 =>
        if c1 = '\r' then
          match strAt str (i1 + 1) with
          | .error e => .error e
          | .ok c2 => .ok (.next w (i1 + 1) (if c2 ≠ '\n' then x + 1 else x) y)
        else .ok (.next w (i1 + 1) (x + 1) (-1 - i1))

/-- The loop states `(w, i, x, y)` that the loop of `windowPrint` passes through
when started on window `w0` at `(x0, y0)`. -/
inductive LoopState (str : List Char) (d : Int) (w0 : Window) (x0 y0 : Int) :
    Window → Int → Int → Int → Prop
  | start : LoopState str d w0 x0 y0 w0 0 x0 y0
  | step (w : Window) (i x y : Int) (w1 : Window) (i1 x1 y1 : Int) :
      LoopState str d w0 x0 y0 w i x y →
      printIter str d w i x y = .ok (PrintStep.next w1 i1 x1 y1) →
      LoopState str d w0 x0 y0 w1 i1 x1 y1

/-! ## The scan of a render pass -/

/-- World `s'` shows the scene of `s`: the same windows, display size, default
colours and stack ends, which is all that `renderPoint` reads. -/
def SameScene (s s' : World) : Prop :=
  s'.windows = s.windows ∧ s'.display.dim = s.display.dim ∧
  s'.display.default_color = s.display.default_color ∧
  s'.display.default_background = s.display.default_background ∧
  s'.display.bottom_window = s.display.bottom_window ∧
  s'.display.top_window = s.display.top_window

/-- The test of `displayUpdate` at cell `(i, j)`: the frame buffer of `d` differs
from the composited cell `next`. -/
def cellDiffers (d : Display) (i j : Int) (next : char_struct) : Bool :=
  decide (d.current i j ≠ next.data ∨ d.current_color i j ≠ next.color
    ∨ d.current_background i j ≠ next.background)

/-- The frame buffer of `d` records the composited cell `next` at `(i, j)`: its
colour and background, and its character, or a space for a blank character. -/
def Recorded (d : Display) (i j : Int) (next : char_struct) : Prop :=
  d.current_color i j = next.color ∧ d.current_background i j = next.background ∧
  (d.current i j = next.data ∨
    ((isspace next.data = true ∨ next.data = '\x00') ∧ d.current i j = ' '))

/-- The character `displayUpdate` sends for a composited character. -/
def shownChar (c : Char) : Char :=
  if isspace c = true ∨ c = '\x00' then ' ' else c

/-- Cell `(i, j)` of world `s` differs from what `renderPoint` returns for it, so
that a pass of `displayUpdate` started in `s` emits it. -/
def differs (fuel : Nat) (s : World) (i j : Int) : Bool :=
  match renderPoint fuel s s.display.bottom_window i j with
  | .ok next => cellDiffers s.display i j next
  | .error _ => false

/-- Cell `(i, j)` differs and its left neighbour `(i, j - 1)` is no differing
cell of the display: the cell starts a run. -/
def runStart (fuel : Nat) (s : World) (i j : Int) : Bool :=
  differs fuel s i j && !(decide (1 ≤ j) && differs fuel s i (j - 1))

/-- The cursor-position escape and the character that a pass sends for cell
`(i, j)`: nothing for a cell that does not differ, and for a differing cell the
escape exactly at the start of a run, then the character. -/
def cellTokens (fuel : Nat) (s : World) (i j : Int) : List Out :=
  match renderPoint fuel s s.display.bottom_window i j with
  | .ok next =>
    if cellDiffers s.display i j next then
      (if runStart fuel s i j then [Out.cursorPos (i + 1) (j + 1)] else [])
        ++ [Out.chr (shownChar next.data)]
    else []
  | .error _ => []

/-- The values `0, 1, ..., n - 1` of a loop counter. -/
def indices (n : Int) : List Int :=
  (List.range n.toNat).map Int.ofNat

/-- The cursor-position escapes and characters of a whole pass, cell by cell in
scan order. -/
def scanTokens (fuel : Nat) (s : World) : List Out :=
  (indices s.display.dim.x).flatMap (fun i =>
    (indices s.display.dim.y).flatMap (fun j => cellTokens fuel s i j))

/-- Whether an item is a cursor-position escape. -/
def isCursorPos : Out → Bool
  | .cursorPos _ _ => true
  | _ => false

/-- Whether an item is a cursor-position escape or a character. -/
def cursorOrChar : Out → Bool
  | .cursorPos _ _ => true
  | .chr _ => true
  | _ => false

/-- The number of maximal runs of `true` in a list; `prev` is the flag before
the list. -/
def countRuns (prev : Bool) : List Bool → Nat
  | [] => 0
  | b :: rest => (if b && !prev then 1 else 0) + countRuns b rest

/-- The number of maximal runs of horizontally adjacent differing cells, summed
over the rows of the display. -/
def runCount (fuel : Nat) (s : World) : Nat :=
  ((indices s.display.dim.x).map (fun i =>
    countRuns false ((indices s.display.dim.y).map (fun j => differs fuel s i j)))).sum

/-- The state of the scan of `displayUpdate`, started in world `s` with sink
`base`, when it reaches cell `(i, J)`: the scene is that of `s`, the dirty flag
is clear, every cell before `(i, J)` in scan order records its composited cell,
every cell from `(i, J)` on is as in `s`, the escapes and characters sent so far
are those of the cells before `(i, J)`, and the tracked cursor is at `(i, J)`
exactly when the cell to the left was emitted. -/
structure ScanAt (fuel : Nat) (s : World) (base : List Out) (i J : Int) (st : Scan) :
    Prop where
  scene : SameScene s st.world
  clean : st.world.display.dirty = false
  done : ∀ r c, 0 ≤ r → 0 ≤ c → c < s.display.dim.y → (r < i ∨ (r = i ∧ c < J)) →
    ∃ next, renderPoint fuel s s.display.bottom_window r c = .ok next ∧
      Recorded st.world.display r c next
  rest : ∀ r c, ¬ (r < i ∨ (r = i ∧ c < J)) →
    st.world.display.current r c = s.display.current r c ∧
    st.world.display.current_color r c = s.display.current_color r c ∧
    st.world.display.current_background r c = s.display.current_background r c
  sent : ∃ out, st.world.display.term = base ++ out ∧
    out.filter cursorOrChar =
      (indices i).flatMap (fun r =>
        (indices s.display.dim.y).flatMap (fun c => cellTokens fuel s r c))
      ++ (indices J).flatMap (fun c => cellTokens fuel s i c)
  cursor : (1 ≤ J ∧ differs fuel s i (J - 1) = true ∧ st.current_x = i ∧ st.current_y = J) ∨
    ((J = 0 ∨ differs fuel s i (J - 1) = false) ∧
      (st.current_x < i ∨ (st.current_x = i ∧ st.current_y < J)))

/-! ## Example states -/

/-- A world with no display content and no window, the value of a failed construction. -/
def blankWorld : World :=
  { display := {
      current := fun _ _ => '\x00'
      current_color := fun _ _ => 0
      default_color := 0
      current_background := fun _ _ => 0
      default_background := 0
      dim := ⟨0, 0⟩
      term := []
      top_window := none
      bottom_window := none
      hidden := false
      dirty := false
      auto_size := false }
    windows := fun _ => none }

/-- A window object with empty blocks, the value read through a dead pointer. -/
def blankWindow : Window :=
  { contents := fun _ _ => '\x00'
    color := 0
    colors := fun _ _ => 0
    background := 0
    backgrounds := fun _ _ => 0
    pos := ⟨0, 0⟩
    dim := ⟨0, 0⟩
    display := DisplayPtr.raw 0
    boarder := false
    setBack := false
    hidden := false
    next := none
    last := none }

/-- The window object at address `a`. -/
def getWindow (s : World) (a : Nat) : Window :=
  match s.windows a with
  | some w => w
  | none => blankWindow

/-- The world of a run that ended normally. -/
def getWorld (r : Except Fault World) : World :=
  match r with
  | .ok s => s
  | .error _ => blankWorld

/-- Whether a run ended normally. -/
def succeeded {α : Type} (r : Except Fault α) : Bool :=
  match r with
  | .ok _ => true
  | .error _ => false

/-- Sequencing of operations on the world. -/
def andThen (r : Except Fault World) (f : World → Except Fault World) : Except Fault World :=
  match r with
  | .ok s => f s
  | .error e => .error e

/-- A 4 x 6 display with window A (address 0, rows 0-1, columns 0-2, filled with
`a`) created first and window B (address 1, rows 1-2, columns 1-3, filled with
`b`) created after it; they overlap in row 1, columns 1-2. -/
def worldAB : Except Fault World :=
  andThen (andThen (andThen (andThen (andThen (andThen (newDisplay 4 6)
    (fun s => newWindow s 0 false 0 0 2 3))
    (fun s => windowPrint s 0 ['a', 'a', 'a'] 0 0))
    (fun s => windowPrint s 0 ['a', 'a', 'a'] 1 0))
    (fun s => newWindow s 1 false 1 1 2 3))
    (fun s => windowPrint s 1 ['b', 'b', 'b'] 0 0))
    (fun s => windowPrint s 1 ['b', 'b', 'b'] 1 0)

/-- A 2 x 2 display with one borderless 1 x 1 window at (0, 0), never written to. -/
def worldOneCell : Except Fault World :=
  andThen (newDisplay 2 2) (fun s => newWindow s 0 false 0 0 1 1)

/-- The state `worldOneCell` after one `displayUpdate`. -/
def worldRendered : Except Fault World :=
  andThen worldOneCell (fun s => displayUpdate 1 ⟨0, 0⟩ s)

/-- The state `worldRendered` after `windowClear` on its (already clear) window. -/
def worldCleared : Except Fault World :=
  andThen worldRendered (fun s => windowClear s 0)

/-- A 3 x 5 display with one borderless window of 2 rows and 3 columns at (0, 0). -/
def worldSmall : Except Fault World :=
  andThen (newDisplay 3 5) (fun s => newWindow s 0 false 0 0 2 3)

/-- The scenario of the specification before the print: a 5 x 10 display and a
bordered window with content origin (1, 1) and content size 1 x 6. -/
def worldTiny : Except Fault World :=
  andThen (newDisplay 5 10) (fun s => newWindow s 0 true 1 1 1 6)

/-- The scenario of the specification: `hi` printed at content (0, 0) of the
window of `worldTiny`. -/
def worldHi : Except Fault World :=
  andThen worldTiny (fun s => windowPrint s 0 ['h', 'i'] 0 0)

/-- A 5 x 12 display with one bordered window of content size 1 x 8 (backing grid
3 x 10: border row 0 and 2, border column 0 and 9). -/
def worldTabBorder : Except Fault World :=
  andThen (newDisplay 5 12) (fun s => newWindow s 0 true 1 1 1 8)

/-- A 3 x 6 display with one borderless window of 1 row and 4 columns at (0, 0),
freshly created. -/
def worldRow : Except Fault World :=
  andThen (newDisplay 3 6) (fun s => newWindow s 0 false 0 0 1 4)

/-- The state `worldRow` after `windowPrintBackground (w, "a", 7, 3, 0, 0)`. -/
def worldRowPainted : Except Fault World :=
  andThen worldRow (fun s => windowPrintBackground s 0 ['a'] 7 3 0 0)

/-- The run of the recolouring scenario on `worldRow`: pen red, text `a` at
column 0, pen blue, text `b` at column 2, pen green. -/
def worldRecoloured : Except Fault World :=
  andThen (andThen (andThen (andThen (andThen worldRow
    (fun s => windowSetColor s 0 RED))
    (fun s => windowPrint s 0 ['a'] 0 0))
    (fun s => windowSetColor s 0 BLUE))
    (fun s => windowPrint s 0 ['b'] 0 2))
    (fun s => windowSetColor s 0 GREEN)

/-- A 5 x 10 display with one bordered window of content size 1 x 1 (backing
grid 3 x 3). -/
def worldUnit : Except Fault World :=
  andThen (newDisplay 5 10) (fun s => newWindow s 0 true 1 1 1 1)

/-- A 5 x 10 display with one borderless window of 3 rows and 2 columns. -/
def worldTall : Except Fault World :=
  andThen (newDisplay 5 10) (fun s => newWindow s 0 false 0 0 3 2)

/-- A 5 x 10 display with one bordered window of content size 2 x 2 (backing
grid 4 x 4). -/
def worldBox : Except Fault World :=
  andThen (newDisplay 5 10) (fun s => newWindow s 0 true 1 1 2 2)

/-- A 2 x 4 display with one borderless window of 1 row and 2 columns, after a
`displayUpdate`: the dirty flag is clear. -/
def worldQuiet : Except Fault World :=
  andThen (andThen (newDisplay 2 4) (fun s => newWindow s 0 false 0 0 1 2))
    (fun s => displayUpdate 1 ⟨0, 0⟩ s)

/-! ## Compositor lemmas -/

theorem overlay_append (s : World) (x y : Int) (l₁ l₂ : List Nat) (acc : char_struct) :
    overlay s x y (l₁ ++ l₂) acc = overlay s x y l₂ (overlay s x y l₁ acc) := by
  induction l₁ generalizing acc with
  | nil => rfl
  | cons a rest ih =>
    simp only [List.cons_append, overlay]
    cases s.windows a <;> simp [ih]

theorem overlay_not_covered (s : World) (x y : Int) (l : List Nat) (acc : char_struct)
    (h : ∀ b ∈ l, ∀ wb, s.windows b = some wb → ¬ covers wb x y) :
    overlay s x y l acc = acc := by
  induction l generalizing acc with
  | nil => rfl
  | cons a rest ih =>
    have hrest : ∀ b ∈ rest, ∀ wb, s.windows b = some wb → ¬ covers wb x y :=
      fun b hb => h b (List.mem_cons_of_mem _ hb)
    simp only [overlay]
    cases hw : s.windows a with
    | none => simpa using ih acc hrest
    | some w =>
      have hn : ¬ covers w x y := h a (List.mem_cons_self _ _) w hw
      simpa [hn] using ih acc hrest

/-- With the start window visible and every back-reference intact, the walk of
`renderPoint` along `next` computes `overlay` of the remaining stack. -/
theorem renderLoop_overlay (s : World) (x y : Int)
    (hx : 0 ≤ x ∧ x < s.display.dim.x) (hy : 0 ≤ y ∧ y < s.display.dim.y) :
    ∀ (l : List Nat) (prev : Option Nat) (fuel : Nat) (acc : char_struct),
      Seg s.windows prev l none →
      (∀ a ∈ l, ∀ w, s.windows a = some w → w.display = DisplayPtr.valid) →
      l.length ≤ fuel →
      renderLoop s false x y fuel l.head? acc = .ok (overlay s x y l acc) := by
  intro l
  induction l with
  | nil =>
    intro prev fuel acc _ _ _
    cases fuel <;> simp [renderLoop, overlay]
  | cons a rest ih =>
    intro prev fuel acc hc hd hf
    obtain ⟨w, hw, _, hnext, hrest⟩ := hc
    cases fuel with
    | zero => simp at hf
    | succ fuel =>
      have hf2 : rest.length ≤ fuel := by simpa using hf
      have hdw : w.display = DisplayPtr.valid := hd a (List.mem_cons_self _ _) w hw
      have hd2 : ∀ b ∈ rest, ∀ wb, s.windows b = some wb → wb.display = DisplayPtr.valid :=
        fun b hb => hd b (List.mem_cons_of_mem _ hb)
      have ih2 := fun acc2 => ih (some a) fuel acc2 hrest hd2 hf2
      have hxn : ¬ x < 0 := by omega
      have hnext2 : w.next = rest.head? := by rw [hnext]; cases rest <;> rfl
      simp only [List.head?_cons, renderLoop, derefWindow, hw, derefDisplay, hdw, hnext2,
        overlay, covers, hxn, if_false, Bool.false_eq_true]
      by_cases h1 : 0 ≤ x - w.pos.x ∧ x - w.pos.x < w.dim.x
      · by_cases h2 : 0 ≤ y - w.pos.y ∧ y - w.pos.y < w.dim.y
        · have hc1 : x < s.display.dim.x ∧ 0 ≤ x - w.pos.x ∧ x - w.pos.x < w.dim.x :=
            ⟨hx.2, h1.1, h1.2⟩
          have hc2 : 0 ≤ y ∧ y < s.display.dim.y ∧ 0 ≤ y - w.pos.y ∧ y - w.pos.y < w.dim.y :=
            ⟨hy.1, hy.2, h2.1, h2.2⟩
          have hc3 : 0 ≤ x - w.pos.x ∧ x - w.pos.x < w.dim.x ∧
              0 ≤ y - w.pos.y ∧ y - w.pos.y < w.dim.y := ⟨h1.1, h1.2, h2.1, h2.2⟩
          rw [if_pos hc1, if_pos hc2, if_pos hc3]
          exact ih2 _
        · have hc1 : x < s.display.dim.x ∧ 0 ≤ x - w.pos.x ∧ x - w.pos.x < w.dim.x :=
            ⟨hx.2, h1.1, h1.2⟩
          have hc2 : ¬ (0 ≤ y ∧ y < s.display.dim.y ∧ 0 ≤ y - w.pos.y ∧ y - w.pos.y < w.dim.y) :=
            fun h => h2 ⟨h.2.2.1, h.2.2.2⟩
          have hc3 : ¬ (0 ≤ x - w.pos.x ∧ x - w.pos.x < w.dim.x ∧
              0 ≤ y - w.pos.y ∧ y - w.pos.y < w.dim.y) := fun h => h2 ⟨h.2.2.1, h.2.2.2⟩
          rw [if_pos hc1, if_neg hc2, if_neg hc3]
          exact ih2 _
      · have hc1 : ¬ (x < s.display.dim.x ∧ 0 ≤ x - w.pos.x ∧ x - w.pos.x < w.dim.x) :=
          fun h => h1 ⟨h.2.1, h.2.2⟩
        have hc3 : ¬ (0 ≤ x - w.pos.x ∧ x - w.pos.x < w.dim.x ∧
            0 ≤ y - w.pos.y ∧ y - w.pos.y < w.dim.y) := fun h => h1 ⟨h.1, h.2.1⟩
        rw [if_neg hc1, if_neg hc3]
        exact ih2 _

/-! ## Lemmas on linked segments -/

theorem headOr_none (l : List Nat) : headOr l none = l.head? := by
  cases l <;> rfl

theorem lastOr_none (l : List Nat) : lastOr l none = l.getLast? := by
  have key : ∀ (l : List Nat) (p : Option Nat),
      lastOr l p = match l.getLast? with | none => p | some b => some b := by
    intro l
    induction l with
    | nil => intro p; rfl
    | cons a rest ih =>
      intro p
      rw [lastOr, ih]
      cases rest with
      | nil => rfl
      | cons b r =>
        rw [List.getLast?_cons_cons]
        have hne : (b :: r).getLast? = some ((b :: r).getLast (by simp)) :=
          List.getLast?_eq_getLast _ _
        rw [hne]
  rw [key]
  cases l.getLast? <;> rfl

theorem headOr_append (l₁ l₂ : List Nat) (n : Option Nat) :
    headOr (l₁ ++ l₂) n = headOr l₁ (headOr l₂ n) := by
  cases l₁ <;> rfl

theorem lastOr_append (l₁ l₂ : List Nat) (p : Option Nat) :
    lastOr (l₁ ++ l₂) p = lastOr l₂ (lastOr l₁ p) := by
  induction l₁ generalizing p with
  | nil => rfl
  | cons a rest ih => simp [lastOr, ih]

theorem seg_append {h : Nat → Option Window} (l₁ l₂ : List Nat) (p n : Option Nat) :
    Seg h p (l₁ ++ l₂) n ↔ Seg h p l₁ (headOr l₂ n) ∧ Seg h (lastOr l₁ p) l₂ n := by
  induction l₁ generalizing p with
  | nil => simp [Seg, lastOr]
  | cons a rest ih =>
    have hh : headOr (rest ++ l₂) n = headOr rest (headOr l₂ n) := headOr_append _ _ _
    show (∃ w, h a = some w ∧ w.last = p ∧ w.next = headOr (rest ++ l₂) n ∧
        Seg h (some a) (rest ++ l₂) n) ↔
      (∃ w, h a = some w ∧ w.last = p ∧ w.next = headOr rest (headOr l₂ n) ∧
        Seg h (some a) rest (headOr l₂ n)) ∧ Seg h (lastOr rest (some a)) l₂ n
    rw [hh, ih]
    constructor
    · rintro ⟨w, h1, h2, h3, h4, h5⟩
      exact ⟨⟨w, h1, h2, h3, h4⟩, h5⟩
    · rintro ⟨⟨w, h1, h2, h3, h4⟩, h5⟩
      exact ⟨w, h1, h2, h3, h4, h5⟩

/-- A segment survives any change of the heap that keeps the links of its windows. -/
theorem seg_frame {h h' : Nat → Option Window} {l : List Nat} {p n : Option Nat}
    (hs : Seg h p l n)
    (hf : ∀ b ∈ l, ∀ w, h b = some w →
      ∃ w', h' b = some w' ∧ w'.last = w.last ∧ w'.next = w.next) :
    Seg h' p l n := by
  induction l generalizing p with
  | nil => trivial
  | cons a rest ih =>
    obtain ⟨w, h1, h2, h3, h4⟩ := hs
    obtain ⟨w', g1, g2, g3⟩ := hf a (List.mem_cons_self _ _) w h1
    exact ⟨w', g1, g2.trans h2, g3.trans h3,
      ih h4 (fun b hb => hf b (List.mem_cons_of_mem _ hb))⟩

theorem seg_congr {h h' : Nat → Option Window} {l : List Nat} {p n : Option Nat}
    (hs : Seg h p l n) (hf : ∀ b ∈ l, h' b = h b) : Seg h' p l n :=
  seg_frame hs (fun b hb w hw => ⟨w, by rw [hf b hb, hw], rfl, rfl⟩)

theorem seg_live {h : Nat → Option Window} {l : List Nat} {p n : Option Nat}
    (hs : Seg h p l n) {b : Nat} (hb : b ∈ l) : ∃ w, h b = some w := by
  induction l generalizing p with
  | nil => simp at hb
  | cons a rest ih =>
    obtain ⟨w, h1, _, _, h4⟩ := hs
    rcases List.mem_cons.mp hb with rfl | hb'
    · exact ⟨w, h1⟩
    · exact ih h4 hb'

/-- Redirecting `last` of the first window of a segment. -/
theorem seg_set_last {h : Nat → Option Window} {b : Nat} {l : List Nat} {p n : Option Nat}
    (hs : Seg h p (b :: l) n) (hb : b ∉ l) (wb : Window) (hwb : h b = some wb)
    (p' : Option Nat) :
    Seg (Function.update h b (some { wb with last := p' })) p' (b :: l) n := by
  obtain ⟨w, h1, _, h3, h4⟩ := hs
  rw [hwb] at h1
  cases h1
  refine ⟨{ wb with last := p' }, by simp, rfl, h3, ?_⟩
  apply seg_congr h4
  intro c hc
  have : c ≠ b := fun e => hb (e ▸ hc)
  simp [Function.update_noteq this]

/-- Redirecting `next` of the last window of a segment. -/
theorem seg_set_next {h : Nat → Option Window} {t : Nat} {l : List Nat} {p n : Option Nat}
    (hs : Seg h p (l ++ [t]) n) (ht : t ∉ l) (wt : Window) (hwt : h t = some wt)
    (n' : Option Nat) :
    Seg (Function.update h t (some { wt with next := n' })) p (l ++ [t]) n' := by
  rw [seg_append] at hs ⊢
  obtain ⟨h1, w, h2, h3, _, _⟩ := hs
  rw [hwt] at h2
  cases h2
  constructor
  · apply seg_congr h1
    intro c hc
    have : c ≠ t := fun e => ht (e ▸ hc)
    simp [Function.update_noteq this]
  · exact ⟨{ wt with next := n' }, by simp, h3, rfl, trivial⟩

theorem modifyWindow_ok (s : World) (a : Nat) (f : Window → Window) (w : Window)
    (hw : s.windows a = some w) :
    modifyWindow s a f = .ok { s with windows := Function.update s.windows a (some (f w)) } := by
  simp [modifyWindow, derefWindow, hw]

/-! ## Effect of the stack operations -/

theorem linksOnly_refl (h : Nat → Option Window) : LinksOnly h h := by
  intro b
  cases hb : h b with
  | none => exact Or.inl ⟨rfl, rfl⟩
  | some w => exact Or.inr ⟨w, w, rfl, rfl, rfl⟩

theorem linksOnly_trans {h₁ h₂ h₃ : Nat → Option Window}
    (h12 : LinksOnly h₁ h₂) (h23 : LinksOnly h₂ h₃) : LinksOnly h₁ h₃ := by
  intro b
  rcases h12 b with ⟨e1, e2⟩ | ⟨w, w', e1, e2, e3⟩
  · rcases h23 b with ⟨_, f2⟩ | ⟨v, v', f1, _, _⟩
    · exact Or.inl ⟨e1, f2⟩
    · rw [e2] at f1; cases f1
  · rcases h23 b with ⟨f1, _⟩ | ⟨v, v', f1, f2, f3⟩
    · rw [e2] at f1; cases f1
    · rw [e2] at f1
      cases f1
      refine Or.inr ⟨w, v', e1, f2, ?_⟩
      unfold SameData at e3 f3 ⊢
      rw [f3, e3]

theorem linksOnly_update (h : Nat → Option Window) (a : Nat) (w w' : Window)
    (hw : h a = some w) (hs : SameData w w') :
    LinksOnly h (Function.update h a (some w')) := by
  intro b
  by_cases hb : b = a
  · subst hb
    exact Or.inr ⟨w, w', hw, by simp, hs⟩
  · rw [Function.update_noteq hb]
    exact linksOnly_refl h b

theorem list_nil_or_snoc (l : List Nat) : l = [] ∨ ∃ l' t, l = l' ++ [t] := by
  rcases List.eq_nil_or_concat l with h | ⟨l', t, h⟩
  · exact Or.inl h
  · exact Or.inr ⟨l', t, by rw [h, List.concat_eq_append]⟩

theorem sameData_next (w : Window) (n : Option Nat) : SameData w { w with next := n } := rfl

theorem sameData_last (w : Window) (l : Option Nat) : SameData w { w with last := l } := rfl

theorem yankWindow_spec (s : World) (pre post : List Nat) (a : Nat) (w : Window)
    (hst : StackIs s (pre ++ a :: post)) (hw : s.windows a = some w)
    (hd : w.display = DisplayPtr.valid) :
    ∃ s', yankWindow s a = .ok s' ∧ StackIs s' (pre ++ post) ∧ s'.windows a = some w ∧
      LinksOnly s.windows s'.windows ∧ SameButEnds s.display s'.display := by
  obtain ⟨hnd, hch, hbot, htop⟩ := hst
  obtain ⟨hanot, hnd2⟩ := List.nodup_cons.mp (List.nodup_middle.mp hnd)
  have ha_pre : a ∉ pre := fun h => hanot (List.mem_append_left _ h)
  have ha_post : a ∉ post := fun h => hanot (List.mem_append_right _ h)
  rw [seg_append] at hch
  obtain ⟨hpre, wa, hwa, hlast, hnext, hpost⟩ := hch
  rw [hw] at hwa
  cases hwa
  rw [lastOr_none] at hlast
  cases post with
  | nil =>
    have htop' : s.display.top_window = some a := by rw [htop]; simp
    rcases list_nil_or_snoc pre with rfl | ⟨pre', l, rfl⟩
    · have hl : w.last = none := hlast
      have hy : yankWindow s a = .ok { s with display :=
          { s.display with top_window := none, bottom_window := none } } := by
        simp [yankWindow, derefWindow, hw, derefDisplay, hd, htop', hl]
      exact ⟨_, hy, ⟨by simp, trivial, rfl, rfl⟩, hw, linksOnly_refl _, rfl⟩
    · have hl : w.last = some l := by rw [hlast]; simp
      obtain ⟨wl, hwl⟩ := seg_live hpre (b := l) (by simp)
      simp only [List.append_nil] at hnd2 ⊢
      have hlnot : l ∉ pre' := fun h =>
        (List.nodup_append.mp hnd2).2.2 h (List.mem_singleton_self l)
      have hla : l ≠ a := fun e => ha_pre (by rw [← e]; simp)
      have hy : yankWindow s a = .ok
          { display := { s.display with top_window := some l }
            windows := Function.update s.windows l (some { wl with next := none }) } := by
        simp [yankWindow, derefWindow, hw, derefDisplay, hd, htop', hl, modifyWindow, hwl]
      refine ⟨_, hy, ⟨hnd2, seg_set_next hpre hlnot wl hwl none, ?_, by simp⟩, ?_,
        linksOnly_update _ l wl _ hwl (sameData_next wl none), rfl⟩
      · show s.display.bottom_window = _
        rw [hbot]
        cases pre' <;> rfl
      · show Function.update s.windows l _ a = some w
        rw [Function.update_noteq (Ne.symm hla), hw]
  | cons n post' =>
    have hn : w.next = some n := hnext
    have hna : n ≠ a := fun e => ha_post (by rw [← e]; simp)
    have htopne : s.display.top_window ≠ some a := by
      rw [htop]
      intro e
      have hmem : a ∈ (pre ++ a :: n :: post') := by simp
      have hlast2 : (pre ++ a :: n :: post').getLast? = (n :: post').getLast? := by
        rw [show pre ++ a :: n :: post' = (pre ++ [a]) ++ (n :: post') by simp]
        exact List.getLast?_append_of_ne_nil _ (by simp)
      rw [hlast2] at e
      exact ha_post (List.mem_of_getLast?_eq_some e)
    obtain ⟨wn, hwn⟩ := seg_live hpost (b := n) (by simp)
    have hn_post : n ∉ post' := by
      have h1 := (List.nodup_append.mp hnd2).2.1
      exact (List.nodup_cons.mp h1).1
    have hn_pre : n ∉ pre := fun h =>
      (List.nodup_append.mp hnd2).2.2 h (List.mem_cons_self _ _)
    have hpost1 := seg_set_last hpost hn_post wn hwn w.last
    rcases list_nil_or_snoc pre with rfl | ⟨pre', l, rfl⟩
    · have hl : w.last = none := hlast
      have hy : yankWindow s a = .ok
          { display := { s.display with bottom_window := some n }
            windows := Function.update s.windows n (some { wn with last := none }) } := by
        simp [yankWindow, derefWindow, hw, derefDisplay, hd, htopne, hl, hn, modifyWindow, hwn]
      rw [hl] at hpost1
      refine ⟨_, hy, ⟨hnd2, hpost1, rfl, ?_⟩, ?_,
        linksOnly_update _ n wn _ hwn (sameData_last wn none), rfl⟩
      · show s.display.top_window = _
        rw [htop]
        simp [List.getLast?_cons_cons]
      · show Function.update s.windows n _ a = some w
        rw [Function.update_noteq (Ne.symm hna), hw]
    · have hl : w.last = some l := by rw [hlast]; simp
      obtain ⟨wl, hwl⟩ := seg_live hpre (b := l) (by simp)
      have hlnot : l ∉ pre' := fun h =>
        (List.nodup_append.mp (List.nodup_append.mp hnd2).1).2.2 h (List.mem_singleton_self l)
      have hla : l ≠ a := fun e => ha_pre (by rw [← e]; simp)
      have hln : l ≠ n := fun e => hn_pre (by rw [← e]; simp)
      have hl_post : l ∉ n :: post' := fun h =>
        (List.nodup_append.mp hnd2).2.2 (by simp) h
      have hy : yankWindow s a = .ok
          { display := s.display
            windows := Function.update
              (Function.update s.windows n (some { wn with last := some l }))
              l (some { wl with next := some n }) } := by
        simp [yankWindow, derefWindow, hw, derefDisplay, hd, htopne, hl, hn, modifyWindow, hwn,
          Function.update_noteq hln, hwl]
      rw [hl] at hpost1
      have hpre1 : Seg (Function.update s.windows n (some { wn with last := some l })) none
          (pre' ++ [l]) (some a) := by
        apply seg_congr hpre
        intro c hc
        have : c ≠ n := fun e => hn_pre (e ▸ hc)
        simp [Function.update_noteq this]
      have hwl1 : Function.update s.windows n (some { wn with last := some l }) l = some wl := by
        rw [Function.update_noteq hln, hwl]
      have hpre2 := seg_set_next hpre1 hlnot wl hwl1 (some n)
      have hpost2 : Seg (Function.update
            (Function.update s.windows n (some { wn with last := some l }))
            l (some { wl with next := some n })) (some l) (n :: post') none := by
        apply seg_congr hpost1
        intro c hc
        have : c ≠ l := fun e => hl_post (e ▸ hc)
        simp [Function.update_noteq this]
      refine ⟨_, hy, ⟨hnd2, ?_, ?_, ?_⟩, ?_, ?_, rfl⟩
      · rw [seg_append]
        refine ⟨hpre2, ?_⟩
        rw [lastOr_none]
        simpa using hpost2
      · show s.display.bottom_window = _
        rw [hbot]
        cases pre' <;> rfl
      · show s.display.top_window = _
        rw [htop]
        rw [show pre' ++ [l] ++ a :: n :: post' = (pre' ++ [l] ++ [a]) ++ (n :: post') by simp]
        rw [List.getLast?_append_of_ne_nil _ (by simp),
          List.getLast?_append_of_ne_nil _ (by simp)]
      · show Function.update (Function.update s.windows n _) l _ a = some w
        rw [Function.update_noteq (Ne.symm hla), Function.update_noteq (Ne.symm hna), hw]
      · exact linksOnly_trans (linksOnly_update _ n wn _ hwn (sameData_last wn (some l)))
          (linksOnly_update _ l wl _ hwl1 (sameData_next wl (some n)))

/-- Linking window `a` above the top window `t` of a non-empty stack. -/
theorem seg_push {h : Nat → Option Window} {M : List Nat} {t a : Nat}
    (hM : Seg h none (M ++ [t]) none) (ha : a ∉ M ++ [t]) (ht : t ∉ M)
    (wt : Window) (hwt : h t = some wt) (wa : Window)
    (hla : wa.last = some t) (hna : wa.next = none) :
    Seg (Function.update (Function.update h a (some wa)) t (some { wt with next := some a }))
      none ((M ++ [t]) ++ [a]) none := by
  have hta : t ≠ a := fun e => ha (by rw [← e]; simp)
  have h1 : Seg (Function.update h a (some wa)) none (M ++ [t]) none := by
    apply seg_congr hM
    intro c hc
    have : c ≠ a := fun e => ha (e ▸ hc)
    simp [Function.update_noteq this]
  have hwt1 : Function.update h a (some wa) t = some wt := by
    rw [Function.update_noteq hta, hwt]
  have h2 := seg_set_next h1 ht wt hwt1 (some a)
  rw [seg_append]
  refine ⟨h2, wa, ?_, ?_, hna, trivial⟩
  · rw [Function.update_noteq (Ne.symm hta)]
    simp
  · rw [hla, lastOr_append]
    rfl

theorem setTopWindow_spec (s : World) (pre post : List Nat) (a : Nat) (w : Window)
    (hst : StackIs s (pre ++ a :: post)) (hw : s.windows a = some w)
    (hd : w.display = DisplayPtr.valid) :
    ∃ s', setTopWindow s a = .ok s' ∧ StackIs s' (pre ++ post ++ [a]) ∧
      LinksOnly s.windows s'.windows ∧ (post = [] → s' = s) := by
  cases hpost : post with
  | nil =>
    have htop' : s.display.top_window = some a := by rw [hst.top, hpost]; simp
    refine ⟨s, by simp [setTopWindow, derefWindow, hw, derefDisplay, hd, htop'], ?_,
      linksOnly_refl _, fun _ => rfl⟩
    rw [hpost] at hst
    simpa using hst
  | cons n post' =>
    rw [← hpost]
    have hne : post ≠ [] := by rw [hpost]; simp
    obtain ⟨hanot, hnd2⟩ := List.nodup_cons.mp (List.nodup_middle.mp hst.nodup)
    have htopne : s.display.top_window ≠ some a := by
      rw [hst.top]
      intro e
      rw [show pre ++ a :: post = (pre ++ [a]) ++ post by simp,
        List.getLast?_append_of_ne_nil _ hne] at e
      exact hanot (List.mem_append_right _ (List.mem_of_getLast?_eq_some e))
    obtain ⟨s1, hy, hst1, hwa1, hl1, hdisp1⟩ := yankWindow_spec s pre post a w hst hw hd
    obtain ⟨M, t, hM⟩ : ∃ M t, pre ++ post = M ++ [t] := by
      rcases list_nil_or_snoc (pre ++ post) with h | h
      · simp [hne] at h
      · exact h
    have htop1 : s1.display.top_window = some t := by rw [hst1.top, hM]; simp
    have htM : t ∉ M := fun h => by
      have := hst1.nodup
      rw [hM] at this
      exact (List.nodup_append.mp this).2.2 h (List.mem_singleton_self t)
    have hta : t ≠ a := fun e => hanot (by rw [hM, ← e]; simp)
    have hchain := hst1.chain
    rw [hM] at hchain
    obtain ⟨wt, hwt⟩ := seg_live hchain (b := t) (by simp)
    have haM : a ∉ M ++ [t] := by rw [← hM]; exact hanot
    have hpush := seg_push hchain haM htM wt hwt
      { w with next := none, last := some t } rfl rfl
    have hset : setTopWindow s a = .ok
        { display := { s1.display with top_window := some a, dirty := true }
          windows := Function.update
            (Function.update s1.windows a (some { w with next := none, last := some t }))
            t (some { wt with next := some a }) } := by
      simp [setTopWindow, derefWindow, hw, derefDisplay, hd, htopne, hy, modifyWindow, hwa1,
        htop1, Function.update_noteq hta, hwt]
    refine ⟨_, hset, ⟨?_, ?_, ?_, ?_⟩, ?_, fun h => absurd h hne⟩
    · rw [List.nodup_append]
      refine ⟨hnd2, List.nodup_singleton a, ?_⟩
      intro x hx hx2
      rw [List.mem_singleton] at hx2
      exact hanot (hx2 ▸ hx)
    · rw [hM]
      exact hpush
    · show s1.display.bottom_window = _
      rw [hst1.bottom, hM]
      cases M <;> rfl
    · simp
    · refine linksOnly_trans hl1 (linksOnly_trans
        (linksOnly_update _ a w { w with next := none, last := some t } hwa1 rfl) ?_)
      exact linksOnly_update _ t wt _ (by rw [Function.update_noteq hta, hwt])
        (sameData_next wt (some a))

theorem freeWindow_spec (s : World) (pre post : List Nat) (a : Nat) (w : Window)
    (hst : StackIs s (pre ++ a :: post)) (hw : s.windows a = some w)
    (hd : w.display = DisplayPtr.valid) :
    ∃ s', freeWindow s a = .ok s' ∧ StackIs s' (pre ++ post) ∧ s'.windows a = none ∧
      ∀ b, b ≠ a → (s.windows b = none ∧ s'.windows b = none) ∨
        ∃ wb wb', s.windows b = some wb ∧ s'.windows b = some wb' ∧ SameData wb wb' := by
  obtain ⟨hanot, hnd2⟩ := List.nodup_cons.mp (List.nodup_middle.mp hst.nodup)
  obtain ⟨s1, hy, hst1, hwa1, hl1, hdisp1⟩ := yankWindow_spec s pre post a w hst hw hd
  have hfree : freeWindow s a = .ok
      { display := { s1.display with dirty := true }
        windows := Function.update s1.windows a none } := by
    simp [freeWindow, hy, derefWindow, hwa1, markDirty, derefDisplay, hd]
  refine ⟨_, hfree, ⟨hst1.nodup, ?_, hst1.bottom, hst1.top⟩, by simp, ?_⟩
  · apply seg_congr hst1.chain
    intro c hc
    have : c ≠ a := fun e => hanot (e ▸ hc)
    simp [Function.update_noteq this]
  · intro b hb
    show (_ ∧ Function.update s1.windows a none b = none) ∨
      ∃ wb wb', _ ∧ Function.update s1.windows a none b = some wb' ∧ _
    rw [Function.update_noteq hb]
    exact hl1 b

/-! ## Creation of a window -/

/-- Invariant rule for the counted loop: a property kept by every iteration
holds after the loop, and the loop ends normally. -/
theorem forLoop_inv {σ : Type} (body : Int → σ → Except Fault σ) (P : σ → Prop) :
    ∀ (n : Nat) (lo : Int) (st : σ), P st →
      (∀ i st1, lo ≤ i → i < lo + n → P st1 → ∃ st2, body i st1 = .ok st2 ∧ P st2) →
      ∃ st', forLoop body n lo st = .ok st' ∧ P st' := by
  intro n
  induction n with
  | zero => intro lo st hP _; exact ⟨st, rfl, hP⟩
  | succ n ih =>
    intro lo st hP hstep
    obtain ⟨st2, hb, hP2⟩ := hstep lo st (le_refl _) (by push_cast; omega) hP
    obtain ⟨st3, hl, hP3⟩ := ih (lo + 1) st2 hP2 (fun i st1 h1 h2 h3 =>
      hstep i st1 (by omega) (by push_cast; omega) h3)
    exact ⟨st3, by simp [forLoop, hb, hl], hP3⟩

theorem putChar_ok (w : Window) (r c : Int) (ch : Char) (h : inBlock w.dim r c = true) :
    putChar w r c ch = .ok { w with contents := setAt w.contents r c ch } := by
  simp [putChar, h]

theorem inBlock_iff (dim : Point) (i j : Int) :
    inBlock dim i j = true ↔ 0 ≤ i ∧ i < dim.x ∧ 0 ≤ j ∧ j ≤ dim.y := by
  simp [inBlock, and_assoc]

/-- Stamping the border of a grid with at least two rows and two columns ends
normally and changes only `contents`. -/
theorem stampBoarder_ok (w : Window) (v h k : Char) (hx : 2 ≤ w.dim.x) (hy : 2 ≤ w.dim.y) :
    ∃ c, stampBoarder w v h k = .ok { w with contents := c } := by
  have hb : ∀ (c : Int → Int → Char) (r j : Int), 0 ≤ r → r < w.dim.x → 0 ≤ j → j ≤ w.dim.y →
      ∀ ch, putChar { w with contents := c } r j ch
        = .ok { w with contents := setAt c r j ch } := by
    intro c r j h1 h2 h3 h4 ch
    exact putChar_ok { w with contents := c } r j ch ((inBlock_iff _ _ _).2 ⟨h1, h2, h3, h4⟩)
  have hw0 : w = { w with contents := w.contents } := rfl
  obtain ⟨st5, h5, c5, hc5⟩ := forLoop_inv (fun i wi =>
      match putChar wi i 0 v with
      | .error e => .error e
      | .ok wj => putChar wj i (w.dim.y - 1) v)
    (fun w' => ∃ c, w' = { w with contents := c }) (w.dim.x - 1 - 1).toNat 1
    { w with contents := setAt (setAt (setAt (setAt w.contents 0 0 k) 0 (w.dim.y - 1) k)
        (w.dim.x - 1) 0 k) (w.dim.x - 1) (w.dim.y - 1) k } ⟨_, rfl⟩
    (by
      rintro i st1 hi1 hi2 ⟨c, rfl⟩
      have hi3 : i < w.dim.x := by omega
      beta_reduce
      rw [hb c i 0 (by omega) hi3 (le_refl _) (by omega)]
      simp only
      rw [hb _ i (w.dim.y - 1) (by omega) hi3 (by omega) (by omega)]
      exact ⟨_, rfl, _, rfl⟩)
  subst hc5
  obtain ⟨st6, h6, c6, hc6⟩ := forLoop_inv (fun i wi =>
      match putChar wi 0 i h with
      | .error e => .error e
      | .ok wj => putChar wj (w.dim.x - 1) i h)
    (fun w' => ∃ c, w' = { w with contents := c }) (w.dim.y - 1 - 1).toNat 1
    { w with contents := c5 } ⟨_, rfl⟩
    (by
      rintro i st1 hi1 hi2 ⟨c, rfl⟩
      have hi3 : i ≤ w.dim.y := by omega
      beta_reduce
      rw [hb c 0 i (le_refl _) (by omega) (by omega) hi3]
      simp only
      rw [hb _ (w.dim.x - 1) i (by omega) (by omega) (by omega) hi3]
      exact ⟨_, rfl, _, rfl⟩)
  subst hc6
  refine ⟨c6, ?_⟩
  unfold stampBoarder
  nth_rewrite 1 [hw0]
  rw [hb _ 0 0 (le_refl _) (by omega) (le_refl _) (by omega)]
  simp only
  rw [hb _ 0 (w.dim.y - 1) (le_refl _) (by omega) (by omega) (by omega)]
  simp only
  rw [hb _ (w.dim.x - 1) 0 (by omega) (by omega) (le_refl _) (by omega)]
  simp only
  rw [hb _ (w.dim.x - 1) (w.dim.y - 1) (by omega) (by omega) (by omega) (by omega)]
  simp only [forRange]
  rw [h5]
  simp only
  rw [h6]

/-! ## Counted loops with an indexed invariant -/

/-- Invariant rule for the counted loop with an invariant that depends on the
loop index. -/
theorem forLoop_ind {σ : Type} (body : Int → σ → Except Fault σ) (P : Int → σ → Prop) :
    ∀ (n : Nat) (lo : Int) (st : σ), P lo st →
      (∀ i st1, lo ≤ i → i < lo + n → P i st1 → ∃ st2, body i st1 = .ok st2 ∧ P (i + 1) st2) →
      ∃ st', forLoop body n lo st = .ok st' ∧ P (lo + n) st' := by
  intro n
  induction n with
  | zero =>
    intro lo st hP _
    exact ⟨st, rfl, by simpa using hP⟩
  | succ n ih =>
    intro lo st hP hstep
    obtain ⟨st2, hb, hP2⟩ := hstep lo st (le_refl _) (by push_cast; omega) hP
    obtain ⟨st3, hl, hP3⟩ := ih (lo + 1) st2 hP2 (fun i st1 h1 h2 h3 =>
      hstep i st1 (by omega) (by push_cast; omega) h3)
    refine ⟨st3, by simp [forLoop, hb, hl], ?_⟩
    have e : lo + ((n + 1 : Nat) : Int) = lo + 1 + n := by push_cast; ring
    rw [e]
    exact hP3

/-- Invariant rule for `for (i = lo; i < hi; i++)`. -/
theorem forRange_ind {σ : Type} (lo hi : Int) (body : Int → σ → Except Fault σ)
    (P : Int → σ → Prop) (st : σ) (h0 : P lo st)
    (hstep : ∀ i st1, lo ≤ i → i < hi → P i st1 →
      ∃ st2, body i st1 = .ok st2 ∧ P (i + 1) st2) :
    ∃ st', forRange lo hi body st = .ok st' ∧ P (max lo hi) st' := by
  obtain ⟨st', h1, h2⟩ := forLoop_ind body P (hi - lo).toNat lo st h0
    (fun i st1 hi1 hi2 hP => hstep i st1 hi1 (by omega) hP)
  refine ⟨st', h1, ?_⟩
  have e : lo + ((hi - lo).toNat : Int) = max lo hi := by omega
  rw [← e]
  exact h2

/-- Stamping the border of a grid with at least two rows and two columns ends
normally, changes only `contents`, and leaves `boarderGlyph` in every cell. -/
theorem stampBoarder_spec (w : Window) (v h k : Char) (hx : 2 ≤ w.dim.x) (hy : 2 ≤ w.dim.y) :
    ∃ c, stampBoarder w v h k = .ok { w with contents := c } ∧
      ∀ i j, c i j = boarderGlyph w.dim.x w.dim.y v h k w.contents i j := by
  have hb : ∀ (c : Int → Int → Char) (r j : Int), 0 ≤ r → r < w.dim.x → 0 ≤ j → j ≤ w.dim.y →
      ∀ ch, putChar { w with contents := c } r j ch
        = .ok { w with contents := setAt c r j ch } := by
    intro c r j h1 h2 h3 h4 ch
    exact putChar_ok { w with contents := c } r j ch ((inBlock_iff _ _ _).2 ⟨h1, h2, h3, h4⟩)
  have hw0 : w = { w with contents := w.contents } := rfl
  obtain ⟨c4, hc4⟩ : ∃ c4 : Int → Int → Char, c4 =
      setAt (setAt (setAt (setAt w.contents 0 0 k) 0 (w.dim.y - 1) k)
        (w.dim.x - 1) 0 k) (w.dim.x - 1) (w.dim.y - 1) k := ⟨_, rfl⟩
  obtain ⟨st5, h5, c5, hc5, hg5⟩ := forRange_ind 1 (w.dim.x - 1) (fun i wi =>
      match putChar wi i 0 v with
      | .error e => .error e
      | .ok wj => putChar wj i (w.dim.y - 1) v)
    (fun i w' => ∃ c, w' = { w with contents := c } ∧
      ∀ a b, c a b = if (b = 0 ∨ b = w.dim.y - 1) ∧ 1 ≤ a ∧ a < i then v else c4 a b)
    { w with contents := c4 }
    ⟨c4, rfl, fun a b => by
      have : ¬ ((b = 0 ∨ b = w.dim.y - 1) ∧ 1 ≤ a ∧ a < 1) := by omega
      rw [if_neg this]⟩
    (by
      rintro i st1 hi1 hi2 ⟨c, rfl, hc⟩
      have hi3 : i < w.dim.x := by omega
      beta_reduce
      rw [hb c i 0 (by omega) hi3 (le_refl _) (by omega)]
      simp only
      rw [hb _ i (w.dim.y - 1) (by omega) hi3 (by omega) (by omega)]
      refine ⟨_, rfl, _, rfl, ?_⟩
      intro a b
      unfold setAt
      rw [hc a b]
      split_ifs <;> first | rfl | omega)
  subst hc5
  obtain ⟨st6, h6, c6, hc6, hg6⟩ := forRange_ind 1 (w.dim.y - 1) (fun i wi =>
      match putChar wi 0 i h with
      | .error e => .error e
      | .ok wj => putChar wj (w.dim.x - 1) i h)
    (fun i w' => ∃ c, w' = { w with contents := c } ∧
      ∀ a b, c a b = if (a = 0 ∨ a = w.dim.x - 1) ∧ 1 ≤ b ∧ b < i then h else c5 a b)
    { w with contents := c5 }
    ⟨c5, rfl, fun a b => by
      have : ¬ ((a = 0 ∨ a = w.dim.x - 1) ∧ 1 ≤ b ∧ b < 1) := by omega
      rw [if_neg this]⟩
    (by
      rintro i st1 hi1 hi2 ⟨c, rfl, hc⟩
      have hi3 : i ≤ w.dim.y := by omega
      beta_reduce
      rw [hb c 0 i (le_refl _) (by omega) (by omega) hi3]
      simp only
      rw [hb _ (w.dim.x - 1) i (by omega) (by omega) (by omega) hi3]
      refine ⟨_, rfl, _, rfl, ?_⟩
      intro a b
      unfold setAt
      rw [hc a b]
      split_ifs <;> first | rfl | omega)
  subst hc6
  refine ⟨c6, ?_, ?_⟩
  · unfold stampBoarder
    nth_rewrite 1 [hw0]
    rw [hb _ 0 0 (le_refl _) (by omega) (le_refl _) (by omega)]
    simp only
    rw [hb _ 0 (w.dim.y - 1) (le_refl _) (by omega) (by omega) (by omega)]
    simp only
    rw [hb _ (w.dim.x - 1) 0 (by omega) (by omega) (le_refl _) (by omega)]
    simp only
    rw [hb _ (w.dim.x - 1) (w.dim.y - 1) (by omega) (by omega) (by omega) (by omega)]
    simp only [forRange] at h5 h6 ⊢
    rw [← hc4]
    erw [h5]
    simp only
    erw [h6]
  · intro i j
    rw [hg6 i j, hg5 i j, hc4]
    unfold boarderGlyph setAt
    have e1 : max 1 (w.dim.x - 1) = w.dim.x - 1 := by omega
    have e2 : max 1 (w.dim.y - 1) = w.dim.y - 1 := by omega
    rw [e1, e2]
    split_ifs <;> first | rfl | omega

theorem newWindow_spec (s : World) (L : List Nat) (a : Nat) (boarder : Bool)
    (pos_x pos_y dim_x dim_y : Int)
    (hst : StackIs s L) (hfresh : s.windows a = none) (hdx : 0 ≤ dim_x) (hdy : 0 ≤ dim_y) :
    ∃ s' wa, newWindow s a boarder pos_x pos_y dim_x dim_y = .ok s' ∧ StackIs s' (L ++ [a]) ∧
      s'.windows a = some wa ∧ wa.display = DisplayPtr.valid ∧
      (∀ b, b ≠ a → (s.windows b = none ∧ s'.windows b = none) ∨
        ∃ wb wb', s.windows b = some wb ∧ s'.windows b = some wb' ∧ SameData wb wb') ∧
      FreshShape boarder pos_x pos_y dim_x dim_y wa ∧ s'.display.dim = s.display.dim ∧
      FreshCells boarder dim_x dim_y wa := by
  have haL : a ∉ L := fun h => by
    obtain ⟨w, hw⟩ := seg_live hst.chain h
    rw [hfresh] at hw
    cases hw
  have hnd : (L ++ [a]).Nodup := by
    rw [List.nodup_append]
    refine ⟨hst.nodup, List.nodup_singleton a, ?_⟩
    intro x hx hx2
    rw [List.mem_singleton] at hx2
    exact haL (hx2 ▸ hx)
  have hdx2 : ¬ ((if boarder = true then dim_x + 2 else dim_x) < 0) := by
    split <;> omega
  have hdy2 : ¬ ((if boarder = true then dim_y + 2 else dim_y) < 0) := by
    split <;> omega
  have hstamp : ∀ w0 : Window,
      w0.dim = ⟨if boarder = true then dim_x + 2 else dim_x,
        if boarder = true then dim_y + 2 else dim_y⟩ →
      ∃ c, (if boarder = true then stampBoarder w0 '|' '-' '+' else .ok w0)
        = .ok { w0 with contents := c } ∧
        ∀ i j, c i j =
          if boarder = true then boarderGlyph (dim_x + 2) (dim_y + 2) '|' '-' '+' w0.contents i j
          else w0.contents i j := by
    intro w0 hdim
    cases boarder with
    | false => exact ⟨w0.contents, rfl, fun _ _ => rfl⟩
    | true =>
      simp only [if_true] at hdim ⊢
      obtain ⟨c, h1, h2⟩ := stampBoarder_spec w0 '|' '-' '+'
        (by rw [hdim]; show 2 ≤ dim_x + 2; omega) (by rw [hdim]; show 2 ≤ dim_y + 2; omega)
      refine ⟨c, h1, fun i j => ?_⟩
      rw [h2 i j, hdim]
  rcases list_nil_or_snoc L with rfl | ⟨M, t, rfl⟩
  · have htop : s.display.top_window = none := hst.top
    obtain ⟨w0, hw0⟩ : ∃ w0 : Window, w0 =
      { contents := fun _ _ => '\x00', color := RESET, colors := fun _ _ => WHITE,
        background := BLACK, backgrounds := fun _ _ => BLACK,
        pos := ⟨if boarder = true then pos_x - 1 else pos_x,
          if boarder = true then pos_y - 1 else pos_y⟩,
        dim := ⟨if boarder = true then dim_x + 2 else dim_x,
          if boarder = true then dim_y + 2 else dim_y⟩,
        display := DisplayPtr.valid, boarder := boarder, setBack := false, hidden := false,
        next := none, last := none } := ⟨_, rfl⟩
    obtain ⟨c, hc, hg⟩ := hstamp w0 (by rw [hw0])
    have hnew : newWindow s a boarder pos_x pos_y dim_x dim_y = .ok
        { display := { s.display with bottom_window := some a, top_window := some a,
                                      dirty := true }
          windows := Function.update s.windows a (some { w0 with contents := c }) } := by
      simp only [newWindow, hfresh, Option.isSome_none, Bool.false_eq_true, if_false,
        buildStringBlock, buildColorBlock, hdx2, hdy2, or_self, htop, derefWindow,
        Function.update_same, ← hw0]
      rw [hc]
      simp only [Function.update_idem]
    have hdisp : w0.display = DisplayPtr.valid := by rw [hw0]
    have hlast : w0.last = none := by rw [hw0]
    have hnext : w0.next = none := by rw [hw0]
    have hshape : FreshShape boarder pos_x pos_y dim_x dim_y { w0 with contents := c } := by
      subst hw0
      exact ⟨rfl, rfl, rfl, rfl, rfl, rfl, rfl⟩
    have hcells : FreshCells boarder dim_x dim_y { w0 with contents := c } := by
      subst hw0
      exact ⟨fun i j => hg i j, fun _ _ => rfl, fun _ _ => rfl⟩
    refine ⟨_, { w0 with contents := c }, hnew, ⟨hnd, ?_, rfl, rfl⟩, by simp, hdisp, ?_,
      hshape, rfl, hcells⟩
    · exact ⟨{ w0 with contents := c }, by simp, hlast, hnext, trivial⟩
    · intro b hb
      simp only [Function.update_noteq hb]
      exact linksOnly_refl s.windows b
  · have htop : s.display.top_window = some t := by rw [hst.top]; simp
    have htM : t ∉ M := fun h =>
      (List.nodup_append.mp hst.nodup).2.2 h (List.mem_singleton_self t)
    obtain ⟨wt, hwt⟩ := seg_live hst.chain (b := t) (by simp)
    have hta : t ≠ a := fun e => haL (by rw [← e]; simp)
    obtain ⟨w0, hw0⟩ : ∃ w0 : Window, w0 =
      { contents := fun _ _ => '\x00', color := RESET, colors := fun _ _ => WHITE,
        background := BLACK, backgrounds := fun _ _ => BLACK,
        pos := ⟨if boarder = true then pos_x - 1 else pos_x,
          if boarder = true then pos_y - 1 else pos_y⟩,
        dim := ⟨if boarder = true then dim_x + 2 else dim_x,
          if boarder = true then dim_y + 2 else dim_y⟩,
        display := DisplayPtr.valid, boarder := boarder, setBack := false, hidden := false,
        next := none, last := some t } := ⟨_, rfl⟩
    obtain ⟨c, hc, hg⟩ := hstamp w0 (by rw [hw0])
    have hpush := seg_push hst.chain haL htM wt hwt w0 (by rw [hw0]) (by rw [hw0])
    have hnew : newWindow s a boarder pos_x pos_y dim_x dim_y = .ok
        { display := { s.display with top_window := some a, dirty := true }
          windows := Function.update (Function.update (Function.update s.windows a (some w0))
            t (some { wt with next := some a })) a (some { w0 with contents := c }) } := by
      simp only [newWindow, hfresh, Option.isSome_none, Bool.false_eq_true, if_false,
        buildStringBlock, buildColorBlock, hdx2, hdy2, or_self, htop, derefWindow, hwt,
        Function.update_same, Function.update_noteq (Ne.symm hta), ← hw0]
      rw [hc]
    have hdisp : w0.display = DisplayPtr.valid := by rw [hw0]
    have hshape : FreshShape boarder pos_x pos_y dim_x dim_y { w0 with contents := c } := by
      subst hw0
      exact ⟨rfl, rfl, rfl, rfl, rfl, rfl, rfl⟩
    have hcells : FreshCells boarder dim_x dim_y { w0 with contents := c } := by
      subst hw0
      exact ⟨fun i j => hg i j, fun _ _ => rfl, fun _ _ => rfl⟩
    refine ⟨_, { w0 with contents := c }, hnew, ⟨hnd, ?_, ?_, by simp⟩, by simp, hdisp, ?_,
      hshape, rfl, hcells⟩
    · apply seg_frame hpush
      intro b hb w hw
      by_cases hba : b = a
      · subst hba
        rw [Function.update_noteq (Ne.symm hta), Function.update_same] at hw
        cases hw
        exact ⟨{ w0 with contents := c }, by simp, rfl, rfl⟩
      · exact ⟨w, by simp only [Function.update_noteq hba]; exact hw, rfl, rfl⟩
    · show s.display.bottom_window = _
      rw [hst.bottom]
      cases M <;> rfl
    · intro b hb
      simp only [Function.update_noteq hb]
      by_cases hbt : b = t
      · subst hbt
        exact Or.inr ⟨wt, _, hwt, by simp, sameData_next wt (some a)⟩
      · simp only [Function.update_noteq hbt, Function.update_noteq hb]
        exact linksOnly_refl s.windows b

/-! ## The stack invariant -/

theorem sameData_display {w w' : Window} (h : SameData w w') : w'.display = w.display := by
  unfold SameData at h
  rw [h]

theorem mem_split_nat {a : Nat} {L : List Nat} (h : a ∈ L) :
    ∃ pre post, L = pre ++ a :: post := List.append_of_mem h

theorem stackInv_newDisplay (rows cols : Int) (s0 : World)
    (hnew : newDisplay rows cols = .ok s0) : StackInv s0 [] := by
  unfold newDisplay buildStringBlock buildColorBlock at hnew
  by_cases h : rows < 0 ∨ cols < 0
  · simp [h] at hnew
  · simp only [h, if_false] at hnew
    cases hnew
    exact ⟨⟨List.nodup_nil, trivial, rfl, rfl⟩, by simp, by simp⟩

theorem stackInv_step (s : World) (L : List Nat) (op : StackOp)
    (hinv : StackInv s L) (hop : opAllowed s op = true) :
    ∃ s' L', applyOp s op = .ok s' ∧ StackInv s' L' := by
  obtain ⟨hst, hlive, hatt⟩ := hinv
  cases op with
  | newWindow a boarder pos_x pos_y dim_x dim_y =>
    simp only [opAllowed, Bool.and_eq_true, Option.isNone_iff_eq_none, decide_eq_true_eq] at hop
    obtain ⟨⟨hfresh, hdx⟩, hdy⟩ := hop
    obtain ⟨s', wa, hnew, hst', hwa, hda, hframe, _, _, _⟩ :=
      newWindow_spec s L a boarder pos_x pos_y dim_x dim_y hst hfresh hdx hdy
    refine ⟨s', L ++ [a], hnew, hst', ?_, ?_⟩
    · intro b
      by_cases hb : b = a
      · subst hb; simp [hwa]
      · rcases hframe b hb with ⟨e1, e2⟩ | ⟨wb, wb', e1, e2, _⟩
        · simp [hb, hlive b, e1, e2]
        · simp [hb, hlive b, e1, e2]
    · intro b w hw
      by_cases hb : b = a
      · subst hb; rw [hwa] at hw; cases hw; exact hda
      · rcases hframe b hb with ⟨_, e2⟩ | ⟨wb, wb', e1, e2, e3⟩
        · rw [e2] at hw; cases hw
        · rw [e2] at hw; cases hw
          rw [sameData_display e3]
          exact hatt b wb e1
  | setTopWindow a =>
    simp only [opAllowed] at hop
    obtain ⟨w, hw⟩ := Option.isSome_iff_exists.mp hop
    obtain ⟨pre, post, rfl⟩ := mem_split_nat ((hlive a).2 hop)
    obtain ⟨s', hset, hst', hl, _⟩ := setTopWindow_spec s pre post a w hst hw (hatt a w hw)
    refine ⟨s', pre ++ post ++ [a], hset, hst', ?_, ?_⟩
    · intro b
      have hmem : b ∈ pre ++ post ++ [a] ↔ b ∈ pre ++ a :: post := by
        simp only [List.mem_append, List.mem_cons, List.mem_singleton, List.not_mem_nil,
          or_false]
        tauto
      rw [hmem, hlive b]
      rcases hl b with ⟨e1, e2⟩ | ⟨wb, wb', e1, e2, _⟩
      · simp [e1, e2]
      · simp [e1, e2]
    · intro b w' hw'
      rcases hl b with ⟨_, e2⟩ | ⟨wb, wb', e1, e2, e3⟩
      · rw [e2] at hw'; cases hw'
      · rw [e2] at hw'; cases hw'
        rw [sameData_display e3]
        exact hatt b wb e1
  | freeWindow a =>
    simp only [opAllowed] at hop
    obtain ⟨w, hw⟩ := Option.isSome_iff_exists.mp hop
    obtain ⟨pre, post, rfl⟩ := mem_split_nat ((hlive a).2 hop)
    obtain ⟨hanot, _⟩ := List.nodup_cons.mp (List.nodup_middle.mp hst.nodup)
    obtain ⟨s', hfree, hst', hgone, hframe⟩ :=
      freeWindow_spec s pre post a w hst hw (hatt a w hw)
    refine ⟨s', pre ++ post, hfree, hst', ?_, ?_⟩
    · intro b
      by_cases hb : b = a
      · subst hb; simp only [hgone, Option.isSome_none]
        exact ⟨fun h => absurd h hanot, fun h => by cases h⟩
      · have hmem : b ∈ pre ++ post ↔ b ∈ pre ++ a :: post := by
          simp only [List.mem_append, List.mem_cons]
          tauto
        rw [hmem, hlive b]
        rcases hframe b hb with ⟨e1, e2⟩ | ⟨wb, wb', e1, e2, _⟩
        · simp [e1, e2]
        · simp [e1, e2]
    · intro b w' hw'
      by_cases hb : b = a
      · subst hb; rw [hgone] at hw'; cases hw'
      · rcases hframe b hb with ⟨_, e2⟩ | ⟨wb, wb', e1, e2, e3⟩
        · rw [e2] at hw'; cases hw'
        · rw [e2] at hw'; cases hw'
          rw [sameData_display e3]
          exact hatt b wb e1

theorem stackInv_run (ops : List StackOp) :
    ∀ (s : World) (L : List Nat), StackInv s L → opsAllowed s ops = true →
      ∃ s' L', runOps s ops = .ok s' ∧ StackInv s' L' := by
  induction ops with
  | nil => intro s L hinv _; exact ⟨s, L, rfl, hinv⟩
  | cons op rest ih =>
    intro s L hinv hops
    simp only [opsAllowed, Bool.and_eq_true] at hops
    obtain ⟨s1, L1, h1, hinv1⟩ := stackInv_step s L op hinv hops.1
    have hrest : opsAllowed s1 rest = true := by
      have := hops.2
      rw [h1] at this
      exact this
    obtain ⟨s2, L2, h2, hinv2⟩ := ih s1 L1 hinv1 hrest
    exact ⟨s2, L2, by simp [runOps, h1, h2], hinv2⟩

theorem stackInv_wellFormed (s : World) (L : List Nat) (hinv : StackInv s L) :
    WellFormedStack s L := by
  obtain ⟨hst, hlive, hatt⟩ := hinv
  have hmem : ∀ a w, s.windows a = some w → a ∈ L := fun a w hw =>
    (hlive a).2 (by rw [hw]; rfl)
  refine ⟨hst, hlive, hatt, ?_, ?_, ?_, ?_, ?_⟩
  · intro b w hb hw
    rw [hst.bottom] at hb
    cases L with
    | nil => cases hb
    | cons c rest =>
      simp only [List.head?_cons, Option.some.injEq] at hb
      subst hb
      obtain ⟨w', h1, h2, _, _⟩ := hst.chain
      rw [hw] at h1; cases h1
      exact h2
  · intro t w ht hw
    rw [hst.top] at ht
    rcases list_nil_or_snoc L with rfl | ⟨M, t', rfl⟩
    · cases ht
    · rw [List.getLast?_append_of_ne_nil _ (by simp)] at ht
      simp only [List.getLast?_singleton, Option.some.injEq] at ht
      subst ht
      have hch := hst.chain
      rw [seg_append] at hch
      obtain ⟨_, w', h1, _, h3, _⟩ := hch
      rw [hw] at h1; cases h1
      exact h3
  · intro a b wa hwa hnext
    obtain ⟨pre, post, rfl⟩ := mem_split_nat (hmem a wa hwa)
    have hch := hst.chain
    rw [seg_append] at hch
    obtain ⟨_, w', h1, _, h3, h4⟩ := hch
    rw [hwa] at h1; cases h1
    rw [hnext] at h3
    cases post with
    | nil => cases h3
    | cons c post' =>
      simp only [headOr, Option.some.injEq] at h3
      subst h3
      obtain ⟨wb, g1, g2, _, _⟩ := h4
      exact ⟨wb, g1, g2⟩
  · intro a b wb hwb hlast
    obtain ⟨pre, post, rfl⟩ := mem_split_nat (hmem b wb hwb)
    have hch := hst.chain
    rw [seg_append] at hch
    obtain ⟨hpre, w', h1, h2, _, _⟩ := hch
    rw [hwb] at h1; cases h1
    rw [hlast] at h2
    rcases list_nil_or_snoc pre with rfl | ⟨pre', c, rfl⟩
    · cases h2
    · rw [lastOr_append] at h2
      simp only [lastOr, Option.some.injEq] at h2
      subst h2
      rw [seg_append] at hpre
      obtain ⟨_, wa, g1, _, g3, _⟩ := hpre
      exact ⟨wa, g1, g3⟩
  · constructor
    · rintro ⟨htop, _⟩ a
      rw [hst.top] at htop
      have hnil : L = [] := List.getLast?_eq_none_iff.mp htop
      cases hwa : s.windows a with
      | none => rfl
      | some w =>
        have := hmem a w hwa
        rw [hnil] at this
        cases this
    · intro hall
      have hnil : L = [] := by
        cases L with
        | nil => rfl
        | cons c rest =>
          obtain ⟨w, hw⟩ := seg_live hst.chain (b := c) (List.mem_cons_self _ _)
          rw [hall c] at hw
          cases hw
      rw [hst.top, hst.bottom, hnil]
      exact ⟨rfl, rfl⟩

/-! ## Lemmas on the render pass -/

/-- A property kept by every iteration that ends normally holds after the loop. -/
theorem forLoop_preserves {σ : Type} (body : Int → σ → Except Fault σ) (P : σ → Prop)
    (hbody : ∀ i st1 st2, P st1 → body i st1 = .ok st2 → P st2) :
    ∀ (n : Nat) (lo : Int) (st st' : σ), P st → forLoop body n lo st = .ok st' → P st' := by
  intro n
  induction n with
  | zero =>
    intro lo st st' hP h
    simp only [forLoop] at h
    cases h
    exact hP
  | succ n ih =>
    intro lo st st' hP h
    simp only [forLoop] at h
    cases hb : body lo st with
    | error e => rw [hb] at h; cases h
    | ok st1 =>
      rw [hb] at h
      exact ih (lo + 1) st1 st' (hbody lo st st1 hP hb) h

/-- One cell of the scan changes neither `dirty` nor `auto_size`. -/
theorem updateCell_flags (fuel : Nat) (i j : Int) (st st' : Scan)
    (h : updateCell fuel i j st = .ok st') :
    st'.world.display.dirty = st.world.display.dirty ∧
      st'.world.display.auto_size = st.world.display.auto_size := by
  unfold updateCell at h
  cases hr : renderPoint fuel st.world st.world.display.bottom_window i j with
  | error e => rw [hr] at h; cases h
  | ok next =>
    rw [hr] at h
    simp only at h
    split at h
    · cases h
      refine ⟨?_, ?_⟩ <;> (simp only [emit]; split <;> split <;> split <;> rfl)
    · cases h
      exact ⟨rfl, rfl⟩

/-! ## Lemmas on printing -/

theorem sameMeta_refl (w : Window) : SameMeta w w := rfl

theorem sameMeta_trans {w₁ w₂ w₃ : Window} (h12 : SameMeta w₁ w₂) (h23 : SameMeta w₂ w₃) :
    SameMeta w₁ w₃ := by
  unfold SameMeta at h12 h23 ⊢
  rw [h23, h12]

theorem sameMeta_dim {w w' : Window} (h : SameMeta w w') : w'.dim = w.dim := by
  unfold SameMeta at h
  rw [h]

theorem sameMeta_display {w w' : Window} (h : SameMeta w w') : w'.display = w.display := by
  unfold SameMeta at h
  rw [h]

theorem sameMeta_links {w w' : Window} (h : SameMeta w w') :
    w'.last = w.last ∧ w'.next = w.next := by
  unfold SameMeta at h
  rw [h]
  exact ⟨rfl, rfl⟩

theorem sameMeta_hidden {w w' : Window} (h : SameMeta w w') : w'.hidden = w.hidden := by
  unfold SameMeta at h
  rw [h]

theorem sameMeta_pos {w w' : Window} (h : SameMeta w w') : w'.pos = w.pos := by
  unfold SameMeta at h
  rw [h]

theorem sameMeta_putCell (w : Window) (r c : Int) (ch : Char) :
    SameMeta w { w with
      contents := setAt w.contents r c ch
      colors := setAt w.colors r c w.color
      backgrounds := if w.setBack then setAt w.backgrounds r c w.background
                     else w.backgrounds } := rfl

theorem putCell_ok (w : Window) (r c : Int) (ch : Char) (h : inBlock w.dim r c = true) :
    putCell w r c ch = .ok { w with
      contents := setAt w.contents r c ch
      colors := setAt w.colors r c w.color
      backgrounds := if w.setBack then setAt w.backgrounds r c w.background
                     else w.backgrounds } := by
  simp [putCell, h]

/-- What a successful `putCell` leaves: the cell blocks differ only at `[r][c]`,
which is inside the block and holds `ch`. -/
theorem putCell_spec (w w' : Window) (r c : Int) (ch : Char)
    (h : putCell w r c ch = .ok w') :
    SameMeta w w' ∧ inBlock w.dim r c = true ∧ w'.contents r c = ch ∧
      ∀ i j, ¬ (i = r ∧ j = c) → w'.contents i j = w.contents i j := by
  unfold putCell at h
  by_cases hb : inBlock w.dim r c = true
  · rw [if_pos hb] at h
    cases h
    refine ⟨rfl, hb, by simp [setAt], ?_⟩
    intro i j hij
    simp [setAt, hij]
  · rw [if_neg hb] at h
    cases h

/-- The tab loop inside the block: `n` spaces from column `i + y + d` of `row`. -/
theorem tabLoop_ok (row i d : Int) :
    ∀ (n : Nat) (w : Window) (y : Int),
      0 ≤ row → row < w.dim.x → 0 ≤ i + y + d → i + y + d + n ≤ w.dim.y + 1 →
      ∃ w', tabLoop row i d n w y = .ok (w', y + n) ∧ SameMeta w w' ∧
        (∀ c, i + y + d ≤ c → c < i + y + d + n → w'.contents row c = ' ') ∧
        (∀ r c, ¬ (r = row ∧ i + y + d ≤ c ∧ c < i + y + d + n) →
          w'.contents r c = w.contents r c) := by
  intro n
  induction n with
  | zero =>
    intro w y _ _ _ _
    refine ⟨w, by simp [tabLoop], sameMeta_refl w, ?_, fun _ _ _ => rfl⟩
    intro c h1 h2
    simp only [CharP.cast_eq_zero, add_zero] at h2
    omega
  | succ n ih =>
    intro w y h1 h2 h3 h4
    have hin : inBlock w.dim row (i + y + d) = true :=
      (inBlock_iff _ _ _).2 ⟨h1, h2, h3, by push_cast at h4; omega⟩
    obtain ⟨w', hloop, hmeta, hsp, hfr⟩ := ih
      { w with
        contents := setAt w.contents row (i + y + d) ' '
        colors := setAt w.colors row (i + y + d) w.color
        backgrounds := if w.setBack then setAt w.backgrounds row (i + y + d) w.background
                       else w.backgrounds }
      (y + 1) h1 h2 (by omega) (by push_cast at h4 ⊢; omega)
    have hm1 : SameMeta w { w with
        contents := setAt w.contents row (i + y + d) ' '
        colors := setAt w.colors row (i + y + d) w.color
        backgrounds := if w.setBack then setAt w.backgrounds row (i + y + d) w.background
                       else w.backgrounds } := rfl
    refine ⟨w', ?_, sameMeta_trans hm1 hmeta, ?_, ?_⟩
    · simp only [tabLoop, putCell_ok w row (i + y + d) ' ' hin, hloop]
      push_cast
      congr 2
      ring
    · intro c hc1 hc2
      by_cases hc : c = i + y + d
      · subst hc
        rw [hfr row (i + y + d) (by omega)]
        simp [setAt]
      · exact hsp c (by omega) (by push_cast at hc2 ⊢; omega)
    · intro r c hrc
      rw [hfr r c (by push_cast at hrc ⊢; omega)]
      have : ¬ (r = row ∧ c = i + y + d) := by
        push_cast at hrc
        omega
      simp [setAt, this]

theorem window_d_cases (w : Window) : w.d = 0 ∨ w.d = 1 := by
  unfold Window.d
  split
  · exact Or.inr rfl
  · exact Or.inl rfl

theorem markDirty_ok (s : World) (w : Window) (hd : w.display = DisplayPtr.valid) :
    markDirty s w = .ok { s with display := { s.display with dirty := true } } := by
  simp [markDirty, derefDisplay, hd]

/-- The outcome of `windowPrint` read off the outcome of its loop. -/
theorem windowPrint_of_loop (s : World) (a : Nat) (w w1 : Window) (str : List Char)
    (x y : Int) (fl : Bool) (hw : s.windows a = some w) (hd : w.display = DisplayPtr.valid)
    (hloop : windowPrintLoop str w.d (printFuel w str x) w 0 x y = .ok (w1, fl))
    (hmeta : SameMeta w w1) :
    ∃ s', windowPrint s a str x y = .ok s' ∧ s'.windows a = some w1 ∧
      (∀ b, b ≠ a → s'.windows b = s.windows b) ∧
      s'.display = { s.display with dirty := s'.display.dirty } ∧
      (fl = true → s'.display.dirty = true) := by
  have hd1 : w1.display = DisplayPtr.valid := by rw [sameMeta_display hmeta, hd]
  cases fl with
  | true =>
    have hp : windowPrint s a str x y = .ok
        { display := { s.display with dirty := true }
          windows := Function.update s.windows a (some w1) } := by
      simp only [windowPrint, derefWindow, hw, hloop, if_true]
      exact markDirty_ok _ w1 hd1
    refine ⟨_, hp, by simp, ?_, rfl, fun _ => rfl⟩
    intro b hb
    simp [Function.update_noteq hb]
  | false =>
    have hp : windowPrint s a str x y = .ok
        { display := s.display
          windows := Function.update s.windows a (some w1) } := by
      simp only [windowPrint, derefWindow, hw, hloop, Bool.false_eq_true, if_false]
    refine ⟨_, hp, by simp, ?_, rfl, fun h => by cases h⟩
    intro b hb
    simp [Function.update_noteq hb]

theorem plainChar_iff (c : Char) :
    plainChar c = true ↔ c ≠ '\x00' ∧ c ≠ '\t' ∧ c ≠ '\n' ∧ c ≠ '\r' := by
  simp [plainChar, and_assoc]

theorem isNotPrinted_plain (c : Char) (h : plainChar c = true) : isNotPrinted c = true := by
  obtain ⟨_, _, h3, h4⟩ := (plainChar_iff c).1 h
  simp [isNotPrinted, h3, h4]

theorem strAt_lt (str : List Char) (k : Nat) (hk : k < str.length) :
    strAt str (k : Int) = .ok (str.getD k '\x00') := by
  have h : ¬ ((k : Int) < 0 ∨ (str.length : Int) < k) := by omega
  unfold strAt
  rw [if_neg h, Int.toNat_ofNat]

theorem strAt_length (str : List Char) : strAt str (str.length : Int) = .ok '\x00' := by
  have h : ¬ ((str.length : Int) < 0 ∨ (str.length : Int) < str.length) := by omega
  unfold strAt
  rw [if_neg h, Int.toNat_ofNat, List.getD_eq_default _ _ (le_refl _)]

theorem getD_mem (str : List Char) (k : Nat) (hk : k < str.length) :
    str.getD k '\x00' ∈ str := by
  rw [List.getD_eq_getElem _ _ hk]
  exact List.getElem_mem hk

theorem div_mod_eq (W q col k : Int) (hW : 0 < W) (hk : k = W * q + col) (h0 : 0 ≤ col)
    (h1 : col < W) : k / W = q ∧ k % W = col :=
  (Int.ediv_emod_unique hW).2 ⟨by rw [hk]; ring, h0, h1⟩

theorem div_ge (W q col k k' : Int) (hW : 0 < W) (hk : k = W * q + col) (h0 : 0 ≤ col)
    (hk' : k ≤ k') : q ≤ k' / W := by
  apply Int.le_ediv_of_mul_le hW
  have : q * W = W * q := mul_comm _ _
  linarith

theorem cell_inj (W k k' : Int) (h1 : k / W = k' / W) (h2 : k % W = k' % W) : k = k' := by
  rw [← Int.ediv_add_emod k W, ← Int.ediv_add_emod k' W, h1, h2]

/-- The print loop on a string of plain characters, from character `k` at row
offset `q` and column `col` (`col = W` is the state just before a wrap): the loop
returns, stores character `k'` in content cell `(r + k' / W, k' % W)` while that
row is inside the window, and changes no other cell. -/
theorem printLoop_wrap (str : List Char) (hstr : ∀ c ∈ str, plainChar c = true)
    (d r W H : Int) (hW : 1 ≤ W) (hd : 0 ≤ d) (hr : 0 ≤ r) :
    ∀ (fuel k : Nat) (q col i x y : Int) (w : Window),
      w.dim.x - 2 * d = H → w.dim.y - 2 * d = W → k ≤ str.length → 0 ≤ q → 0 ≤ col →
      col ≤ W → (k : Int) = W * q + col → i = k → x = r + q → y = col - k →
      (str.length - k) + (H - (r + q)).toNat + 1 ≤ fuel →
      ∃ w' fl, windowPrintLoop str d fuel w i x y = .ok (w', fl) ∧ SameMeta w w' ∧
        (∀ k' : Nat, k ≤ k' → k' < str.length → r + (k' : Int) / W < H →
          w'.contents (r + (k' : Int) / W + d) ((k' : Int) % W + d) = str.getD k' '\x00') ∧
        (∀ a b : Int, (∀ k' : Nat, k ≤ k' → k' < str.length → r + (k' : Int) / W < H →
            ¬ (a = r + (k' : Int) / W + d ∧ b = (k' : Int) % W + d)) →
          w'.contents a b = w.contents a b) := by
  intro fuel
  induction fuel with
  | zero => intro k q col i x y w _ _ _ _ _ _ _ _ _ _ hf; omega
  | succ fuel ih =>
    intro k q col i x y w hH hWd hk hq hc0 hc1 hkq hi hx hy hf
    subst hi hx hy
    rcases Nat.lt_or_ge k str.length with hlt | hge
    · have hplain := hstr _ (getD_mem str k hlt)
      obtain ⟨hn0, hnt, hnn, hnr⟩ := (plainChar_iff _).1 hplain
      have hnp := isNotPrinted_plain _ hplain
      by_cases hrow : r + q + d ≥ w.dim.x - d
      · refine ⟨w, false, by
            simp only [windowPrintLoop, strAt_lt str k hlt, hn0, hrow, if_false, if_true],
          sameMeta_refl w, ?_, fun _ _ _ => rfl⟩
        intro k' hk' _ hk'H
        have := div_ge W q col k k' (by omega) hkq hc0 (by exact_mod_cast hk')
        omega
      · rcases lt_or_eq_of_le hc1 with hcl | hce
        · obtain ⟨hdiv, hmod⟩ := div_mod_eq W q col k (by omega) hkq hc0 hcl
          have hcond : isNotPrinted (str.getD k '\x00') = true ∧
              (k : Int) + (col - k) + d < w.dim.y - d := ⟨hnp, by omega⟩
          have hin : inBlock w.dim (r + q + d) ((k : Int) + (col - k) + d) = true :=
            (inBlock_iff _ _ _).2 ⟨by omega, by omega, by omega, by omega⟩
          obtain ⟨w', fl, hloop, hmeta, h1, h2⟩ := ih (k + 1) q (col + 1) ((k : Int) + 1)
            (r + q) (col - k)
            { w with
              contents := setAt w.contents (r + q + d) ((k : Int) + (col - k) + d)
                (str.getD k '\x00')
              colors := setAt w.colors (r + q + d) ((k : Int) + (col - k) + d) w.color
              backgrounds := if w.setBack
                then setAt w.backgrounds (r + q + d) ((k : Int) + (col - k) + d) w.background
                else w.backgrounds }
            hH hWd (by omega) hq (by omega) (by omega) (by push_cast; linarith)
            (by push_cast; rfl) rfl (by push_cast; ring) (by omega)
          have hcellk : ∀ k' : Nat, k + 1 ≤ k' →
              ¬ (r + q + d = r + (k' : Int) / W + d ∧ col + d = (k' : Int) % W + d) := by
            intro k' hk' hcell
            have := cell_inj W k k' (by omega) (by omega)
            omega
          refine ⟨w', fl, ?_, sameMeta_trans (sameMeta_putCell w _ _ _) hmeta, ?_, ?_⟩
          · simp only [windowPrintLoop, strAt_lt str k hlt, hn0, hrow, hcond, hnt, if_false,
              if_true, and_self, putCell_ok w _ _ _ hin]
            exact hloop
          · intro k' hk' hk'l hk'H
            rcases Nat.eq_or_lt_of_le hk' with rfl | hgt
            · rw [hdiv, hmod, h2 _ _ (fun k' hk' _ _ => hcellk k' hk')]
              have : (k : Int) + (col - k) + d = col + d := by ring
              simp [setAt, this]
            · exact h1 k' hgt hk'l hk'H
          · intro a b hab
            rw [h2 a b (fun k' hk' hk'l hk'H => hab k' (by omega) hk'l hk'H)]
            have hne : ¬ (a = r + q + d ∧ b = (k : Int) + (col - k) + d) := by
              have := hab k (le_refl _) hlt (by rw [hdiv]; omega)
              rw [hdiv, hmod] at this
              intro h
              exact this ⟨h.1, by omega⟩
            show setAt w.contents (r + q + d) ((k : Int) + (col - k) + d) _ a b = w.contents a b
            unfold setAt
            rw [if_neg hne]
        · subst hce
          have hk1 : 1 ≤ k := by
            have : (0 : Int) ≤ col * q := mul_nonneg (by omega) hq
            omega
          have hcond : ¬ ((k : Int) + (col - k) + d < w.dim.y - d) := by omega
          have hprev : strAt str ((k : Int) - 1) = .ok (str.getD (k - 1) '\x00') := by
            have := strAt_lt str (k - 1) (by omega)
            rw [← this]
            congr 1
            omega
          have hplain1 := hstr _ (getD_mem str (k - 1) (by omega))
          obtain ⟨_, _, _, hnr1⟩ := (plainChar_iff _).1 hplain1
          obtain ⟨w', fl, hloop, hmeta, h1, h2⟩ := ih k (q + 1) 0 ((k : Int) - 1 + 1)
            (r + q + 1) (-1 - ((k : Int) - 1)) w hH hWd hk (by omega) (le_refl _) (by omega)
            (by linarith) (by ring) (by ring) (by ring)
            (by
              have : (H - (r + (q + 1))).toNat + 1 = (H - (r + q)).toNat := by omega
              omega)
          refine ⟨w', fl, ?_, hmeta, h1, h2⟩
          simp only [windowPrintLoop, strAt_lt str k hlt, hn0, hrow, hcond, hnp, hprev, hnr1,
            if_false, if_true, and_false]
          exact hloop
    · have hkl : k = str.length := by omega
      subst hkl
      exact ⟨w, true, by simp only [windowPrintLoop, strAt_length, if_true], sameMeta_refl w,
        fun k' h1 h2 => by omega, fun _ _ _ => rfl⟩

/-- A tab loop that ends normally advanced `y` by `n` and stored only in `row`,
from column `i + y + d` on. -/
theorem tabLoop_frame (row i d : Int) :
    ∀ (n : Nat) (w : Window) (y : Int) (w' : Window) (y' : Int),
      tabLoop row i d n w y = .ok (w', y') →
      y' = y + n ∧ SameMeta w w' ∧
        ∀ r c, ¬ (r = row ∧ i + y + d ≤ c) → w'.contents r c = w.contents r c := by
  intro n
  induction n with
  | zero =>
    intro w y w' y' h
    simp only [tabLoop, Except.ok.injEq, Prod.mk.injEq] at h
    obtain ⟨rfl, rfl⟩ := h
    exact ⟨by simp, sameMeta_refl _, fun _ _ _ => rfl⟩
  | succ n ih =>
    intro w y w' y' h
    simp only [tabLoop] at h
    cases hput : putCell w row (i + y + d) ' ' with
    | error e => rw [hput] at h; cases h
    | ok w1 =>
      rw [hput] at h
      obtain ⟨hm1, _, _, hfr1⟩ := putCell_spec w w1 _ _ _ hput
      obtain ⟨hy, hm2, hfr2⟩ := ih w1 (y + 1) w' y' h
      refine ⟨by rw [hy]; push_cast; ring, sameMeta_trans hm1 hm2, ?_⟩
      intro r c hrc
      rw [hfr2 r c (fun h => hrc ⟨h.1, by omega⟩), hfr1 r c (fun h => hrc ⟨h.1, by omega⟩)]

/-- A print loop that ends normally changed only the cell blocks, and no cell of
a row above the current one nor, in the current row, left of the current column. -/
theorem printLoop_frame (str : List Char) (d R C : Int) :
    ∀ (fuel : Nat) (w : Window) (i x y : Int) (w' : Window) (fl : Bool),
      windowPrintLoop str d fuel w i x y = .ok (w', fl) →
      SameMeta w w' ∧
        ((R < x + d ∨ (R = x + d ∧ C < i + y + d)) → w'.contents R C = w.contents R C) := by
  intro fuel
  induction fuel with
  | zero => intro w i x y w' fl h; simp [windowPrintLoop] at h
  | succ fuel ih =>
    intro w i x y w' fl h
    rw [windowPrintLoop] at h
    cases hc : strAt str i with
    | error e => rw [hc] at h; cases h
    | ok c =>
      rw [hc] at h
      simp only at h
      by_cases h0 : c = '\x00'
      · rw [if_pos h0] at h
        cases h
        exact ⟨sameMeta_refl _, fun _ => rfl⟩
      rw [if_neg h0] at h
      by_cases hrow : x + d ≥ w.dim.x - d
      · rw [if_pos hrow] at h
        cases h
        exact ⟨sameMeta_refl _, fun _ => rfl⟩
      rw [if_neg hrow] at h
      by_cases hcond : isNotPrinted c = true ∧ i + y + d < w.dim.y - d
      · rw [if_pos hcond] at h
        have htab : ∃ w1 y1, (if c = '\t' then
              tabLoop (x + d) i d (Int.tdiv (i + y + 8) 8 * 8 - (i + y)).toNat w y
            else Except.ok (w, y)) = .ok (w1, y1) := by
          cases ht : (if c = '\t' then
              tabLoop (x + d) i d (Int.tdiv (i + y + 8) 8 * 8 - (i + y)).toNat w y
            else Except.ok (w, y)) with
          | error e => rw [ht] at h; cases h
          | ok p => exact ⟨p.1, p.2, rfl⟩
        obtain ⟨w1, y1, ht⟩ := htab
        rw [ht] at h
        simp only at h
        have htf : y ≤ y1 ∧ SameMeta w w1 ∧
            ∀ r c, ¬ (r = x + d ∧ i + y + d ≤ c) → w1.contents r c = w.contents r c := by
          by_cases hct : c = '\t'
          · rw [if_pos hct] at ht
            obtain ⟨e1, e2, e3⟩ := tabLoop_frame _ _ _ _ _ _ _ _ ht
            exact ⟨by omega, e2, e3⟩
          · rw [if_neg hct] at ht
            simp only [Except.ok.injEq, Prod.mk.injEq] at ht
            obtain ⟨rfl, rfl⟩ := ht
            exact ⟨le_refl _, sameMeta_refl _, fun _ _ _ => rfl⟩
        obtain ⟨hy1, hm1, hfr1⟩ := htf
        cases hput : putCell w1 (x + d) (i + y1 + d) c with
        | error e => rw [hput] at h; cases h
        | ok w2 =>
          rw [hput] at h
          simp only at h
          obtain ⟨hm2, _, _, hfr2⟩ := putCell_spec w1 w2 _ _ _ hput
          obtain ⟨hm3, hfr3⟩ := ih w2 (i + 1) x y1 w' fl h
          refine ⟨sameMeta_trans hm1 (sameMeta_trans hm2 hm3), ?_⟩
          intro hRC
          rw [hfr3 (by omega), hfr2 R C (by omega), hfr1 R C (by omega)]
      · rw [if_neg hcond] at h
        cases hc1 : strAt str (if isNotPrinted c = true then i - 1 else i) with
        | error e => rw [hc1] at h; cases h
        | ok c1 =>
          rw [hc1] at h
          simp only at h
          have hi1 : i - 1 ≤ (if isNotPrinted c = true then i - 1 else i) := by
            split <;> omega
          by_cases hr : c1 = '\r'
          · rw [if_pos hr] at h
            cases hc2 : strAt str ((if isNotPrinted c = true then i - 1 else i) + 1) with
            | error e => rw [hc2] at h; cases h
            | ok c2 =>
              rw [hc2] at h
              simp only at h
              obtain ⟨hm3, hfr3⟩ := ih w _ _ y w' fl h
              refine ⟨hm3, fun hRC => hfr3 ?_⟩
              split <;> omega
          · rw [if_neg hr] at h
            obtain ⟨hm3, hfr3⟩ := ih w _ _ _ w' fl h
            exact ⟨hm3, fun hRC => hfr3 (by omega)⟩

theorem strAt_error (str : List Char) (i : Int) (e : Fault) (h : strAt str i = .error e) :
    e = Fault.strIndex := by
  unfold strAt at h
  split at h
  · cases h; rfl
  · cases h

theorem strAt_nonzero_lt (str : List Char) (i : Int) (c : Char) (h : strAt str i = .ok c)
    (hc : c ≠ '\x00') : 0 ≤ i ∧ i < str.length := by
  unfold strAt at h
  split at h
  · cases h
  · rename_i hb
    simp only [Except.ok.injEq] at h
    refine ⟨by omega, ?_⟩
    by_contra hlt
    have hlen : str.length ≤ i.toNat := by omega
    rw [List.getD_eq_default _ _ hlen] at h
    exact hc h.symm

theorem putCell_error (w : Window) (r c : Int) (ch : Char) (e : Fault)
    (h : putCell w r c ch = .error e) : e = Fault.gridIndex := by
  unfold putCell at h
  split at h
  · cases h
  · cases h; rfl

theorem tabLoop_error (row i d : Int) :
    ∀ (n : Nat) (w : Window) (y : Int) (e : Fault),
      tabLoop row i d n w y = .error e → e = Fault.gridIndex := by
  intro n
  induction n with
  | zero => intro w y e h; simp [tabLoop] at h
  | succ n ih =>
    intro w y e h
    simp only [tabLoop] at h
    cases hput : putCell w row (i + y + d) ' ' with
    | error e1 =>
      rw [hput] at h
      cases h
      exact putCell_error _ _ _ _ _ hput
    | ok w1 =>
      rw [hput] at h
      exact ih w1 (y + 1) e h

/-- The fuel `printFuel` is never exhausted: every iteration of the print loop
moves to the next character or to a later row, and the loop leaves at the first
row outside the window. -/
theorem printLoop_fuel (str : List Char) (d : Int) :
    ∀ (fuel : Nat) (w : Window) (i x y : Int), 0 ≤ i → i ≤ str.length →
      (str.length - i).toNat + (w.dim.x - d - d - x).toNat + 1 ≤ fuel →
      windowPrintLoop str d fuel w i x y ≠ .error Fault.fuel := by
  intro fuel
  induction fuel with
  | zero => intro w i x y _ _ hf; omega
  | succ fuel ih =>
    intro w i x y hi0 hi1 hf h
    rw [windowPrintLoop] at h
    cases hc : strAt str i with
    | error e =>
      rw [hc] at h
      have := strAt_error _ _ _ hc
      subst this
      cases h
    | ok c =>
      rw [hc] at h
      simp only at h
      by_cases h0 : c = '\x00'
      · rw [if_pos h0] at h; cases h
      rw [if_neg h0] at h
      obtain ⟨_, hilt⟩ := strAt_nonzero_lt str i c hc h0
      by_cases hrow : x + d ≥ w.dim.x - d
      · rw [if_pos hrow] at h; cases h
      rw [if_neg hrow] at h
      by_cases hcond : isNotPrinted c = true ∧ i + y + d < w.dim.y - d
      · rw [if_pos hcond] at h
        cases ht : (if c = '\t' then
            tabLoop (x + d) i d (Int.tdiv (i + y + 8) 8 * 8 - (i + y)).toNat w y
          else Except.ok (w, y)) with
        | error e =>
          rw [ht] at h
          simp only [Except.error.injEq] at h
          subst h
          by_cases hct : c = '\t'
          · rw [if_pos hct] at ht
            have := tabLoop_error _ _ _ _ _ _ _ ht
            cases this
          · rw [if_neg hct] at ht
            cases ht
        | ok p =>
          obtain ⟨w1, y1⟩ := p
          rw [ht] at h
          simp only at h
          have hm1 : SameMeta w w1 := by
            by_cases hct : c = '\t'
            · rw [if_pos hct] at ht
              exact (tabLoop_frame _ _ _ _ _ _ _ _ ht).2.1
            · rw [if_neg hct] at ht
              simp only [Except.ok.injEq, Prod.mk.injEq] at ht
              rw [← ht.1]
              exact sameMeta_refl _
          cases hput : putCell w1 (x + d) (i + y1 + d) c with
          | error e =>
            rw [hput] at h
            simp only [Except.error.injEq] at h
            subst h
            have := putCell_error _ _ _ _ _ hput
            cases this
          | ok w2 =>
            rw [hput] at h
            simp only at h
            have hm2 := (putCell_spec w1 w2 _ _ _ hput).1
            have hdim : w2.dim = w.dim := by rw [sameMeta_dim hm2, sameMeta_dim hm1]
            exact ih w2 (i + 1) x y1 (by omega) (by omega) (by rw [hdim]; omega) h
      · rw [if_neg hcond] at h
        cases hc1 : strAt str (if isNotPrinted c = true then i - 1 else i) with
        | error e =>
          rw [hc1] at h
          have := strAt_error _ _ _ hc1
          subst this
          cases h
        | ok c1 =>
          rw [hc1] at h
          simp only at h
          by_cases hr : c1 = '\r'
          · rw [if_pos hr] at h
            cases hc2 : strAt str ((if isNotPrinted c = true then i - 1 else i) + 1) with
            | error e =>
              rw [hc2] at h
              have := strAt_error _ _ _ hc2
              subst this
              cases h
            | ok c2 =>
              rw [hc2] at h
              simp only at h
              by_cases hnp : isNotPrinted c = true
              · simp only [hnp, if_true] at h hc2
                have hsame : i - 1 + 1 = i := by ring
                rw [hsame] at h hc2
                rw [hc] at hc2
                simp only [Except.ok.injEq] at hc2
                subst hc2
                have hnn : c ≠ '\n' := by
                  intro e
                  rw [e] at hnp
                  simp [isNotPrinted] at hnp
                simp only [ne_eq, hnn, not_false_eq_true, if_true] at h
                exact ih w i (x + 1) y hi0 hi1 (by omega) h
              · simp only [hnp, Bool.false_eq_true, if_false] at h
                refine ih w (i + 1) _ y (by omega) (by omega) ?_ h
                split <;> omega
          · rw [if_neg hr] at h
            refine ih w _ (x + 1) _ ?_ ?_ ?_ h
            · split <;> omega
            · split <;> omega
            · split <;> omega

/-- The call `windowPrint` never ends for lack of fuel. -/
theorem windowPrint_fuel (s : World) (a : Nat) (str : List Char) (x y : Int) :
    windowPrint s a str x y ≠ .error Fault.fuel := by
  intro h
  unfold windowPrint derefWindow at h
  cases hw : s.windows a with
  | none => rw [hw] at h; cases h
  | some w =>
    rw [hw] at h
    simp only at h
    cases hloop : windowPrintLoop str w.d (printFuel w str x) w 0 x y with
    | error e =>
      rw [hloop] at h
      simp only [Except.error.injEq] at h
      subst h
      have hdc := window_d_cases w
      refine printLoop_fuel str w.d (printFuel w str x) w 0 x y (le_refl _) (by omega) ?_ hloop
      simp only [printFuel]
      omega
    | ok p =>
      obtain ⟨w1, fl⟩ := p
      rw [hloop] at h
      simp only at h
      cases fl with
      | false => simp at h
      | true =>
        simp only [if_true, markDirty, derefDisplay] at h
        cases hd : w1.display with
        | raw n => rw [hd] at h; cases h
        | valid => rw [hd] at h; cases h

/-- What a `windowPrint` that returned did: it ran the print loop on the window
and stored the result; of the display only `dirty` can differ. -/
theorem windowPrint_inv (s s' : World) (a : Nat) (str : List Char) (x y : Int)
    (h : windowPrint s a str x y = .ok s') :
    ∃ w w1 fl, s.windows a = some w ∧
      windowPrintLoop str w.d (printFuel w str x) w 0 x y = .ok (w1, fl) ∧
      s'.windows = Function.update s.windows a (some w1) ∧
      s'.display = { s.display with dirty := s'.display.dirty } := by
  unfold windowPrint derefWindow at h
  cases hw : s.windows a with
  | none => rw [hw] at h; cases h
  | some w =>
    rw [hw] at h
    simp only at h
    cases hloop : windowPrintLoop str w.d (printFuel w str x) w 0 x y with
    | error e => rw [hloop] at h; cases h
    | ok p =>
      obtain ⟨w1, fl⟩ := p
      rw [hloop] at h
      simp only at h
      refine ⟨w, w1, fl, rfl, hloop, ?_⟩
      cases fl with
      | false =>
        simp only [Bool.false_eq_true, if_false, Except.ok.injEq] at h
        subst h
        exact ⟨rfl, rfl⟩
      | true =>
        simp only [if_true, markDirty, derefDisplay] at h
        cases hd : w1.display with
        | raw n => rw [hd] at h; cases h
        | valid =>
          rw [hd] at h
          simp only [Except.ok.injEq] at h
          subst h
          exact ⟨rfl, rfl⟩

/-- The compositor on a display whose stack is the single visible window `a`. -/
theorem renderPoint_single_window (s : World) (a : Nat) (w : Window) (x y : Int) (fuel : Nat)
    (hbot : s.display.bottom_window = some a) (hw : s.windows a = some w)
    (hnext : w.next = none) (hvis : w.hidden = false) (hd : w.display = DisplayPtr.valid)
    (hx : 0 ≤ x ∧ x < s.display.dim.x) (hy : 0 ≤ y ∧ y < s.display.dim.y)
    (hcov : covers w x y) (hfuel : 1 ≤ fuel) :
    renderPoint fuel s s.display.bottom_window x y = .ok (cellAt w x y) := by
  obtain ⟨fuel, rfl⟩ : ∃ f, fuel = f + 1 := ⟨fuel - 1, by omega⟩
  have hxn : ¬ x < 0 := by omega
  have hc1 : x < s.display.dim.x ∧ 0 ≤ x - w.pos.x ∧ x - w.pos.x < w.dim.x :=
    ⟨hx.2, hcov.1, hcov.2.1⟩
  have hc2 : 0 ≤ y ∧ y < s.display.dim.y ∧ 0 ≤ y - w.pos.y ∧ y - w.pos.y < w.dim.y :=
    ⟨hy.1, hy.2, hcov.2.2.1, hcov.2.2.2⟩
  rw [hbot]
  simp only [renderPoint, derefWindow, hw, hvis, renderLoop, Bool.false_eq_true, if_false,
    hxn, derefDisplay, hd, hnext]
  rw [if_pos hc1, if_pos hc2]
  cases fuel <;> rfl

theorem newDisplay_dim (rows cols : Int) (s0 : World) (hnew : newDisplay rows cols = .ok s0) :
    s0.display.dim = ⟨rows, cols⟩ := by
  unfold newDisplay buildStringBlock buildColorBlock at hnew
  by_cases h : rows < 0 ∨ cols < 0
  · simp [h] at hnew
  · simp only [h, if_false] at hnew
    cases hnew
    rfl

theorem strAt_zero (c : Char) (rest : List Char) : strAt (c :: rest) 0 = .ok c := by
  have h : ¬ ((0 : Int) < 0 ∨ (((c :: rest).length : Nat) : Int) < 0) := by
    simp only [List.length_cons]
    omega
  unfold strAt
  rw [if_neg h]
  rfl

/-! ## C1: compositor precedence -/

/-- C1: on a display whose stack (bottom to top) is `L`, with every window of it
visible and attached to the display, for a point inside the display bounds
`renderPoint` started at `bottom_window` returns the cell of the topmost window
whose backing rectangle contains the point (window `a`, no window above it in
the stack covers the point), read at offset `(x - pos.x, y - pos.y)`. -/
theorem renderPoint_topmost_window (s : World) (L pre post : List Nat) (a : Nat)
    (w : Window) (x y : Int) (fuel : Nat)
    (hstack : StackIs s L)
    (hvisible : ∀ b ∈ L, ∀ wb, s.windows b = some wb →
      wb.hidden = false ∧ wb.display = DisplayPtr.valid)
    (hx : 0 ≤ x ∧ x < s.display.dim.x) (hy : 0 ≤ y ∧ y < s.display.dim.y)
    (hL : L = pre ++ a :: post) (hw : s.windows a = some w) (hcov : covers w x y)
    (habove : ∀ b ∈ post, ∀ wb, s.windows b = some wb → ¬ covers wb x y)
    (hfuel : L.length ≤ fuel) :
    renderPoint fuel s s.display.bottom_window x y = .ok (cellAt w x y) := by
  have hloop := renderLoop_overlay s x y hx hy L none fuel
    ⟨' ', s.display.default_color, s.display.default_background⟩ hstack.chain
    (fun b hb wb hwb => (hvisible b hb wb hwb).2) hfuel
  have hov : overlay s x y L ⟨' ', s.display.default_color, s.display.default_background⟩
      = cellAt w x y := by
    rw [hL, overlay_append]
    simp only [overlay, hw, if_pos hcov]
    exact overlay_not_covered s x y post _ habove
  cases hLc : L with
  | nil => rw [hLc] at hL; simp at hL
  | cons b rest =>
    have hchain := hstack.chain
    rw [hLc] at hchain
    obtain ⟨wb, hwb, _, _, _⟩ := hchain
    have hvis : wb.hidden = false := (hvisible b (by rw [hLc]; simp) wb hwb).1
    rw [hLc] at hloop hov
    rw [hstack.bottom, hLc]
    simp only [List.head?_cons] at hloop ⊢
    simp only [renderPoint, derefWindow, hwb, hvis]
    rw [hloop, hov]

/-- C1 at windows A (older) and B (newer) of `worldAB`: the point (1, 1), covered
by both, resolves to the cell of B. -/
theorem renderPoint_topmost_window_witness :
    renderPoint 2 (getWorld worldAB) (getWorld worldAB).display.bottom_window 1 1
      = .ok ⟨'b', 7, 0⟩ :=
  renderPoint_topmost_window (getWorld worldAB) [0, 1] [0] [] 1
    (getWindow (getWorld worldAB) 1) 1 1 2
    ⟨by decide, ⟨_, rfl, rfl, rfl, ⟨_, rfl, rfl, rfl, trivial⟩⟩, rfl, rfl⟩
    (by
      intro b hb wb hwb
      simp only [List.mem_cons, List.mem_singleton, List.not_mem_nil, or_false] at hb
      rcases hb with rfl | rfl
      · have h : (getWorld worldAB).windows 0 = some (getWindow (getWorld worldAB) 0) := rfl
        rw [h] at hwb
        cases hwb
        exact ⟨rfl, rfl⟩
      · have h : (getWorld worldAB).windows 1 = some (getWindow (getWorld worldAB) 1) := rfl
        rw [h] at hwb
        cases hwb
        exact ⟨rfl, rfl⟩)
    (by decide) (by decide) rfl rfl (by decide) (by simp) (by decide)

/-! ## C2: a hidden window and the compositor -/

/-- C2 at the failing input: in `worldAB` the point (1, 1) lies in A and B.
After `windowSetHide (B, 1)` the walk of `renderPoint` dereferences the value
`TRUE` that the call stored in `B->display`; and with only the `hidden` flag of B
set (back-reference intact) the walk tests the flag of the bottom window A and
still returns the cell of B, not the cell `a` of A. -/
theorem renderPoint_hidden_top_window :
    renderPoint 2 (getWorld (andThen worldAB (fun s => windowSetHide s 1 true)))
        (getWorld (andThen worldAB (fun s => windowSetHide s 1 true))).display.bottom_window 1 1
      = .error Fault.badPointer
    ∧ renderPoint 2
        (getWorld (andThen worldAB (fun s => modifyWindow s 1 (fun w => { w with hidden := true }))))
        (getWorld (andThen worldAB
          (fun s => modifyWindow s 1 (fun w => { w with hidden := true })))).display.bottom_window
        1 1
      = .ok ⟨'b', 7, 0⟩
    ∧ cellAt (getWindow (getWorld worldAB) 0) 1 1 = ⟨'a', 7, 0⟩ :=
  ⟨rfl, rfl, rfl⟩

/-! ## C3: the stack invariant -/

/-- C3: after any finite sequence of `newWindow`, `setTopWindow` and `freeWindow`
calls on a fresh display, each made on a live window (and `newWindow` with
non-negative content dimensions at an unused address), every call returns and
the stack is a well-formed doubly linked list over exactly the live windows. -/
theorem stack_invariant (rows cols : Int) (s0 : World) (ops : List StackOp)
    (hnew : newDisplay rows cols = .ok s0) (hops : opsAllowed s0 ops = true) :
    ∃ s L, runOps s0 ops = .ok s ∧ WellFormedStack s L := by
  obtain ⟨s, L, hrun, hinv⟩ :=
    stackInv_run ops s0 [] (stackInv_newDisplay rows cols s0 hnew) hops
  exact ⟨s, L, hrun, stackInv_wellFormed s L hinv⟩

/-- C3 on the run `exampleOps` from a fresh 4 x 6 display. -/
theorem stack_invariant_witness :
    ∃ s L, runOps (getWorld (newDisplay 4 6)) exampleOps = .ok s ∧ WellFormedStack s L :=
  stack_invariant 4 6 (getWorld (newDisplay 4 6)) exampleOps rfl rfl

/-! ## C4: promotion to top -/

/-- C4: on a display whose bottom-to-top order is `L`, `setTopWindow` on a window
`a` of `L` returns and leaves the order `L` without `a`, followed by `a`; `a` is
then `top_window`, only stack links of windows changed, and when `a` already was
`top_window` the state is exactly what it was. -/
theorem setTopWindow_order (s : World) (L : List Nat) (a : Nat) (w : Window)
    (hst : StackIs s L) (ha : a ∈ L) (hw : s.windows a = some w)
    (hd : w.display = DisplayPtr.valid) :
    ∃ s', setTopWindow s a = .ok s' ∧ StackIs s' (L.erase a ++ [a]) ∧
      s'.display.top_window = some a ∧ LinksOnly s.windows s'.windows ∧
      (s.display.top_window = some a → s' = s) := by
  obtain ⟨pre, post, rfl⟩ := mem_split_nat ha
  obtain ⟨hanot, _⟩ := List.nodup_cons.mp (List.nodup_middle.mp hst.nodup)
  have ha_pre : a ∉ pre := fun h => hanot (List.mem_append_left _ h)
  have herase : (pre ++ a :: post).erase a = pre ++ post := by
    rw [List.erase_append_right _ ha_pre, List.erase_cons_head]
  obtain ⟨s', hset, hst', hl, hsame⟩ := setTopWindow_spec s pre post a w hst hw hd
  refine ⟨s', hset, by rw [herase]; exact hst', ?_, hl, ?_⟩
  · rw [hst'.top]
    simp
  · intro htop
    apply hsame
    rw [hst.top] at htop
    by_contra hne
    rw [show pre ++ a :: post = (pre ++ [a]) ++ post by simp,
      List.getLast?_append_of_ne_nil _ hne] at htop
    exact hanot (List.mem_append_right _ (List.mem_of_getLast?_eq_some htop))

/-- C4 on the three-window stack `[0, 1, 2]`: promoting the bottom window 0. -/
theorem setTopWindow_order_witness :
    ∃ s', setTopWindow (getWorld (runOps (getWorld (newDisplay 4 6)) (exampleOps.take 3))) 0
        = .ok s' ∧
      StackIs s' ([0, 1, 2].erase 0 ++ [0]) ∧ s'.display.top_window = some 0 ∧
      LinksOnly (getWorld (runOps (getWorld (newDisplay 4 6)) (exampleOps.take 3))).windows
        s'.windows ∧
      ((getWorld (runOps (getWorld (newDisplay 4 6)) (exampleOps.take 3))).display.top_window
          = some 0 → s' = getWorld (runOps (getWorld (newDisplay 4 6)) (exampleOps.take 3))) :=
  setTopWindow_order (getWorld (runOps (getWorld (newDisplay 4 6)) (exampleOps.take 3)))
    [0, 1, 2] 0
    (getWindow (getWorld (runOps (getWorld (newDisplay 4 6)) (exampleOps.take 3))) 0)
    ⟨by decide, ⟨_, rfl, rfl, rfl, _, rfl, rfl, rfl, _, rfl, rfl, rfl, trivial⟩, rfl, rfl⟩
    (by decide) rfl rfl

/-! ## C5: re-emission of unchanged cells -/

/-- C5 at the failing input: on `worldRendered` (one render pass done) the
compositor returns the NUL cell of the window at (0, 0) before and after
`windowClear`, yet the next `displayUpdate` emits a cursor-position escape, both
colour escapes and a character for that cell: the frame buffer holds the space
that was emitted, the compositor the NUL that is stored. -/
theorem displayUpdate_reemits_blank_cell :
    renderPoint 1 (getWorld worldRendered) (getWorld worldRendered).display.bottom_window 0 0
      = .ok ⟨'\x00', 7, 0⟩
    ∧ renderPoint 1 (getWorld worldCleared) (getWorld worldCleared).display.bottom_window 0 0
      = .ok ⟨'\x00', 7, 0⟩
    ∧ (getWorld worldCleared).display.current 0 0 = ' '
    ∧ (getWorld (andThen worldCleared (fun s => displayUpdate 1 ⟨0, 0⟩ s))).display.term
      = (getWorld worldCleared).display.term ++
        [Out.saveCursor, Out.cursorPos 1 1, Out.foreground 7, Out.backgroundColor 0,
         Out.chr ' ', Out.restoreCursor, Out.flush] :=
  ⟨rfl, rfl, rfl, rfl⟩

/-! ## C6: render idempotence -/

/-- C6: with auto-size disabled, a `displayUpdate` directly after a
`displayUpdate` that returned `s1` returns `s1` again: nothing is appended to the
terminal sink and no part of the state (frame buffer, dirty flag, stack) changes. -/
theorem displayUpdate_idempotent (fuel fuel2 : Nat) (ws ws2 : Point) (s s1 : World)
    (hauto : s.display.auto_size = false) (h1 : displayUpdate fuel ws s = .ok s1) :
    displayUpdate fuel2 ws2 s1 = .ok s1 := by
  have hcheck : checkAndUpdateDisplaySize s ws = .ok s := by
    simp [checkAndUpdateDisplaySize, hauto]
  unfold displayUpdate at h1
  rw [hcheck] at h1
  simp only at h1
  by_cases hskip : s.display.hidden = true ∨ (!s.display.dirty) = true
  · rw [if_pos hskip] at h1
    cases h1
    have hcheck2 : checkAndUpdateDisplaySize s ws2 = .ok s := by
      simp [checkAndUpdateDisplaySize, hauto]
    unfold displayUpdate
    rw [hcheck2]
    simp only
    rw [if_pos hskip]
  · rw [if_neg hskip] at h1
    simp only [forRange] at h1
    split at h1
    · cases h1
    · rename_i st hloop
      have hP : st.world.display.dirty = false ∧ st.world.display.auto_size = false := by
        refine forLoop_preserves _
          (fun st => st.world.display.dirty = false ∧ st.world.display.auto_size = false)
          ?_ _ _ _ st ⟨rfl, hauto⟩ hloop
        intro i st1 st2 hP1 hrow
        refine forLoop_preserves _
          (fun st => st.world.display.dirty = false ∧ st.world.display.auto_size = false)
          ?_ _ _ _ st2 hP1 hrow
        intro j st3 st4 hP3 hcell
        obtain ⟨e1, e2⟩ := updateCell_flags fuel i j st3 st4 hcell
        exact ⟨e1.trans hP3.1, e2.trans hP3.2⟩
      cases h1
      have hd : ∀ w : World, w.display.dirty = false → w.display.auto_size = false →
          displayUpdate fuel2 ws2 w = .ok w := by
        intro w hd1 hd2
        simp [displayUpdate, checkAndUpdateDisplaySize, hd1, hd2]
      apply hd
      · simp only [emit]
        split <;> exact hP.1
      · simp only [emit]
        split <;> exact hP.2

/-- C6 on `worldOneCell`: the second `displayUpdate` returns the state (and so
the terminal output) the first one left. -/
theorem displayUpdate_idempotent_witness :
    displayUpdate 1 ⟨0, 0⟩ (getWorld worldRendered) = .ok (getWorld worldRendered) :=
  displayUpdate_idempotent 1 1 ⟨0, 0⟩ ⟨0, 0⟩ (getWorld worldOneCell) (getWorld worldRendered)
    rfl rfl

/-! ## C7: content cells on the display -/

/-- C7: let `a` be a bordered, visible window with at least one content row and
column, attached to its display and the only window of the stack, and let
`windowPrint (window, str, 0, 0)` return, `str` starting with a plain character
`c`.  Then for `(pos.x + 1, pos.y + 1)` inside the display `renderPoint` there
returns `c`, with the attributes of content cell (0, 0), which is cell `[1][1]`
of the backing grid; the window has not moved. -/
theorem content_origin_on_display (s s' : World) (a : Nat) (w : Window) (c : Char)
    (rest : List Char) (fuel : Nat)
    (hstack : StackIs s [a]) (hw : s.windows a = some w) (hb : w.boarder = true)
    (hvis : w.hidden = false) (hd : w.display = DisplayPtr.valid)
    (hrows : 3 ≤ w.dim.x) (hcols : 3 ≤ w.dim.y) (hc : plainChar c = true)
    (hprint : windowPrint s a (c :: rest) 0 0 = .ok s')
    (hx : 0 ≤ w.pos.x + 1 ∧ w.pos.x + 1 < s.display.dim.x)
    (hy : 0 ≤ w.pos.y + 1 ∧ w.pos.y + 1 < s.display.dim.y) (hfuel : 1 ≤ fuel) :
    ∃ w', s'.windows a = some w' ∧ w'.pos = w.pos ∧
      renderPoint fuel s' s'.display.bottom_window (w.pos.x + 1) (w.pos.y + 1)
        = .ok ⟨c, w'.colors 1 1, w'.backgrounds 1 1⟩ := by
  obtain ⟨w0, w1, fl, hw0, hloop, hwin, hdisp⟩ := windowPrint_inv s s' a (c :: rest) 0 0 hprint
  rw [hw] at hw0
  cases hw0
  have hd1 : w.d = 1 := by simp [Window.d, hb]
  obtain ⟨hn0, hnt, _, _⟩ := (plainChar_iff c).1 hc
  have hnp := isNotPrinted_plain c hc
  have hfuel1 : printFuel w (c :: rest) 0 = (rest.length + (w.dim.x - 0).toNat + 2) + 1 := by
    simp only [printFuel, List.length_cons]
    omega
  rw [hfuel1, hd1, windowPrintLoop, strAt_zero] at hloop
  have hrow : ¬ ((0 : Int) + 1 ≥ w.dim.x - 1) := by omega
  have hcond : isNotPrinted c = true ∧ (0 : Int) + 0 + 1 < w.dim.y - 1 := ⟨hnp, by omega⟩
  have hin : inBlock w.dim (0 + 1) (0 + 0 + 1) = true :=
    (inBlock_iff _ _ _).2 ⟨by omega, by omega, by omega, by omega⟩
  simp only [hn0, hrow, hcond, hnt, if_false, if_true, and_self,
    putCell_ok w _ _ _ hin] at hloop
  obtain ⟨hmeta, hcell⟩ := printLoop_frame (c :: rest) 1 1 1 _ _ _ _ _ _ _ hloop
  have hc11 : w1.contents 1 1 = c := by
    rw [hcell (Or.inr ⟨by norm_num, by norm_num⟩)]
    simp [setAt]
  have hmeta2 : SameMeta w w1 := sameMeta_trans (sameMeta_putCell w _ _ _) hmeta
  have hw1 : s'.windows a = some w1 := by rw [hwin]; simp
  have hpos1 : w1.pos = w.pos := sameMeta_pos hmeta2
  have hdim1 : w1.dim = w.dim := sameMeta_dim hmeta2
  have hsdim : s'.display.dim = s.display.dim := by rw [hdisp]
  have hbot : s'.display.bottom_window = some a := by
    rw [hdisp]
    show s.display.bottom_window = _
    rw [hstack.bottom]
    rfl
  have hnext : w1.next = none := by
    rw [(sameMeta_links hmeta2).2]
    obtain ⟨w0, h1, _, h3, _⟩ := hstack.chain
    rw [hw] at h1
    cases h1
    exact h3
  refine ⟨w1, hw1, hpos1, ?_⟩
  have hr := renderPoint_single_window s' a w1 (w.pos.x + 1) (w.pos.y + 1) fuel hbot hw1 hnext
    (by rw [sameMeta_hidden hmeta2, hvis]) (by rw [sameMeta_display hmeta2, hd])
    (by rw [hsdim]; exact hx) (by rw [hsdim]; exact hy)
    (by
      unfold covers
      rw [hdim1, hpos1]
      exact ⟨by omega, by omega, by omega, by omega⟩)
    hfuel
  rw [hr]
  have e1 : w.pos.x + 1 - w1.pos.x = 1 := by rw [hpos1]; omega
  have e2 : w.pos.y + 1 - w1.pos.y = 1 := by rw [hpos1]; omega
  simp only [cellAt, e1, e2, hc11]

/-- C7 on the scenario of the specification: on a 5 x 10 display the bordered
window created with content origin (1, 1) and content size 1 x 6 has
`pos + 1 = (1, 1)`; after `hi` is printed at content (0, 0) the compositor returns
`h` at display cell (1, 1), and after `displayUpdate` the frame buffer holds `h`
at (1, 1) and `i` at (1, 2). -/
theorem content_origin_on_display_witness :
    (∃ w', (getWorld worldHi).windows 0 = some w' ∧
      w'.pos = (getWindow (getWorld worldTiny) 0).pos ∧
      renderPoint 1 (getWorld worldHi) (getWorld worldHi).display.bottom_window
        ((getWindow (getWorld worldTiny) 0).pos.x + 1)
        ((getWindow (getWorld worldTiny) 0).pos.y + 1)
        = .ok ⟨'h', w'.colors 1 1, w'.backgrounds 1 1⟩)
    ∧ (getWindow (getWorld worldTiny) 0).pos.x + 1 = 1
    ∧ (getWindow (getWorld worldTiny) 0).pos.y + 1 = 1
    ∧ (getWorld (andThen worldHi (fun s => displayUpdate 1 ⟨0, 0⟩ s))).display.current 1 1 = 'h'
    ∧ (getWorld (andThen worldHi (fun s => displayUpdate 1 ⟨0, 0⟩ s))).display.current 1 2 = 'i' :=
  ⟨content_origin_on_display (getWorld worldTiny) (getWorld worldHi) 0
      (getWindow (getWorld worldTiny) 0) 'h' ['i'] 1
      ⟨by decide, ⟨_, rfl, rfl, rfl, trivial⟩, rfl, rfl⟩ rfl rfl rfl rfl
      (by decide) (by decide) (by decide) rfl (by decide) (by decide) (le_refl _),
    rfl, rfl, rfl, rfl⟩

/-! ## C8: auto-wrap -/

/-- C8: on a window (attached to its display) of content width `W ≥ 1` and
content height `H`, for a start row `0 ≤ r < H` and a string of plain characters
(no NUL, tab, newline or carriage return), `windowPrint (window, str, r, 0)`
returns, stores `str[k]` in content cell `(r + k / W, k % W)` for every `k` with
`r + k / W < H`, and changes no other cell of the window: characters whose row
would be `≥ H` are not stored. -/
theorem windowPrint_wrap (s : World) (a : Nat) (w : Window) (str : List Char) (r : Int)
    (hw : s.windows a = some w) (hd : w.display = DisplayPtr.valid)
    (hstr : ∀ c ∈ str, plainChar c = true)
    (hW : 1 ≤ w.dim.y - 2 * w.d) (hr0 : 0 ≤ r) (hr1 : r < w.dim.x - 2 * w.d) :
    ∃ s' w', windowPrint s a str r 0 = .ok s' ∧ s'.windows a = some w' ∧
      (∀ k : Nat, k < str.length → r + (k : Int) / (w.dim.y - 2 * w.d) < w.dim.x - 2 * w.d →
        w'.contents (r + (k : Int) / (w.dim.y - 2 * w.d) + w.d)
          ((k : Int) % (w.dim.y - 2 * w.d) + w.d) = str.getD k '\x00') ∧
      (∀ i j : Int,
        (∀ k : Nat, k < str.length →
          r + (k : Int) / (w.dim.y - 2 * w.d) < w.dim.x - 2 * w.d →
          ¬ (i = r + (k : Int) / (w.dim.y - 2 * w.d) + w.d ∧
             j = (k : Int) % (w.dim.y - 2 * w.d) + w.d)) →
        w'.contents i j = w.contents i j) := by
  have hdc := window_d_cases w
  obtain ⟨w', fl, hloop, hmeta, h1, h2⟩ := printLoop_wrap str hstr w.d r (w.dim.y - 2 * w.d)
    (w.dim.x - 2 * w.d) hW (by omega) hr0 (printFuel w str r) 0 0 0 0 r 0 w rfl rfl
    (Nat.zero_le _) (le_refl _) (le_refl _) (by omega) (by simp) rfl (by ring) (by simp)
    (by
      simp only [printFuel, add_zero, Nat.sub_zero]
      have : (w.dim.x - 2 * w.d - r).toNat ≤ (w.dim.x - r).toNat := by omega
      omega)
  obtain ⟨s', hprint, hwa, _, _, _⟩ :=
    windowPrint_of_loop s a w w' str r 0 fl hw hd hloop hmeta
  exact ⟨s', w', hprint, hwa, fun k hk hrow => h1 k (Nat.zero_le _) hk hrow,
    fun i j hij => h2 i j (fun k _ hk hrow => hij k hk hrow)⟩

/-- C8 on the 2 x 3 window of `worldSmall`: of the eight characters `abcdefgh`
printed from row 0, the first six fill the two rows and the last two are dropped. -/
theorem windowPrint_wrap_witness :
    ∃ s' w', windowPrint (getWorld worldSmall) 0 "abcdefgh".toList 0 0 = .ok s' ∧
      s'.windows 0 = some w' ∧
      (∀ k : Nat, k < "abcdefgh".toList.length →
        0 + (k : Int) / ((getWindow (getWorld worldSmall) 0).dim.y
            - 2 * (getWindow (getWorld worldSmall) 0).d)
          < (getWindow (getWorld worldSmall) 0).dim.x
            - 2 * (getWindow (getWorld worldSmall) 0).d →
        w'.contents
          (0 + (k : Int) / ((getWindow (getWorld worldSmall) 0).dim.y
            - 2 * (getWindow (getWorld worldSmall) 0).d)
            + (getWindow (getWorld worldSmall) 0).d)
          ((k : Int) % ((getWindow (getWorld worldSmall) 0).dim.y
            - 2 * (getWindow (getWorld worldSmall) 0).d)
            + (getWindow (getWorld worldSmall) 0).d) = "abcdefgh".toList.getD k '\x00') ∧
      (∀ i j : Int,
        (∀ k : Nat, k < "abcdefgh".toList.length →
          0 + (k : Int) / ((getWindow (getWorld worldSmall) 0).dim.y
              - 2 * (getWindow (getWorld worldSmall) 0).d)
            < (getWindow (getWorld worldSmall) 0).dim.x
              - 2 * (getWindow (getWorld worldSmall) 0).d →
          ¬ (i = 0 + (k : Int) / ((getWindow (getWorld worldSmall) 0).dim.y
                - 2 * (getWindow (getWorld worldSmall) 0).d)
                + (getWindow (getWorld worldSmall) 0).d ∧
             j = (k : Int) % ((getWindow (getWorld worldSmall) 0).dim.y
                - 2 * (getWindow (getWorld worldSmall) 0).d)
                + (getWindow (getWorld worldSmall) 0).d)) →
        w'.contents i j = (getWindow (getWorld worldSmall) 0).contents i j) :=
  windowPrint_wrap (getWorld worldSmall) 0 (getWindow (getWorld worldSmall) 0)
    "abcdefgh".toList 0 rfl rfl (by decide) (by decide) (by decide) (by decide)

/-! ## C9: tab expansion -/

/-- C9: on a window (attached to its display) whose content width is at least 8,
for a content row `r` inside the window, `windowPrint (window, "\t", r, 0)`
returns and leaves a space in each of the content columns 0 to 7 of row `r`. -/
theorem windowPrint_tab_spaces (s : World) (a : Nat) (w : Window) (r : Int)
    (hw : s.windows a = some w) (hd : w.display = DisplayPtr.valid)
    (hwidth : 8 ≤ w.dim.y - 2 * w.d) (hr0 : 0 ≤ r) (hr1 : r < w.dim.x - 2 * w.d) :
    ∃ s' w', windowPrint s a ['\t'] r 0 = .ok s' ∧ s'.windows a = some w' ∧
      ∀ c : Int, 0 ≤ c → c ≤ 7 → w'.contents (r + w.d) (c + w.d) = ' ' := by
  have hdc := window_d_cases w
  obtain ⟨w1, htab, hm1, hsp, hfr⟩ := tabLoop_ok (r + w.d) 0 w.d 8 w 0
    (by omega) (by omega) (by omega) (by push_cast; omega)
  have hin : inBlock w1.dim (r + w.d) (0 + (0 + 8) + w.d) = true := by
    rw [sameMeta_dim hm1]
    exact (inBlock_iff _ _ _).2 ⟨by omega, by omega, by omega, by omega⟩
  have hput := putCell_ok w1 (r + w.d) (0 + (0 + 8) + w.d) '\t' hin
  have hfuel : printFuel w ['\t'] r = ((w.dim.x - r).toNat + 1) + 1 + 1 := by
    simp only [printFuel, List.length_singleton]
    omega
  have hrow : ¬ (r + w.d ≥ w.dim.x - w.d) := by omega
  have hcol : (0 : Int) + 0 + w.d < w.dim.y - w.d := by omega
  have hstop : (Int.tdiv ((0 : Int) + 0 + 8) 8 * 8 - (0 + 0)).toNat = 8 := by decide
  have h0 : strAt ['\t'] 0 = .ok '\t' := rfl
  have h1 : strAt ['\t'] (0 + 1) = .ok '\x00' := rfl
  have hloop : windowPrintLoop ['\t'] w.d (printFuel w ['\t'] r) w 0 r 0 = .ok
      ({ w1 with
          contents := setAt w1.contents (r + w.d) (0 + (0 + 8) + w.d) '\t'
          colors := setAt w1.colors (r + w.d) (0 + (0 + 8) + w.d) w1.color
          backgrounds := if w1.setBack
            then setAt w1.backgrounds (r + w.d) (0 + (0 + 8) + w.d) w1.background
            else w1.backgrounds }, true) := by
    rw [hfuel]
    have htab2 : tabLoop (r + w.d) 0 w.d 8 w 0 = .ok (w1, 0 + 8) := by
      rw [htab]; rfl
    simp only [windowPrintLoop, h0, h1, hrow, hcol, hstop, htab2, hput,
      show ('\t' : Char) ≠ '\x00' by decide, show isNotPrinted '\t' = true by decide,
      if_true, if_false, and_self]
  obtain ⟨s', hprint, hwa, _, _, _⟩ := windowPrint_of_loop s a w _ ['\t'] r 0 true hw hd hloop
    (sameMeta_trans hm1 rfl)
  refine ⟨s', _, hprint, hwa, ?_⟩
  intro c hc0 hc7
  show setAt w1.contents (r + w.d) (0 + (0 + 8) + w.d) '\t' (r + w.d) (c + w.d) = ' '
  have hne : ¬ (r + w.d = r + w.d ∧ c + w.d = 0 + (0 + 8) + w.d) := by omega
  unfold setAt
  rw [if_neg hne]
  have h8 : c + w.d < 0 + 0 + w.d + ((8 : Nat) : Int) := by push_cast; omega
  exact hsp (c + w.d) (by omega) h8

/-- C9 on a borderless 1 x 8 window: after printing a tab, content columns 0 to 7
of row 0 hold spaces. -/
theorem windowPrint_tab_spaces_witness :
    ∃ s' w', windowPrint (getWorld (andThen (newDisplay 3 12)
        (fun s => newWindow s 0 false 0 0 1 8))) 0 ['\t'] 0 0 = .ok s' ∧
      s'.windows 0 = some w' ∧
      ∀ c : Int, 0 ≤ c → c ≤ 7 →
        w'.contents (0 + (getWindow (getWorld (andThen (newDisplay 3 12)
          (fun s => newWindow s 0 false 0 0 1 8))) 0).d)
          (c + (getWindow (getWorld (andThen (newDisplay 3 12)
            (fun s => newWindow s 0 false 0 0 1 8))) 0).d) = ' ' :=
  windowPrint_tab_spaces
    (getWorld (andThen (newDisplay 3 12) (fun s => newWindow s 0 false 0 0 1 8))) 0
    (getWindow (getWorld (andThen (newDisplay 3 12) (fun s => newWindow s 0 false 0 0 1 8))) 0)
    0 rfl rfl (by decide) (by decide) (by decide)

/-! ## C10: printing and the border -/

/-- C10 at the failing input: on the bordered 1 x 8 window of `worldTabBorder`
the right border cell `[1][9]` holds the vertical glyph with colour 7 and
background 0; `windowPrint (window, "\t", 0, 0)` returns and leaves the tab
character there, `windowPrintBackground` with colour 1 and background 3 also
repaints it, and a print started at column -1 (row -1) returns with the
character in the left (top) border cell. -/
theorem windowPrint_overwrites_border :
    (getWindow (getWorld worldTabBorder) 0).contents 1 9 = '|'
    ∧ (getWindow (getWorld worldTabBorder) 0).colors 1 9 = 7
    ∧ (getWindow (getWorld worldTabBorder) 0).backgrounds 1 9 = 0
    ∧ succeeded (andThen worldTabBorder (fun s => windowPrint s 0 ['\t'] 0 0)) = true
    ∧ (getWindow (getWorld (andThen worldTabBorder
        (fun s => windowPrint s 0 ['\t'] 0 0))) 0).contents 1 9 = '\t'
    ∧ (getWindow (getWorld (andThen worldTabBorder
        (fun s => windowPrintColor s 0 ['\t'] 1 0 0))) 0).colors 1 9 = 1
    ∧ (getWindow (getWorld (andThen worldTabBorder
        (fun s => windowPrintBackground s 0 ['\t'] 1 3 0 0))) 0).backgrounds 1 9 = 3
    ∧ (getWindow (getWorld (andThen worldTabBorder
        (fun s => windowPrint s 0 ['a'] 0 (-1)))) 0).contents 1 0 = 'a'
    ∧ (getWindow (getWorld (andThen worldTabBorder
        (fun s => windowPrint s 0 ['a'] (-1) 0))) 0).contents 0 1 = 'a' :=
  ⟨rfl, rfl, rfl, rfl, rfl, rfl, rfl, rfl, rfl⟩

/-! ## Bulk recolouring -/

/-- The two loops of `windowSetColor`: they end normally, change only the
`colors` block, and give colour `c` to exactly the content cells whose colour
was `p`. -/
theorem recolor_loops (w : Window) (p c : Nat) (d : Int) (hd : 0 ≤ d) :
    ∃ w', forRange d (w.dim.x - d) (fun i wi =>
        forRange d (w.dim.y - d) (fun j wj => recolorCell p c i j wj) wi) w = .ok w' ∧
      w' = { w with colors := w'.colors } ∧
      ∀ a b, w'.colors a b =
        if d ≤ a ∧ a < w.dim.x - d ∧ d ≤ b ∧ b < w.dim.y - d ∧ w.colors a b = p then c
        else w.colors a b := by
  obtain ⟨w', hloop, hmeta, hcol⟩ := forRange_ind d (w.dim.x - d) (fun i wi =>
      forRange d (w.dim.y - d) (fun j wj => recolorCell p c i j wj) wi)
    (fun i w' => w' = { w with colors := w'.colors } ∧
      ∀ a b, w'.colors a b =
        if d ≤ a ∧ a < w.dim.x - d ∧ d ≤ b ∧ b < w.dim.y - d ∧ a < i ∧ w.colors a b = p
        then c else w.colors a b) w
    ⟨rfl, fun a b => by
      have : ¬ (d ≤ a ∧ a < w.dim.x - d ∧ d ≤ b ∧ b < w.dim.y - d ∧ a < d ∧
          w.colors a b = p) := by omega
      rw [if_neg this]⟩
    (by
      rintro i w1 hi1 hi2 ⟨hm1, hc1⟩
      obtain ⟨w2, hin, hm2, hc2⟩ := forRange_ind d (w.dim.y - d)
        (fun j wj => recolorCell p c i j wj)
        (fun j w' => w' = { w with colors := w'.colors } ∧
          ∀ a b, w'.colors a b =
            if d ≤ a ∧ a < w.dim.x - d ∧ d ≤ b ∧ b < w.dim.y - d ∧
              (a < i ∨ (a = i ∧ b < j)) ∧ w.colors a b = p
            then c else w.colors a b) w1
        ⟨hm1, fun a b => by
          rw [hc1 a b]
          apply if_congr _ rfl rfl
          constructor
          · rintro ⟨h1, h2, h3, h4, h5, h6⟩
            exact ⟨h1, h2, h3, h4, Or.inl h5, h6⟩
          · rintro ⟨h1, h2, h3, h4, h5, h6⟩
            exact ⟨h1, h2, h3, h4, by omega, h6⟩⟩
        (by
          rintro j w3 hj1 hj2 ⟨hm3, hc3⟩
          have hdim : w3.dim = w.dim := by rw [hm3]
          have hcur : w3.colors i j = w.colors i j := by
            rw [hc3 i j]
            have : ¬ (d ≤ i ∧ i < w.dim.x - d ∧ d ≤ j ∧ j < w.dim.y - d ∧
                (i < i ∨ (i = i ∧ j < j)) ∧ w.colors i j = p) := by omega
            rw [if_neg this]
          by_cases hp : w.colors i j = p
          · have hin : inBlock w3.dim i j = true := by
              rw [hdim]
              exact (inBlock_iff _ _ _).2 ⟨by omega, by omega, by omega, by omega⟩
            refine ⟨{ w3 with colors := setAt w3.colors i j c }, ?_, ?_, ?_⟩
            · simp only [recolorCell, hcur, hp, if_true, hin]
            · show { w3 with colors := setAt w3.colors i j c } = { w with colors := _ }
              rw [hm3]
            · intro a b
              show setAt w3.colors i j c a b = _
              unfold setAt
              by_cases hab : a = i ∧ b = j
              · rw [if_pos hab]
                obtain ⟨rfl, rfl⟩ := hab
                rw [if_pos ⟨by omega, by omega, by omega, by omega, by omega, hp⟩]
              · rw [if_neg hab, hc3 a b]
                apply if_congr _ rfl rfl
                constructor
                · rintro ⟨h1, h2, h3, h4, h5, h6⟩
                  exact ⟨h1, h2, h3, h4, by omega, h6⟩
                · rintro ⟨h1, h2, h3, h4, h5, h6⟩
                  exact ⟨h1, h2, h3, h4, by omega, h6⟩
          · refine ⟨w3, ?_, hm3, ?_⟩
            · simp only [recolorCell, hcur, hp, if_false]
            · intro a b
              rw [hc3 a b]
              by_cases hab : a = i ∧ b = j
              · obtain ⟨rfl, rfl⟩ := hab
                rw [if_neg (fun h => hp h.2.2.2.2.2), if_neg (fun h => hp h.2.2.2.2.2)]
              · apply if_congr _ rfl rfl
                constructor
                · rintro ⟨h1, h2, h3, h4, h5, h6⟩
                  exact ⟨h1, h2, h3, h4, by omega, h6⟩
                · rintro ⟨h1, h2, h3, h4, h5, h6⟩
                  exact ⟨h1, h2, h3, h4, by omega, h6⟩)
      refine ⟨w2, hin, hm2, ?_⟩
      intro a b
      rw [hc2 a b]
      apply if_congr _ rfl rfl
      constructor
      · rintro ⟨h1, h2, h3, h4, h5, h6⟩
        exact ⟨h1, h2, h3, h4, by omega, h6⟩
      · rintro ⟨h1, h2, h3, h4, h5, h6⟩
        exact ⟨h1, h2, h3, h4, by omega, h6⟩)
  refine ⟨w', hloop, hmeta, ?_⟩
  intro a b
  rw [hcol a b]
  apply if_congr _ rfl rfl
  constructor
  · rintro ⟨h1, h2, h3, h4, _, h6⟩
    exact ⟨h1, h2, h3, h4, h6⟩
  · rintro ⟨h1, h2, h3, h4, h6⟩
    exact ⟨h1, h2, h3, h4, by omega, h6⟩

/-- The effect of `windowSetColor` on an attached window. -/
theorem windowSetColor_spec (s : World) (a : Nat) (w : Window) (color : Nat)
    (hw : s.windows a = some w) (hd : w.display = DisplayPtr.valid) :
    ∃ s' w', windowSetColor s a color = .ok s' ∧ s'.windows a = some w' ∧
      w' = { w with colors := w'.colors, color := color } ∧
      (∀ i j, w'.colors i j =
        if w.d ≤ i ∧ i < w.dim.x - w.d ∧ w.d ≤ j ∧ j < w.dim.y - w.d ∧ w.colors i j = w.color
        then color else w.colors i j) ∧
      (∀ b, b ≠ a → s'.windows b = s.windows b) ∧
      s'.display = { s.display with dirty := true } := by
  have hdc := window_d_cases w
  obtain ⟨w1, hloop, hmeta, hcol⟩ := recolor_loops w w.color color w.d (by omega)
  have hd1 : ({ w1 with color := color } : Window).display = DisplayPtr.valid := by
    show w1.display = _
    rw [hmeta]
    exact hd
  have hset : windowSetColor s a color = .ok
      { display := { s.display with dirty := true }
        windows := Function.update s.windows a (some { w1 with color := color }) } := by
    simp only [windowSetColor, derefWindow, hw, hloop]
    exact markDirty_ok _ _ hd1
  refine ⟨_, { w1 with color := color }, hset, by simp, ?_, hcol, ?_, rfl⟩
  · show { w1 with color := color } = { w with colors := w1.colors, color := color }
    rw [hmeta]
  · intro b hb
    simp [Function.update_noteq hb]

/-! ## The pen of `windowPrint` -/

theorem sameMeta_pen {w w' : Window} (h : SameMeta w w') :
    w'.color = w.color ∧ w'.background = w.background ∧ w'.setBack = w.setBack ∧
      w'.boarder = w.boarder := by
  unfold SameMeta at h
  rw [h]
  exact ⟨rfl, rfl, rfl, rfl⟩

theorem penStep_refl (w : Window) : PenStep w w :=
  ⟨sameMeta_refl w, fun _ _ => Or.inl ⟨rfl, rfl, rfl⟩⟩

theorem penStep_trans {w₁ w₂ w₃ : Window} (h12 : PenStep w₁ w₂) (h23 : PenStep w₂ w₃) :
    PenStep w₁ w₃ := by
  obtain ⟨hm12, hc12⟩ := h12
  obtain ⟨hm23, hc23⟩ := h23
  obtain ⟨e1, e2, e3, _⟩ := sameMeta_pen hm12
  refine ⟨sameMeta_trans hm12 hm23, ?_⟩
  intro r c
  rcases hc23 r c with ⟨a1, a2, a3⟩ | ⟨b1, b2⟩
  · rcases hc12 r c with ⟨c1, c2, c3⟩ | ⟨d1, d2⟩
    · exact Or.inl ⟨a1.trans c1, a2.trans c2, a3.trans c3⟩
    · exact Or.inr ⟨a2.trans d1, a3.trans d2⟩
  · refine Or.inr ⟨b1.trans e1, ?_⟩
    rw [b2, e3, e2]
    by_cases hsb : w₁.setBack = true
    · rw [if_pos hsb, if_pos hsb]
    · rw [if_neg hsb, if_neg hsb]
      rcases hc12 r c with ⟨_, _, c3⟩ | ⟨_, d2⟩
      · exact c3
      · rw [d2, if_neg hsb]

theorem penStep_putCell (w w' : Window) (r c : Int) (ch : Char)
    (h : putCell w r c ch = .ok w') : PenStep w w' := by
  unfold putCell at h
  by_cases hb : inBlock w.dim r c = true
  · rw [if_pos hb] at h
    cases h
    refine ⟨rfl, ?_⟩
    intro i j
    by_cases hij : i = r ∧ j = c
    · right
      obtain ⟨rfl, rfl⟩ := hij
      refine ⟨by simp [setAt], ?_⟩
      by_cases hsb : w.setBack = true
      · simp [hsb, setAt]
      · simp [hsb]
    · left
      refine ⟨by simp [setAt, hij], by simp [setAt, hij], ?_⟩
      by_cases hsb : w.setBack = true
      · simp [hsb, setAt, hij]
      · simp [hsb]
  · rw [if_neg hb] at h
    cases h

theorem penStep_tabLoop (row i d : Int) :
    ∀ (n : Nat) (w : Window) (y : Int) (w' : Window) (y' : Int),
      tabLoop row i d n w y = .ok (w', y') → PenStep w w' := by
  intro n
  induction n with
  | zero =>
    intro w y w' y' h
    simp only [tabLoop, Except.ok.injEq, Prod.mk.injEq] at h
    rw [← h.1]
    exact penStep_refl w
  | succ n ih =>
    intro w y w' y' h
    simp only [tabLoop] at h
    cases hput : putCell w row (i + y + d) ' ' with
    | error e => rw [hput] at h; cases h
    | ok w1 =>
      rw [hput] at h
      exact penStep_trans (penStep_putCell _ _ _ _ _ hput) (ih w1 (y + 1) w' y' h)

/-- Every store of the print loop applies the pen. -/
theorem penStep_printLoop (str : List Char) (d : Int) :
    ∀ (fuel : Nat) (w : Window) (i x y : Int) (w' : Window) (fl : Bool),
      windowPrintLoop str d fuel w i x y = .ok (w', fl) → PenStep w w' := by
  intro fuel
  induction fuel with
  | zero => intro w i x y w' fl h; simp [windowPrintLoop] at h
  | succ fuel ih =>
    intro w i x y w' fl h
    rw [windowPrintLoop] at h
    cases hc : strAt str i with
    | error e => rw [hc] at h; cases h
    | ok c =>
      rw [hc] at h
      simp only at h
      by_cases h0 : c = '\x00'
      · rw [if_pos h0] at h
        cases h
        exact penStep_refl _
      rw [if_neg h0] at h
      by_cases hrow : x + d ≥ w.dim.x - d
      · rw [if_pos hrow] at h
        cases h
        exact penStep_refl _
      rw [if_neg hrow] at h
      by_cases hcond : isNotPrinted c = true ∧ i + y + d < w.dim.y - d
      · rw [if_pos hcond] at h
        cases ht : (if c = '\t' then
            tabLoop (x + d) i d (Int.tdiv (i + y + 8) 8 * 8 - (i + y)).toNat w y
          else Except.ok (w, y)) with
        | error e => rw [ht] at h; cases h
        | ok p =>
          obtain ⟨w1, y1⟩ := p
          rw [ht] at h
          simp only at h
          have hs1 : PenStep w w1 := by
            by_cases hct : c = '\t'
            · rw [if_pos hct] at ht
              exact penStep_tabLoop _ _ _ _ _ _ _ _ ht
            · rw [if_neg hct] at ht
              simp only [Except.ok.injEq, Prod.mk.injEq] at ht
              rw [← ht.1]
              exact penStep_refl _
          cases hput : putCell w1 (x + d) (i + y1 + d) c with
          | error e => rw [hput] at h; cases h
          | ok w2 =>
            rw [hput] at h
            simp only at h
            exact penStep_trans hs1 (penStep_trans (penStep_putCell _ _ _ _ _ hput)
              (ih w2 (i + 1) x y1 w' fl h))
      · rw [if_neg hcond] at h
        cases hc1 : strAt str (if isNotPrinted c = true then i - 1 else i) with
        | error e => rw [hc1] at h; cases h
        | ok c1 =>
          rw [hc1] at h
          simp only at h
          by_cases hr : c1 = '\r'
          · rw [if_pos hr] at h
            cases hc2 : strAt str ((if isNotPrinted c = true then i - 1 else i) + 1) with
            | error e => rw [hc2] at h; cases h
            | ok c2 =>
              rw [hc2] at h
              simp only at h
              exact ih w _ _ y w' fl h
          · rw [if_neg hr] at h
            exact ih w _ _ _ w' fl h

theorem penColoured_of_penStep {w w' : Window} (h : PenStep w w') (hp : PenColoured w) :
    PenColoured w' := by
  obtain ⟨hm, hc⟩ := h
  obtain ⟨e1, _, _, e4⟩ := sameMeta_pen hm
  have hd : w'.d = w.d := by simp [Window.d, e4]
  intro i j h1 h2 h3 h4
  rw [hd, sameMeta_dim hm] at *
  rcases hc i j with ⟨_, c2, _⟩ | ⟨d1, _⟩
  · rw [c2, e1]
    exact hp i j h1 h2 h3 h4
  · rw [d1, e1]

/-! ## C11: the pen of `windowPrint` -/

/-- C11, counterexample: on `worldRowPainted` cell (0, 0) has background 3 and the
pen background is 0; `windowPrint (w, "b", 0, 0)` stores `b` in that cell and the
cell's background is still 3, not the pen background. -/
theorem windowPrint_background_not_pen :
    (getWindow (getWorld worldRowPainted) 0).contents 0 0 = 'a'
    ∧ (getWindow (getWorld (andThen worldRowPainted
        (fun s => windowPrint s 0 ['b'] 0 0))) 0).contents 0 0 = 'b'
    ∧ (getWindow (getWorld (andThen worldRowPainted
        (fun s => windowPrint s 0 ['b'] 0 0))) 0).backgrounds 0 0 = 3
    ∧ (getWindow (getWorld (andThen worldRowPainted
        (fun s => windowPrint s 0 ['b'] 0 0))) 0).background = 0
    ∧ (getWindow (getWorld (andThen worldRowPainted
        (fun s => windowPrint s 0 ['b'] 0 0))) 0).backgrounds 0 0
      ≠ (getWindow (getWorld (andThen worldRowPainted
        (fun s => windowPrint s 0 ['b'] 0 0))) 0).background :=
  ⟨rfl, rfl, rfl, rfl, by decide⟩

/-- C11, amended: after a `windowPrint` that returned, the pen of the window is
what it was, and every cell of the window is either untouched (same character,
colour and background) or has the pen colour `window->color`; the background of
such a cell is the pen background `window->background` when `setBack` is on (as
it is inside `windowPrintBackground`) and the background the cell had before the
call otherwise. -/
theorem windowPrint_pen (s s' : World) (a : Nat) (w : Window) (str : List Char) (x y : Int)
    (hw : s.windows a = some w) (hprint : windowPrint s a str x y = .ok s') :
    ∃ w', s'.windows a = some w' ∧ w'.color = w.color ∧ w'.background = w.background ∧
      w'.setBack = w.setBack ∧
      ∀ r c,
        (w'.contents r c = w.contents r c ∧ w'.colors r c = w.colors r c ∧
          w'.backgrounds r c = w.backgrounds r c) ∨
        (w'.colors r c = w'.color ∧
          w'.backgrounds r c = if w'.setBack then w'.background else w.backgrounds r c) := by
  obtain ⟨w0, w1, fl, hw0, hloop, hwin, _⟩ := windowPrint_inv s s' a str x y hprint
  rw [hw] at hw0
  cases hw0
  obtain ⟨hmeta, hcells⟩ := penStep_printLoop str w.d _ w 0 x y w1 fl hloop
  obtain ⟨e1, e2, e3, _⟩ := sameMeta_pen hmeta
  refine ⟨w1, by rw [hwin]; simp, e1, e2, e3, ?_⟩
  intro r c
  rcases hcells r c with h | ⟨h1, h2⟩
  · exact Or.inl h
  · right
    rw [e1, e2, e3]
    exact ⟨h1, h2⟩

/-- C11, amended, on `worldRowPainted` and the text `b` printed at (0, 0). -/
theorem windowPrint_pen_witness :
    ∃ w', (getWorld (andThen worldRowPainted (fun s => windowPrint s 0 ['b'] 0 0))).windows 0
        = some w' ∧
      w'.color = (getWindow (getWorld worldRowPainted) 0).color ∧
      w'.background = (getWindow (getWorld worldRowPainted) 0).background ∧
      w'.setBack = (getWindow (getWorld worldRowPainted) 0).setBack ∧
      ∀ r c,
        (w'.contents r c = (getWindow (getWorld worldRowPainted) 0).contents r c ∧
          w'.colors r c = (getWindow (getWorld worldRowPainted) 0).colors r c ∧
          w'.backgrounds r c = (getWindow (getWorld worldRowPainted) 0).backgrounds r c) ∨
        (w'.colors r c = w'.color ∧
          w'.backgrounds r c = if w'.setBack then w'.background
            else (getWindow (getWorld worldRowPainted) 0).backgrounds r c) :=
  windowPrint_pen (getWorld worldRowPainted)
    (getWorld (andThen worldRowPainted (fun s => windowPrint s 0 ['b'] 0 0))) 0
    (getWindow (getWorld worldRowPainted) 0) ['b'] 0 0 rfl rfl

/-! ## C12: single-cell write -/

/-- C12 at the failing inputs.  On the borderless 2 x 3 window of `worldSmall`,
`windowChar (w, 'a', 0, 0)` returns and content cell (0, 0), which is in range,
still holds NUL (the test asks for shifted coordinates greater than zero), while
(1, 1) is written.  On the bordered 1 x 1 window of `worldUnit`,
`windowChar (w, 'a', 0, 1)`, whose column is out of range, returns with `a` in
the right border cell `[1][2]`, which held the vertical glyph (the upper bounds
are those of the display). -/
theorem windowChar_wrong_bounds :
    succeeded (andThen worldSmall (fun s => windowChar s 0 'a' 0 0)) = true
    ∧ (getWindow (getWorld (andThen worldSmall
        (fun s => windowChar s 0 'a' 0 0))) 0).contents 0 0 = '\x00'
    ∧ (getWindow (getWorld (andThen worldSmall
        (fun s => windowChar s 0 'a' 1 1))) 0).contents 1 1 = 'a'
    ∧ (getWindow (getWorld worldUnit) 0).contents 1 2 = '|'
    ∧ succeeded (andThen worldUnit (fun s => windowChar s 0 'a' 0 1)) = true
    ∧ (getWindow (getWorld (andThen worldUnit
        (fun s => windowChar s 0 'a' 0 1))) 0).contents 1 2 = 'a' :=
  ⟨rfl, rfl, rfl, rfl, rfl, rfl⟩

/-! ## C13: the bulk recolour rule -/

/-- C13: on an attached window with pen colour `p = window->color`,
`windowSetColor (window, color)` returns; each content cell whose colour was `p`
has colour `color`; every other content cell and every cell outside the content
area (the border) keeps its colour; no character and no background changes; the
pen colour is `color`, and no other field of the window changes. -/
theorem windowSetColor_rule (s : World) (a : Nat) (w : Window) (color : Nat)
    (hw : s.windows a = some w) (hd : w.display = DisplayPtr.valid) :
    ∃ s' w', windowSetColor s a color = .ok s' ∧ s'.windows a = some w' ∧
      w'.color = color ∧
      (∀ i j, w.d ≤ i → i < w.dim.x - w.d → w.d ≤ j → j < w.dim.y - w.d →
        w.colors i j = w.color → w'.colors i j = color) ∧
      (∀ i j, w.d ≤ i → i < w.dim.x - w.d → w.d ≤ j → j < w.dim.y - w.d →
        w.colors i j ≠ w.color → w'.colors i j = w.colors i j) ∧
      (∀ i j, ¬ (w.d ≤ i ∧ i < w.dim.x - w.d ∧ w.d ≤ j ∧ j < w.dim.y - w.d) →
        w'.colors i j = w.colors i j) ∧
      (∀ i j, w'.contents i j = w.contents i j ∧ w'.backgrounds i j = w.backgrounds i j) ∧
      w' = { w with colors := w'.colors, color := color } := by
  obtain ⟨s', w', hset, hwa, hmeta, hcol, _, _⟩ := windowSetColor_spec s a w color hw hd
  refine ⟨s', w', hset, hwa, by rw [hmeta], ?_, ?_, ?_, ?_, hmeta⟩
  · intro i j h1 h2 h3 h4 hp
    rw [hcol i j, if_pos ⟨h1, h2, h3, h4, hp⟩]
  · intro i j _ _ _ _ hp
    rw [hcol i j, if_neg (fun h => hp h.2.2.2.2)]
  · intro i j hout
    rw [hcol i j, if_neg (fun h => hout ⟨h.1, h.2.1, h.2.2.1, h.2.2.2.1⟩)]
  · intro i j
    rw [hmeta]
    exact ⟨rfl, rfl⟩

/-- C13 on the bordered window of `worldBox` and the colour RED. -/
theorem windowSetColor_rule_witness :
    ∃ s' w', windowSetColor (getWorld worldBox) 0 RED = .ok s' ∧ s'.windows 0 = some w' ∧
      w'.color = RED ∧
      (∀ i j, (getWindow (getWorld worldBox) 0).d ≤ i →
        i < (getWindow (getWorld worldBox) 0).dim.x - (getWindow (getWorld worldBox) 0).d →
        (getWindow (getWorld worldBox) 0).d ≤ j →
        j < (getWindow (getWorld worldBox) 0).dim.y - (getWindow (getWorld worldBox) 0).d →
        (getWindow (getWorld worldBox) 0).colors i j = (getWindow (getWorld worldBox) 0).color →
        w'.colors i j = RED) ∧
      (∀ i j, (getWindow (getWorld worldBox) 0).d ≤ i →
        i < (getWindow (getWorld worldBox) 0).dim.x - (getWindow (getWorld worldBox) 0).d →
        (getWindow (getWorld worldBox) 0).d ≤ j →
        j < (getWindow (getWorld worldBox) 0).dim.y - (getWindow (getWorld worldBox) 0).d →
        (getWindow (getWorld worldBox) 0).colors i j ≠ (getWindow (getWorld worldBox) 0).color →
        w'.colors i j = (getWindow (getWorld worldBox) 0).colors i j) ∧
      (∀ i j, ¬ ((getWindow (getWorld worldBox) 0).d ≤ i ∧
          i < (getWindow (getWorld worldBox) 0).dim.x - (getWindow (getWorld worldBox) 0).d ∧
          (getWindow (getWorld worldBox) 0).d ≤ j ∧
          j < (getWindow (getWorld worldBox) 0).dim.y - (getWindow (getWorld worldBox) 0).d) →
        w'.colors i j = (getWindow (getWorld worldBox) 0).colors i j) ∧
      (∀ i j, w'.contents i j = (getWindow (getWorld worldBox) 0).contents i j ∧
        w'.backgrounds i j = (getWindow (getWorld worldBox) 0).backgrounds i j) ∧
      w' = { getWindow (getWorld worldBox) 0 with colors := w'.colors, color := RED } :=
  windowSetColor_rule (getWorld worldBox) 0 (getWindow (getWorld worldBox) 0) RED rfl rfl

/-! ## C14: the recolouring scenario -/

theorem andThen_ok (r : Except Fault World) (f : World → Except Fault World) (s' : World)
    (h : andThen r f = .ok s') : ∃ s, r = .ok s ∧ f s = .ok s' := by
  cases r with
  | error e => simp [andThen] at h
  | ok s => exact ⟨s, rfl, h⟩

/-- `windowSetColor` on a window whose content cells all carry the pen colour
leaves them all in the new pen colour. -/
theorem windowSetColor_penColoured (s : World) (a : Nat) (w : Window) (color : Nat)
    (hw : s.windows a = some w) (hd : w.display = DisplayPtr.valid) (hp : PenColoured w) :
    ∃ s' w', windowSetColor s a color = .ok s' ∧ s'.windows a = some w' ∧
      w'.display = DisplayPtr.valid ∧ PenColoured w' ∧ w'.color = color := by
  obtain ⟨s', w', hset, hwa, hmeta, hcol, _, _⟩ := windowSetColor_spec s a w color hw hd
  have hd' : w'.d = w.d := by rw [hmeta]; rfl
  have hdim : w'.dim = w.dim := by rw [hmeta]
  have hc : w'.color = color := by rw [hmeta]
  refine ⟨s', w', hset, hwa, by rw [hmeta]; exact hd, ?_, hc⟩
  intro i j h1 h2 h3 h4
  rw [hd', hdim] at *
  rw [hcol i j, if_pos ⟨h1, h2, h3, h4, hp i j h1 h2 h3 h4⟩, hc]

/-- A `windowPrint` that returned keeps the content cells in the pen colour. -/
theorem windowPrint_penColoured (s s' : World) (a : Nat) (w : Window) (str : List Char)
    (x y : Int) (hw : s.windows a = some w) (hd : w.display = DisplayPtr.valid)
    (hp : PenColoured w) (hprint : windowPrint s a str x y = .ok s') :
    ∃ w', s'.windows a = some w' ∧ w'.display = DisplayPtr.valid ∧ PenColoured w' ∧
      w'.color = w.color := by
  obtain ⟨w0, w1, fl, hw0, hloop, hwin, _⟩ := windowPrint_inv s s' a str x y hprint
  rw [hw] at hw0
  cases hw0
  have hstep := penStep_printLoop str w.d _ w 0 x y w1 fl hloop
  exact ⟨w1, by rw [hwin]; simp, by rw [sameMeta_display hstep.1, hd],
    penColoured_of_penStep hstep hp, (sameMeta_pen hstep.1).1⟩

/-- C14, counterexample: in the run `worldRecoloured` (pen red, `a` at column 0,
pen blue, `b` at column 2, pen green) the cell of text A is green and the cell of
text B is green too, not blue. -/
theorem recolour_scenario_text_B_green :
    succeeded worldRecoloured = true
    ∧ (getWindow (getWorld worldRecoloured) 0).contents 0 0 = 'a'
    ∧ (getWindow (getWorld worldRecoloured) 0).colors 0 0 = GREEN
    ∧ (getWindow (getWorld worldRecoloured) 0).contents 0 2 = 'b'
    ∧ (getWindow (getWorld worldRecoloured) 0).colors 0 2 = GREEN
    ∧ (getWindow (getWorld worldRecoloured) 0).colors 0 2 ≠ BLUE :=
  ⟨rfl, rfl, rfl, rfl, rfl, by decide⟩

/-- C14, amended: on a window freshly created by `newWindow`, the calls
`windowSetColor (RED)`, `windowPrint` of text A, `windowSetColor (BLUE)`,
`windowPrint` of text B, `windowSetColor (GREEN)`, when they return, leave the
pen green and every content cell of the window green: the cells of text A and
the cells of text B alike. -/
theorem recolour_scenario_all_green (s0 s6 : World) (L : List Nat) (a : Nat) (boarder : Bool)
    (pos_x pos_y dim_x dim_y : Int) (A B : List Char) (xa ya xb yb : Int)
    (hst : StackIs s0 L) (hfresh : s0.windows a = none) (hdx : 0 ≤ dim_x) (hdy : 0 ≤ dim_y)
    (hrun : andThen (andThen (andThen (andThen (andThen
        (newWindow s0 a boarder pos_x pos_y dim_x dim_y)
        (fun s => windowSetColor s a RED))
        (fun s => windowPrint s a A xa ya))
        (fun s => windowSetColor s a BLUE))
        (fun s => windowPrint s a B xb yb))
        (fun s => windowSetColor s a GREEN) = .ok s6) :
    ∃ w6, s6.windows a = some w6 ∧ w6.color = GREEN ∧
      ∀ i j, w6.d ≤ i → i < w6.dim.x - w6.d → w6.d ≤ j → j < w6.dim.y - w6.d →
        w6.colors i j = GREEN := by
  obtain ⟨s1, w1, hnew, _, hw1, hd1, _, hshape, _, hcells⟩ :=
    newWindow_spec s0 L a boarder pos_x pos_y dim_x dim_y hst hfresh hdx hdy
  have hp1 : PenColoured w1 := by
    intro i j _ _ _ _
    rw [hcells.2.1 i j, hshape.2.2.2.2.1]
    rfl
  obtain ⟨s5, h5, hgreen⟩ := andThen_ok _ _ _ hrun
  obtain ⟨s4, h4, hprintB⟩ := andThen_ok _ _ _ h5
  obtain ⟨s3, h3, hblue⟩ := andThen_ok _ _ _ h4
  obtain ⟨s2, h2, hprintA⟩ := andThen_ok _ _ _ h3
  obtain ⟨s1', h1, hred⟩ := andThen_ok _ _ _ h2
  rw [hnew] at h1
  cases h1
  obtain ⟨s2', w2, e2, hw2, hd2, hp2, _⟩ :=
    windowSetColor_penColoured s1 a w1 RED hw1 hd1 hp1
  rw [hred] at e2
  cases e2
  obtain ⟨w3, hw3, hd3, hp3, _⟩ :=
    windowPrint_penColoured s2 s3 a w2 A xa ya hw2 hd2 hp2 hprintA
  obtain ⟨s4', w4, e4, hw4, hd4, hp4, _⟩ :=
    windowSetColor_penColoured s3 a w3 BLUE hw3 hd3 hp3
  rw [hblue] at e4
  cases e4
  obtain ⟨w5, hw5, hd5, hp5, _⟩ :=
    windowPrint_penColoured s4 s5 a w4 B xb yb hw4 hd4 hp4 hprintB
  obtain ⟨s6', w6, e6, hw6, _, hp6, hc6⟩ :=
    windowSetColor_penColoured s5 a w5 GREEN hw5 hd5 hp5
  rw [hgreen] at e6
  cases e6
  refine ⟨w6, hw6, hc6, ?_⟩
  intro i j h1 h2 h3 h4
  rw [hp6 i j h1 h2 h3 h4, hc6]

/-- C14, amended, on the run `worldRecoloured`: every content cell of the 1 x 4
window ends green. -/
theorem recolour_scenario_all_green_witness :
    ∃ w6, (getWorld worldRecoloured).windows 0 = some w6 ∧ w6.color = GREEN ∧
      ∀ i j, w6.d ≤ i → i < w6.dim.x - w6.d → w6.d ≤ j → j < w6.dim.y - w6.d →
        w6.colors i j = GREEN :=
  recolour_scenario_all_green (getWorld (newDisplay 3 6)) (getWorld worldRecoloured) [] 0 false
    0 0 1 4 ['a'] ['b'] 0 0 0 2 ⟨by decide, trivial, rfl, rfl⟩ rfl (by decide) (by decide) rfl

/-! ## C15: the background rectangle -/

/-- C15 at the failing inputs.  On the borderless 3 x 2 window of `worldTall`,
`windowDrawBackground (w, 4, 0, 0, 3, 2)` returns with rows 0 and 1 painted and
the content cells (2, 0) and (2, 1), inside the rectangle, still with
background 0: the inner loop tests the row against the column bound.  On the
bordered 2 x 2 window of `worldBox`, `windowDrawBackground (w, 4, 0, 0, 1, 3)`
returns with the right border cell `[1][3]` painted, since the column is not
tested at all. -/
theorem windowDrawBackground_wrong_clip :
    succeeded (andThen worldTall (fun s => windowDrawBackground s 0 4 0 0 3 2)) = true
    ∧ (getWindow (getWorld (andThen worldTall
        (fun s => windowDrawBackground s 0 4 0 0 3 2))) 0).backgrounds 1 1 = 4
    ∧ (getWindow (getWorld (andThen worldTall
        (fun s => windowDrawBackground s 0 4 0 0 3 2))) 0).backgrounds 2 0 = 0
    ∧ (getWindow (getWorld (andThen worldTall
        (fun s => windowDrawBackground s 0 4 0 0 3 2))) 0).backgrounds 2 1 = 0
    ∧ succeeded (andThen worldBox (fun s => windowDrawBackground s 0 4 0 0 1 3)) = true
    ∧ (getWindow (getWorld worldBox) 0).backgrounds 1 3 = 0
    ∧ (getWindow (getWorld (andThen worldBox
        (fun s => windowDrawBackground s 0 4 0 0 1 3))) 0).backgrounds 1 3 = 4 :=
  ⟨rfl, rfl, rfl, rfl, rfl, rfl, rfl⟩

/-! ## C16: the border at creation -/

/-- C16: `newWindow` with `boarder` set and content dimensions `dim_x, dim_y ≥ 0`,
on a display with a well-formed stack and at an unused address, returns; the
window has backing size `dx = dim_x + 2`, `dy = dim_y + 2`, its four corner
cells hold `+`, the cells of columns `0` and `dy - 1` in rows `1 .. dx - 2` hold
the vertical glyph, the cells of rows `0` and `dx - 1` in columns `1 .. dy - 2`
hold `-`, and every content cell holds NUL. -/
theorem newWindow_border (s : World) (L : List Nat) (a : Nat)
    (pos_x pos_y dim_x dim_y : Int)
    (hst : StackIs s L) (hfresh : s.windows a = none) (hdx : 0 ≤ dim_x) (hdy : 0 ≤ dim_y) :
    ∃ s' w, newWindow s a true pos_x pos_y dim_x dim_y = .ok s' ∧ s'.windows a = some w ∧
      w.dim = ⟨dim_x + 2, dim_y + 2⟩ ∧
      (w.contents 0 0 = '+' ∧ w.contents 0 (dim_y + 2 - 1) = '+' ∧
        w.contents (dim_x + 2 - 1) 0 = '+' ∧
        w.contents (dim_x + 2 - 1) (dim_y + 2 - 1) = '+') ∧
      (∀ i, 1 ≤ i → i ≤ dim_x + 2 - 2 →
        w.contents i 0 = '|' ∧ w.contents i (dim_y + 2 - 1) = '|') ∧
      (∀ j, 1 ≤ j → j ≤ dim_y + 2 - 2 →
        w.contents 0 j = '-' ∧ w.contents (dim_x + 2 - 1) j = '-') ∧
      (∀ i j, 1 ≤ i → i ≤ dim_x + 2 - 2 → 1 ≤ j → j ≤ dim_y + 2 - 2 →
        w.contents i j = '\x00') := by
  obtain ⟨s', w, hnew, _, hw, _, _, hshape, _, hcells⟩ :=
    newWindow_spec s L a true pos_x pos_y dim_x dim_y hst hfresh hdx hdy
  have hdim : w.dim = ⟨dim_x + 2, dim_y + 2⟩ := hshape.2.1
  have hg : ∀ i j, w.contents i j =
      boarderGlyph (dim_x + 2) (dim_y + 2) '|' '-' '+' (fun _ _ => '\x00') i j := by
    intro i j
    rw [hcells.1 i j]
    rfl
  refine ⟨s', w, hnew, hw, hdim, ⟨?_, ?_, ?_, ?_⟩, ?_, ?_, ?_⟩
  · rw [hg]; unfold boarderGlyph; split_ifs <;> first | rfl | omega
  · rw [hg]; unfold boarderGlyph; split_ifs <;> first | rfl | omega
  · rw [hg]; unfold boarderGlyph; split_ifs <;> first | rfl | omega
  · rw [hg]; unfold boarderGlyph; split_ifs <;> first | rfl | omega
  · intro i h1 h2
    constructor
    · rw [hg]; unfold boarderGlyph; split_ifs <;> first | rfl | omega
    · rw [hg]; unfold boarderGlyph; split_ifs <;> first | rfl | omega
  · intro j h1 h2
    constructor
    · rw [hg]; unfold boarderGlyph; split_ifs <;> first | rfl | omega
    · rw [hg]; unfold boarderGlyph; split_ifs <;> first | rfl | omega
  · intro i j h1 h2 h3 h4
    rw [hg]; unfold boarderGlyph; split_ifs <;> first | rfl | omega

/-- C16 on a fresh 40 x 80 display and the window of the test program
(`newWindow (display, 1, 1, 1, 38, 78)`). -/
theorem newWindow_border_witness :
    ∃ s' w, newWindow (getWorld (newDisplay 40 80)) 0 true 1 1 38 78 = .ok s' ∧
      s'.windows 0 = some w ∧
      w.dim = ⟨38 + 2, 78 + 2⟩ ∧
      (w.contents 0 0 = '+' ∧ w.contents 0 (78 + 2 - 1) = '+' ∧
        w.contents (38 + 2 - 1) 0 = '+' ∧
        w.contents (38 + 2 - 1) (78 + 2 - 1) = '+') ∧
      (∀ i, 1 ≤ i → i ≤ 38 + 2 - 2 →
        w.contents i 0 = '|' ∧ w.contents i (78 + 2 - 1) = '|') ∧
      (∀ j, 1 ≤ j → j ≤ 78 + 2 - 2 →
        w.contents 0 j = '-' ∧ w.contents (38 + 2 - 1) j = '-') ∧
      (∀ i j, 1 ≤ i → i ≤ 38 + 2 - 2 → 1 ≤ j → j ≤ 78 + 2 - 2 →
        w.contents i j = '\x00') :=
  newWindow_border (getWorld (newDisplay 40 80)) [] 0 1 1 38 78
    ⟨by decide, trivial, rfl, rfl⟩ rfl (by decide) (by decide)

/-! ## C17: the fresh display -/

/-- C17, counterexample: right after `newDisplay (term, 1, 1)` the frame-buffer
cell (0, 0) has background 255, the value of `(background_t) -1`, while the
display's `default_background` is BLACK (0). -/
theorem newDisplay_background_not_default :
    (getWorld (newDisplay 1 1)).display.current_background 0 0 = 255
    ∧ (getWorld (newDisplay 1 1)).display.default_background = 0
    ∧ (getWorld (newDisplay 1 1)).display.current_background 0 0
      ≠ (getWorld (newDisplay 1 1)).display.default_background :=
  ⟨rfl, rfl, by decide⟩

/-- C17, amended: for `rows, cols ≥ 1`, `newDisplay` returns and every
frame-buffer cell has the NUL character, the foreground `default_color` (WHITE)
and the background 255, the value of `(background_t) -1`; `default_background`
is BLACK. -/
theorem newDisplay_blank (rows cols : Int) (hr : 1 ≤ rows) (hc : 1 ≤ cols) :
    ∃ s, newDisplay rows cols = .ok s ∧ s.display.dim = ⟨rows, cols⟩ ∧
      s.display.default_color = WHITE ∧ s.display.default_background = BLACK ∧
      ∀ i j, 0 ≤ i → i < rows → 0 ≤ j → j < cols →
        s.display.current i j = '\x00' ∧
        s.display.current_color i j = s.display.default_color ∧
        s.display.current_background i j = 255 := by
  have h : ¬ (rows < 0 ∨ cols < 0) := by omega
  simp only [newDisplay, buildStringBlock, buildColorBlock, h, if_false]
  exact ⟨_, rfl, rfl, rfl, rfl, fun _ _ _ _ _ _ => ⟨rfl, rfl, rfl⟩⟩

/-- C17, amended, on the 40 x 80 display of the test program. -/
theorem newDisplay_blank_witness :
    ∃ s, newDisplay 40 80 = .ok s ∧ s.display.dim = ⟨40, 80⟩ ∧
      s.display.default_color = WHITE ∧ s.display.default_background = BLACK ∧
      ∀ i j, 0 ≤ i → i < 40 → 0 ≤ j → j < 80 →
        s.display.current i j = '\x00' ∧
        s.display.current_color i j = s.display.default_color ∧
        s.display.current_background i j = 255 :=
  newDisplay_blank 40 80 (by decide) (by decide)

/-! ## C18: printing and the dirty flag -/

/-- C18 at the failing input: on `worldQuiet` (dirty flag clear after a render
pass) `windowPrint (w, "abc", 0, 0)` on the 1 x 2 window returns with `a` and `b`
stored in content cells (0, 0) and (0, 1), which held NUL, and the dirty flag
still clear: the third character makes the loop leave through the `return` of
the row test, which skips `window->display->dirty = TRUE`. -/
theorem windowPrint_truncated_not_dirty :
    (getWorld worldQuiet).display.dirty = false
    ∧ (getWindow (getWorld worldQuiet) 0).contents 0 0 = '\x00'
    ∧ succeeded (andThen worldQuiet (fun s => windowPrint s 0 ['a', 'b', 'c'] 0 0)) = true
    ∧ (getWindow (getWorld (andThen worldQuiet
        (fun s => windowPrint s 0 ['a', 'b', 'c'] 0 0))) 0).contents 0 0 = 'a'
    ∧ (getWindow (getWorld (andThen worldQuiet
        (fun s => windowPrint s 0 ['a', 'b', 'c'] 0 0))) 0).contents 0 1 = 'b'
    ∧ (getWorld (andThen worldQuiet
        (fun s => windowPrint s 0 ['a', 'b', 'c'] 0 0))).display.dirty = false
    ∧ (getWorld (andThen worldQuiet
        (fun s => windowPrint s 0 ['a', 'b'] 0 0))).display.dirty = true :=
  ⟨rfl, rfl, rfl, rfl, rfl, rfl, rfl⟩

/-! ## C19: hiding a window -/

/-- C19 at the failing input: `windowSetHide (w, 1)` on the window of `worldTiny`
sets the hidden flag and replaces the owning-display reference, which pointed to
the display, by the value `TRUE`; the display's dirty flag is not touched. -/
theorem windowSetHide_overwrites_display :
    (getWindow (getWorld worldTiny) 0).display = DisplayPtr.valid
    ∧ (getWindow (getWorld (andThen worldTiny
        (fun s => windowSetHide s 0 true))) 0).hidden = true
    ∧ (getWindow (getWorld (andThen worldTiny
        (fun s => windowSetHide s 0 true))) 0).display = DisplayPtr.raw 1
    ∧ (getWindow (getWorld (andThen worldTiny
        (fun s => windowSetHide s 0 true))) 0).display
      ≠ (getWindow (getWorld worldTiny) 0).display :=
  ⟨rfl, rfl, rfl, by decide⟩

/-! ## C20: resizing to a non-positive size -/

/-- C20, counterexample: `displaySetSize (display, 0, 5)` on a fresh 2 x 2 display
returns, and the display then has dimension (0, 5): the call is not rejected and
the dimension is not left as it was. -/
theorem displaySetSize_zero_rows_accepted :
    succeeded (displaySetSize (getWorld (newDisplay 2 2)) 0 5) = true
    ∧ (getWorld (newDisplay 2 2)).display.dim = ⟨2, 2⟩
    ∧ (getWorld (displaySetSize (getWorld (newDisplay 2 2)) 0 5)).display.dim = ⟨0, 5⟩
    ∧ (getWorld (displaySetSize (getWorld (newDisplay 2 2)) 0 5)).display.dim
      ≠ (getWorld (newDisplay 2 2)).display.dim :=
  ⟨rfl, rfl, rfl, by decide⟩

/-- C20, amended: `displaySetSize` validates nothing.  For every `rows, cols ≥ 0`,
zero included, the call returns and the display has dimension `(rows, cols)`
(a grid without cells when one of them is zero); unless that already was the
dimension (then nothing changes), the frame buffer is rebuilt (NUL characters,
default colours) and the display is marked dirty. -/
theorem displaySetSize_accepts (s : World) (rows cols : Int) (hr : 0 ≤ rows) (hc : 0 ≤ cols) :
    ∃ s', displaySetSize s rows cols = .ok s' ∧ s'.display.dim = ⟨rows, cols⟩ ∧
      (s.display.dim = ⟨rows, cols⟩ → s' = s) ∧
      (s.display.dim ≠ ⟨rows, cols⟩ →
        s'.display.dirty = true ∧
        ∀ i j, s'.display.current i j = '\x00' ∧
          s'.display.current_color i j = s.display.default_color ∧
          s'.display.current_background i j = s.display.default_background) := by
  have hneg : ¬ (rows < 0 ∨ cols < 0) := by omega
  by_cases hsame : rows = s.display.dim.x ∧ cols = s.display.dim.y
  · have hdim : s.display.dim = ⟨rows, cols⟩ := by
      rw [hsame.1, hsame.2]
    refine ⟨s, by simp only [displaySetSize, hsame, and_self, if_true], hdim,
      fun _ => rfl, fun h => absurd hdim h⟩
  · simp only [displaySetSize, hsame, if_false, buildStringBlock, buildColorBlock, hneg]
    refine ⟨_, rfl, rfl, ?_, ?_⟩
    · intro hdim
      exfalso
      apply hsame
      rw [hdim]
      exact ⟨rfl, rfl⟩
    · intro _
      exact ⟨rfl, fun _ _ => ⟨rfl, rfl, rfl⟩⟩

/-- C20, amended, on a fresh 2 x 2 display resized to 0 rows and 5 columns. -/
theorem displaySetSize_accepts_witness :
    ∃ s', displaySetSize (getWorld (newDisplay 2 2)) 0 5 = .ok s' ∧
      s'.display.dim = ⟨0, 5⟩ ∧
      ((getWorld (newDisplay 2 2)).display.dim = ⟨0, 5⟩ → s' = getWorld (newDisplay 2 2)) ∧
      ((getWorld (newDisplay 2 2)).display.dim ≠ ⟨0, 5⟩ →
        s'.display.dirty = true ∧
        ∀ i j, s'.display.current i j = '\x00' ∧
          s'.display.current_color i j = (getWorld (newDisplay 2 2)).display.default_color ∧
          s'.display.current_background i j
            = (getWorld (newDisplay 2 2)).display.default_background) :=
  displaySetSize_accepts (getWorld (newDisplay 2 2)) 0 5 (by decide) (by decide)

/-! ## The scan of `displayUpdate` -/

theorem sameScene_refl (s : World) : SameScene s s := ⟨rfl, rfl, rfl, rfl, rfl, rfl⟩

theorem sameScene_trans {s₁ s₂ s₃ : World} (h12 : SameScene s₁ s₂) (h23 : SameScene s₂ s₃) :
    SameScene s₁ s₃ := by
  obtain ⟨a1, a2, a3, a4, a5, a6⟩ := h12
  obtain ⟨b1, b2, b3, b4, b5, b6⟩ := h23
  exact ⟨b1.trans a1, b2.trans a2, b3.trans a3, b4.trans a4, b5.trans a5, b6.trans a6⟩

/-- The walk of `renderPoint` reads only the scene. -/
theorem renderLoop_scene (s s' : World) (h : SameScene s s') (b : Bool) (x y : Int) :
    ∀ (fuel : Nat) (o : Option Nat) (acc : char_struct),
      renderLoop s' b x y fuel o acc = renderLoop s b x y fuel o acc := by
  intro fuel
  induction fuel with
  | zero =>
    intro o acc
    cases o <;> rfl
  | succ fuel ih =>
    intro o acc
    cases o with
    | none => rfl
    | some a =>
      simp only [renderLoop, derefWindow, h.1]
      cases s.windows a with
      | none => rfl
      | some current =>
        simp only [ih]
        cases current.display with
        | valid => simp only [derefDisplay, h.2.1]
        | raw n => simp only [derefDisplay]

theorem renderPoint_scene (s s' : World) (h : SameScene s s') (fuel : Nat) (o : Option Nat)
    (x y : Int) : renderPoint fuel s' o x y = renderPoint fuel s o x y := by
  unfold renderPoint
  cases o with
  | none => simp only [h.2.2.1, h.2.2.2.1]
  | some a =>
    simp only [derefWindow, h.1, h.2.2.1, h.2.2.2.1]
    cases s.windows a with
    | none => rfl
    | some w => simp only [renderLoop_scene s s' h]

theorem cellDiffers_false (d : Display) (i j : Int) (next : char_struct)
    (h : cellDiffers d i j next = false) :
    d.current i j = next.data ∧ d.current_color i j = next.color ∧
      d.current_background i j = next.background := by
  unfold cellDiffers at h
  simp only [decide_eq_false_iff_not, not_or, not_not, ne_eq] at h
  exact h

/-- The effect of the loop body of `displayUpdate` on cell `(i, j)`, given the
composited cell: the scene and the flags are kept, no other cell of the frame
buffer changes, the cell records the composited cell; a cell that does not
differ leaves the loop variables as they are; for a differing cell the
cursor-position escape is sent exactly when the tracked cursor is elsewhere,
then the character, and the tracked cursor moves to `(i, j + 1)`. -/
theorem updateCell_step (fuel : Nat) (i j : Int) (st : Scan) (next : char_struct)
    (hr : renderPoint fuel st.world st.world.display.bottom_window i j = .ok next) :
    ∃ st', updateCell fuel i j st = .ok st' ∧ SameScene st.world st'.world ∧
      (∀ r c, ¬ (r = i ∧ c = j) →
        st'.world.display.current r c = st.world.display.current r c ∧
        st'.world.display.current_color r c = st.world.display.current_color r c ∧
        st'.world.display.current_background r c = st.world.display.current_background r c) ∧
      Recorded st'.world.display i j next ∧
      (cellDiffers st.world.display i j next = false → st' = st) ∧
      (cellDiffers st.world.display i j next = true →
        st'.current_x = i ∧ st'.current_y = j + 1 ∧
        ∃ out, st'.world.display.term = st.world.display.term ++ out ∧
          out.filter cursorOrChar =
            (if st.current_x ≠ i ∨ st.current_y ≠ j then [Out.cursorPos (i + 1) (j + 1)]
              else []) ++ [Out.chr (shownChar next.data)]) := by
  unfold updateCell
  rw [hr]
  simp only
  cases hdiff : cellDiffers st.world.display i j next with
  | false =>
    obtain ⟨e1, e2, e3⟩ := cellDiffers_false _ _ _ _ hdiff
    have hn : ¬ (st.world.display.current i j ≠ next.data ∨
        st.world.display.current_color i j ≠ next.color ∨
        st.world.display.current_background i j ≠ next.background) := by
      simp [e1, e2, e3]
    rw [if_neg hn]
    exact ⟨st, rfl, sameScene_refl _, fun _ _ _ => ⟨rfl, rfl, rfl⟩, ⟨e2, e3, Or.inl e1⟩,
      fun _ => rfl, fun h => (by cases h)⟩
  | true =>
    have hp : st.world.display.current i j ≠ next.data ∨
        st.world.display.current_color i j ≠ next.color ∨
        st.world.display.current_background i j ≠ next.background := by
      unfold cellDiffers at hdiff
      exact of_decide_eq_true hdiff
    rw [if_pos hp]
    refine ⟨_, rfl, ?_, ?_, ?_, fun h => (by cases h), fun _ => ⟨?_, ?_, ?_⟩⟩
    · refine ⟨?_, ?_, ?_, ?_, ?_, ?_⟩ <;>
        (simp only [emit]; split_ifs <;> rfl)
    · intro r c hrc
      refine ⟨?_, ?_, ?_⟩ <;>
        (simp only [emit, setAt, if_neg hrc]; split_ifs <;> rfl)
    · refine ⟨?_, ?_, ?_⟩
      · simp only [setAt, and_self, if_true]
      · simp only [setAt, and_self, if_true]
      · simp only [setAt, and_self, if_true]
        by_cases hb : isspace next.data = true ∨ next.data = '\x00'
        · rw [if_pos hb]
          exact Or.inr ⟨hb, rfl⟩
        · rw [if_neg hb]
          exact Or.inl rfl
    · split_ifs <;> simp_all
    · split_ifs <;> simp_all
    · refine ⟨(if st.current_x ≠ i ∨ st.current_y ≠ j then [Out.cursorPos (i + 1) (j + 1)]
          else [])
        ++ (if st.current_color ≠ (next.color : Int) then [Out.foreground next.color]
          else [])
        ++ (if st.current_background ≠ (next.background : Int) then
            [Out.backgroundColor next.background] else [])
        ++ [Out.chr (shownChar next.data)], ?_, ?_⟩
      · unfold shownChar
        simp only [emit]
        split_ifs <;> simp
      · simp only [List.filter_append]
        split_ifs <;> rfl

theorem indices_succ (J : Int) (h : 0 ≤ J) : indices (J + 1) = indices J ++ [J] := by
  unfold indices
  have e : (J + 1).toNat = J.toNat + 1 := by omega
  rw [e, List.range_succ, List.map_append]
  have e2 : Int.ofNat J.toNat = J := Int.toNat_of_nonneg h
  simp only [List.map_cons, List.map_nil, e2]

theorem indices_max (n : Int) : indices (max 0 n) = indices n := by
  unfold indices
  have e : (max 0 n).toNat = n.toNat := by omega
  rw [e]

theorem indices_zero : indices 0 = [] := rfl

/-- The step of the scan at cell `(i, J)`. -/
theorem scanAt_step (fuel : Nat) (s : World) (base : List Out) (i J : Int) (st : Scan)
    (hJ0 : 0 ≤ J)
    (hrender : ∃ next, renderPoint fuel s s.display.bottom_window i J = .ok next)
    (h : ScanAt fuel s base i J st) :
    ∃ st', updateCell fuel i J st = .ok st' ∧ ScanAt fuel s base i (J + 1) st' := by
  obtain ⟨next, hnext⟩ := hrender
  have hr : renderPoint fuel st.world st.world.display.bottom_window i J = .ok next := by
    rw [h.scene.2.2.2.2.1, renderPoint_scene s st.world h.scene, hnext]
  obtain ⟨st', hcell, hscene, hother, hrec, hsame, hemit⟩ := updateCell_step fuel i J st next hr
  have hflags := updateCell_flags fuel i J st st' hcell
  have hcur := h.rest i J (by omega)
  have hd : cellDiffers st.world.display i J next = cellDiffers s.display i J next := by
    unfold cellDiffers
    rw [hcur.1, hcur.2.1, hcur.2.2]
  have hdiffers : differs fuel s i J = cellDiffers s.display i J next := by
    unfold differs
    rw [hnext]
  have hJ : J + 1 - 1 = J := by ring
  refine ⟨st', hcell, ⟨sameScene_trans h.scene hscene, by rw [hflags.1, h.clean], ?_, ?_, ?_, ?_⟩⟩
  · intro r c hr0 hc0 hc1 hreg
    by_cases hrc : r = i ∧ c = J
    · obtain ⟨rfl, rfl⟩ := hrc
      exact ⟨next, hnext, hrec⟩
    · obtain ⟨n2, hn2, hrec2⟩ := h.done r c hr0 hc0 hc1 (by omega)
      obtain ⟨e1, e2, e3⟩ := hother r c hrc
      refine ⟨n2, hn2, ?_⟩
      unfold Recorded at hrec2 ⊢
      rw [e1, e2, e3]
      exact hrec2
  · intro r c hreg
    have hrc : ¬ (r = i ∧ c = J) := by omega
    obtain ⟨e1, e2, e3⟩ := hother r c hrc
    obtain ⟨f1, f2, f3⟩ := h.rest r c (by omega)
    exact ⟨e1.trans f1, e2.trans f2, e3.trans f3⟩
  · obtain ⟨out, hterm, hfilter⟩ := h.sent
    rw [indices_succ J hJ0, List.flatMap_append, List.flatMap_singleton, ← List.append_assoc,
      ← hfilter]
    cases hdf : cellDiffers st.world.display i J next with
    | false =>
      have hst := hsame hdf
      subst hst
      refine ⟨out, hterm, ?_⟩
      have : cellTokens fuel s i J = [] := by
        unfold cellTokens
        rw [hnext]
        simp only [← hd, hdf, Bool.false_eq_true, if_false]
      rw [this, List.append_nil]
    | true =>
      obtain ⟨_, _, out2, hterm2, hfilter2⟩ := hemit hdf
      refine ⟨out ++ out2, by rw [hterm2, hterm, List.append_assoc], ?_⟩
      rw [List.filter_append, hfilter2]
      congr 1
      unfold cellTokens
      rw [hnext]
      simp only [← hd, hdf, if_true]
      congr 1
      have hrs : runStart fuel s i J = !(decide (1 ≤ J) && differs fuel s i (J - 1)) := by
        unfold runStart
        rw [hdiffers, ← hd, hdf, Bool.true_and]
      rw [hrs]
      rcases h.cursor with ⟨c1, c2, c3, c4⟩ | ⟨c1, c2⟩
      · have hn : ¬ (st.current_x ≠ i ∨ st.current_y ≠ J) := by
          simp [c3, c4]
        rw [if_neg hn]
        simp [c1, c2]
      · have hp : st.current_x ≠ i ∨ st.current_y ≠ J := by omega
        rw [if_pos hp]
        rcases c1 with c1 | c1
        · have : ¬ (1 ≤ J) := by omega
          simp [this]
        · simp [c1]
  · rw [hJ]
    cases hdf : cellDiffers st.world.display i J next with
    | false =>
      have hst := hsame hdf
      subst hst
      right
      refine ⟨Or.inr (by rw [hdiffers, ← hd, hdf]), ?_⟩
      rcases h.cursor with ⟨_, _, c3, c4⟩ | ⟨_, c2⟩
      · exact Or.inr ⟨c3, by omega⟩
      · rcases c2 with c2 | c2
        · exact Or.inl c2
        · exact Or.inr ⟨c2.1, by omega⟩
    | true =>
      obtain ⟨e1, e2, _⟩ := hemit hdf
      left
      exact ⟨by omega, by rw [hdiffers, ← hd, hdf], e1, e2⟩

/-- One row of the scan. -/
theorem scanAt_row (fuel : Nat) (s : World) (base : List Out) (i : Int) (st : Scan)
    (hi0 : 0 ≤ i)
    (hrender : ∀ j, 0 ≤ j → j < s.display.dim.y →
      ∃ next, renderPoint fuel s s.display.bottom_window i j = .ok next)
    (h : ScanAt fuel s base i 0 st) :
    ∃ st', forRange 0 s.display.dim.y (fun j st1 => updateCell fuel i j st1) st = .ok st' ∧
      ScanAt fuel s base (i + 1) 0 st' := by
  obtain ⟨st', hloop, hinv⟩ := forRange_ind 0 s.display.dim.y
    (fun j st1 => updateCell fuel i j st1) (fun J st1 => ScanAt fuel s base i J st1) st h
    (fun J st1 hJ0 hJ1 hP => scanAt_step fuel s base i J st1 hJ0 (hrender J hJ0 hJ1) hP)
  refine ⟨st', hloop, ⟨hinv.scene, hinv.clean, ?_, ?_, ?_, ?_⟩⟩
  · intro r c hr0 hc0 hc1 hreg
    exact hinv.done r c hr0 hc0 hc1 (by omega)
  · intro r c hreg
    exact hinv.rest r c (by omega)
  · obtain ⟨out, hterm, hfilter⟩ := hinv.sent
    refine ⟨out, hterm, ?_⟩
    rw [hfilter, indices_succ i hi0, List.flatMap_append, List.flatMap_singleton, indices_max,
      indices_zero]
    simp only [List.flatMap_nil, List.append_nil]
  · right
    refine ⟨Or.inl rfl, Or.inl ?_⟩
    rcases hinv.cursor with ⟨_, _, c3, _⟩ | ⟨_, c2⟩
    · omega
    · rcases c2 with c2 | c2
      · omega
      · omega

/-- The whole scan: both loops end normally and every cell has been visited. -/
theorem scanAt_all (fuel : Nat) (s : World) (base : List Out) (st : Scan)
    (hrender : ∀ i j, 0 ≤ i → i < s.display.dim.x → 0 ≤ j → j < s.display.dim.y →
      ∃ next, renderPoint fuel s s.display.bottom_window i j = .ok next)
    (h : ScanAt fuel s base 0 0 st) :
    ∃ st', forRange 0 s.display.dim.x (fun i st1 =>
        forRange 0 s.display.dim.y (fun j st2 => updateCell fuel i j st2) st1) st = .ok st' ∧
      ScanAt fuel s base (max 0 s.display.dim.x) 0 st' :=
  forRange_ind 0 s.display.dim.x
    (fun i st1 => forRange 0 s.display.dim.y (fun j st2 => updateCell fuel i j st2) st1)
    (fun i st1 => ScanAt fuel s base i 0 st1) st h
    (fun i st1 hi0 hi1 hP => scanAt_row fuel s base i st1 hi0
      (fun j hj0 hj1 => hrender i j hi0 hi1 hj0 hj1) hP)

/-- With the start window hidden the walk of `renderPoint` keeps the accumulator. -/
theorem renderLoop_hidden (s : World) (x y : Int) :
    ∀ (l : List Nat) (prev : Option Nat) (fuel : Nat) (acc : char_struct),
      Seg s.windows prev l none → l.length ≤ fuel →
      renderLoop s true x y fuel l.head? acc = .ok acc := by
  intro l
  induction l with
  | nil =>
    intro prev fuel acc _ _
    cases fuel <;> simp [renderLoop]
  | cons a rest ih =>
    intro prev fuel acc hc hf
    obtain ⟨w, hw, _, hnext, hrest⟩ := hc
    cases fuel with
    | zero => simp at hf
    | succ fuel =>
      have hf2 : rest.length ≤ fuel := by simpa using hf
      have hnext2 : w.next = rest.head? := by rw [hnext]; cases rest <;> rfl
      simp only [List.head?_cons, renderLoop, derefWindow, hw, hnext2, if_true]
      exact ih (some a) fuel acc hrest hf2

/-- On a well-formed stack of attached windows `renderPoint` returns for every
point of the display, given fuel for the length of the stack. -/
theorem renderPoint_returns (s : World) (L : List Nat) (fuel : Nat) (x y : Int)
    (hstack : StackIs s L)
    (hatt : ∀ b ∈ L, ∀ wb, s.windows b = some wb → wb.display = DisplayPtr.valid)
    (hfuel : L.length ≤ fuel)
    (hx : 0 ≤ x ∧ x < s.display.dim.x) (hy : 0 ≤ y ∧ y < s.display.dim.y) :
    ∃ next, renderPoint fuel s s.display.bottom_window x y = .ok next := by
  cases hLc : L with
  | nil =>
    have hb : s.display.bottom_window = none := by rw [hstack.bottom, hLc]; rfl
    rw [hb]
    exact ⟨_, rfl⟩
  | cons b rest =>
    have hchain := hstack.chain
    rw [hLc] at hchain
    have hchain2 := hchain
    obtain ⟨wb, hwb, _, _, _⟩ := hchain
    have hb : s.display.bottom_window = some b := by rw [hstack.bottom, hLc]; rfl
    rw [hb]
    simp only [renderPoint, derefWindow, hwb]
    cases hh : wb.hidden with
    | true =>
      have := renderLoop_hidden s x y (b :: rest) none fuel
        ⟨' ', s.display.default_color, s.display.default_background⟩ hchain2
        (by rw [← hLc]; exact hfuel)
      exact ⟨_, this⟩
    | false =>
      have := renderLoop_overlay s x y hx hy (b :: rest) none fuel
        ⟨' ', s.display.default_color, s.display.default_background⟩ hchain2
        (by rw [← hLc]; exact hatt) (by rw [← hLc]; exact hfuel)
      exact ⟨_, this⟩

theorem sameScene_emit (s : World) (o : Out) : SameScene s (emit s o) :=
  ⟨rfl, rfl, rfl, rfl, rfl, rfl⟩

/-- A pass of `displayUpdate` on a display that is shown and dirty, with
auto-size off, when `renderPoint` returns for every point of the display: the
call returns, the dirty flag is clear, every cell of the frame buffer records
what `renderPoint` returns for it, before and after the pass, and the
cursor-position escapes and characters sent are `scanTokens`. -/
theorem displayUpdate_pass (fuel : Nat) (ws : Point) (s : World)
    (hvis : s.display.hidden = false) (hdirty : s.display.dirty = true)
    (hauto : s.display.auto_size = false)
    (hrender : ∀ i j, 0 ≤ i → i < s.display.dim.x → 0 ≤ j → j < s.display.dim.y →
      ∃ next, renderPoint fuel s s.display.bottom_window i j = .ok next) :
    ∃ s', displayUpdate fuel ws s = .ok s' ∧ SameScene s s' ∧ s'.display.dirty = false ∧
      (∀ i j, 0 ≤ i → i < s.display.dim.x → 0 ≤ j → j < s.display.dim.y →
        ∃ next, renderPoint fuel s s.display.bottom_window i j = .ok next ∧
          renderPoint fuel s' s'.display.bottom_window i j = .ok next ∧
          Recorded s'.display i j next) ∧
      ∃ out, s'.display.term = s.display.term ++ out ∧
        out.filter cursorOrChar = scanTokens fuel s := by
  have h0 : ScanAt fuel s (s.display.term ++ [Out.saveCursor]) 0 0
      ⟨emit { s with display := { s.display with dirty := false } } Out.saveCursor,
        -1, -1, -1, -1⟩ := by
    refine ⟨⟨rfl, rfl, rfl, rfl, rfl, rfl⟩, rfl, ?_, fun _ _ _ => ⟨rfl, rfl, rfl⟩,
      ⟨[], by simp [emit], rfl⟩, Or.inr ⟨Or.inl rfl, Or.inl (show (-1 : Int) < 0 by decide)⟩⟩
    intro r c hr0 hc0 _ hreg
    omega
  obtain ⟨st, hloop, hinv⟩ := scanAt_all fuel s (s.display.term ++ [Out.saveCursor]) _ hrender h0
  have hup : displayUpdate fuel ws s = .ok (emit (emit
      (if st.current_color ≠ (RESET : Int) then emit st.world Out.resetAttr else st.world)
      Out.restoreCursor) Out.flush) := by
    have hloop2 := hloop
    simp only [emit, hvis, hauto] at hloop2
    simp only [displayUpdate, checkAndUpdateDisplaySize, hauto, hvis, hdirty, Bool.not_false,
      Bool.not_true, Bool.false_eq_true, or_self, if_false, if_true, emit]
    rw [hloop2]
  have hscene : SameScene s (emit (emit
      (if st.current_color ≠ (RESET : Int) then emit st.world Out.resetAttr else st.world)
      Out.restoreCursor) Out.flush) := by
    refine sameScene_trans ?_ (sameScene_emit _ _)
    refine sameScene_trans ?_ (sameScene_emit _ _)
    split
    · exact sameScene_trans hinv.scene (sameScene_emit _ _)
    · exact hinv.scene
  refine ⟨_, hup, hscene, ?_, ?_, ?_⟩
  · simp only [emit]
    split <;> exact hinv.clean
  · intro i j hi0 hi1 hj0 hj1
    obtain ⟨next, hnext, hrec⟩ := hinv.done i j hi0 hj0 hj1 (Or.inl (by omega))
    refine ⟨next, hnext, ?_, ?_⟩
    · rw [hscene.2.2.2.2.1, renderPoint_scene s _ hscene, hnext]
    · unfold Recorded at hrec ⊢
      simp only [emit]
      split <;> exact hrec
  · obtain ⟨out, hterm, hfilter⟩ := hinv.sent
    have hf : out.filter cursorOrChar = scanTokens fuel s := by
      rw [hfilter, indices_max, indices_zero]
      simp only [List.flatMap_nil, List.append_nil]
      rfl
    by_cases hc : st.current_color ≠ (RESET : Int)
    · refine ⟨[Out.saveCursor] ++ out ++ [Out.resetAttr, Out.restoreCursor, Out.flush], ?_, ?_⟩
      · simp only [emit, if_pos hc, hterm, List.append_assoc, List.cons_append,
          List.nil_append]
      · simp only [List.filter_append, hf]
        simp [List.filter, cursorOrChar]
    · refine ⟨[Out.saveCursor] ++ out ++ [Out.restoreCursor, Out.flush], ?_, ?_⟩
      · simp only [emit, if_neg hc, hterm, List.append_assoc, List.cons_append,
          List.nil_append]
      · simp only [List.filter_append, hf]
        simp [List.filter, cursorOrChar]

theorem countRuns_snoc (l : List Bool) (b : Bool) :
    ∀ p, countRuns p (l ++ [b]) =
      countRuns p l + (if b && !(l.getLast?.getD p) then 1 else 0) := by
  induction l with
  | nil => intro p; simp [countRuns]
  | cons a rest ih =>
    intro p
    have hl : ((a :: rest).getLast?).getD p = (rest.getLast?).getD a := by
      cases rest with
      | nil => rfl
      | cons c r =>
        rw [List.getLast?_cons_cons, List.getLast?_eq_getLast _ (List.cons_ne_nil c r)]
        rfl
    show countRuns p (a :: (rest ++ [b])) = _
    rw [countRuns, countRuns, ih a, hl]
    omega

theorem indices_cast (n : Int) : indices n = indices ((n.toNat : Nat) : Int) := by
  unfold indices
  simp only [Int.toNat_ofNat]

theorem indices_last (d : Int → Bool) (n : Nat) :
    (((indices (n : Int)).map d).getLast?).getD false =
      (decide (1 ≤ (n : Int)) && d ((n : Int) - 1)) := by
  cases n with
  | zero => rfl
  | succ m =>
    have e : ((m + 1 : Nat) : Int) = (m : Int) + 1 := by push_cast; ring
    rw [e, indices_succ (m : Int) (by omega), List.map_append]
    have e2 : (m : Int) + 1 - 1 = m := by ring
    have e3 : (1 : Int) ≤ (m : Int) + 1 := by omega
    simp [e2, e3]

/-- The cursor-position escape among the items of one cell. -/
theorem cellTokens_cursor (fuel : Nat) (s : World) (i j : Int) :
    (cellTokens fuel s i j).filter isCursorPos =
      if runStart fuel s i j then [Out.cursorPos (i + 1) (j + 1)] else [] := by
  unfold cellTokens runStart
  cases hr : renderPoint fuel s s.display.bottom_window i j with
  | error e =>
    have hd : differs fuel s i j = false := by unfold differs; rw [hr]
    simp [hd]
  | ok next =>
    have hd : differs fuel s i j = cellDiffers s.display i j next := by unfold differs; rw [hr]
    simp only [hd]
    cases cellDiffers s.display i j next with
    | false => simp
    | true =>
      simp only [if_true, Bool.true_and, List.filter_append]
      split <;> simp [List.filter, isCursorPos]

/-- In one row the cursor-position escapes are as many as the maximal runs of
differing cells. -/
theorem row_cursor_count (fuel : Nat) (s : World) (i : Int) :
    ∀ n : Nat, (((indices (n : Int)).flatMap (fun j => cellTokens fuel s i j)).filter
        isCursorPos).length
      = countRuns false ((indices (n : Int)).map (fun j => differs fuel s i j)) := by
  intro n
  induction n with
  | zero => rfl
  | succ m ih =>
    have e : ((m + 1 : Nat) : Int) = (m : Int) + 1 := by push_cast; ring
    rw [e, indices_succ (m : Int) (by omega), List.flatMap_append, List.flatMap_singleton,
      List.filter_append, List.length_append, ih, List.map_append, List.map_cons, List.map_nil,
      countRuns_snoc, indices_last, cellTokens_cursor]
    unfold runStart
    split <;> simp_all

theorem flatMap_filter_length (f : Int → List Out) (p : Out → Bool) (l : List Int) :
    ((l.flatMap f).filter p).length = (l.map (fun i => ((f i).filter p).length)).sum := by
  induction l with
  | nil => rfl
  | cons a rest ih =>
    simp only [List.flatMap_cons, List.filter_append, List.length_append, List.map_cons,
      List.sum_cons, ih]

/-- The cursor-position escapes of a pass are as many as the maximal runs of
horizontally adjacent differing cells. -/
theorem scanTokens_cursor_count (fuel : Nat) (s : World) :
    ((scanTokens fuel s).filter isCursorPos).length = runCount fuel s := by
  unfold scanTokens runCount
  rw [flatMap_filter_length]
  congr 1
  apply List.map_congr_left
  intro i _
  rw [indices_cast s.display.dim.y]
  exact row_cursor_count fuel s i _

theorem filter_cursor_of_filter (out : List Out) :
    out.filter isCursorPos = (out.filter cursorOrChar).filter isCursorPos := by
  rw [List.filter_filter]
  congr 1
  funext o
  cases o <;> rfl

/-! ## C21: the frame buffer after a pass -/

/-- C21: on a display that is shown and dirty, with auto-size off, whose stack is
well formed with every window attached, `displayUpdate` runs a pass and returns;
afterwards the dirty flag is clear and, for every `(row, col)` inside the
display, the colour and background of the frame buffer are those that
`renderPoint` returns for the point, and the character of the frame buffer is
the character `renderPoint` returns, or that character is blank (whitespace or
NUL) and the frame buffer holds a space. -/
theorem displayUpdate_records_frame (s : World) (L : List Nat) (fuel : Nat) (ws : Point)
    (hstack : StackIs s L)
    (hatt : ∀ b ∈ L, ∀ wb, s.windows b = some wb → wb.display = DisplayPtr.valid)
    (hfuel : L.length ≤ fuel) (hvis : s.display.hidden = false)
    (hdirty : s.display.dirty = true) (hauto : s.display.auto_size = false) :
    ∃ s', displayUpdate fuel ws s = .ok s' ∧ s'.display.dirty = false ∧
      ∀ i j, 0 ≤ i → i < s'.display.dim.x → 0 ≤ j → j < s'.display.dim.y →
        ∃ next, renderPoint fuel s' s'.display.bottom_window i j = .ok next ∧
          s'.display.current_color i j = next.color ∧
          s'.display.current_background i j = next.background ∧
          (s'.display.current i j = next.data ∨
            ((isspace next.data = true ∨ next.data = '\x00') ∧
              s'.display.current i j = ' ')) := by
  obtain ⟨s', hup, hscene, hclean, hcells, _⟩ := displayUpdate_pass fuel ws s hvis hdirty hauto
    (fun i j hi0 hi1 hj0 hj1 =>
      renderPoint_returns s L fuel i j hstack hatt hfuel ⟨hi0, hi1⟩ ⟨hj0, hj1⟩)
  refine ⟨s', hup, hclean, ?_⟩
  intro i j hi0 hi1 hj0 hj1
  rw [hscene.2.1] at hi1 hj1
  obtain ⟨next, _, hnext, hrec⟩ := hcells i j hi0 hi1 hj0 hj1
  exact ⟨next, hnext, hrec.1, hrec.2.1, hrec.2.2⟩

/-- C21 on `worldAB`, two overlapping windows on a fresh 4 x 6 display. -/
theorem displayUpdate_records_frame_witness :
    ∃ s', displayUpdate 2 ⟨0, 0⟩ (getWorld worldAB) = .ok s' ∧ s'.display.dirty = false ∧
      ∀ i j, 0 ≤ i → i < s'.display.dim.x → 0 ≤ j → j < s'.display.dim.y →
        ∃ next, renderPoint 2 s' s'.display.bottom_window i j = .ok next ∧
          s'.display.current_color i j = next.color ∧
          s'.display.current_background i j = next.background ∧
          (s'.display.current i j = next.data ∨
            ((isspace next.data = true ∨ next.data = '\x00') ∧
              s'.display.current i j = ' ')) :=
  displayUpdate_records_frame (getWorld worldAB) [0, 1] 2 ⟨0, 0⟩
    ⟨by decide, ⟨_, rfl, rfl, rfl, ⟨_, rfl, rfl, rfl, trivial⟩⟩, rfl, rfl⟩
    (by
      intro b hb wb hwb
      simp only [List.mem_cons, List.mem_singleton, List.not_mem_nil, or_false] at hb
      rcases hb with rfl | rfl
      · have h : (getWorld worldAB).windows 0 = some (getWindow (getWorld worldAB) 0) := rfl
        rw [h] at hwb
        cases hwb
        rfl
      · have h : (getWorld worldAB).windows 1 = some (getWindow (getWorld worldAB) 1) := rfl
        rw [h] at hwb
        cases hwb
        rfl)
    (by decide) rfl rfl rfl

/-! ## C22: cursor movement in a pass -/

/-- C22: on a display that is shown and dirty, with auto-size off, whose stack is
well formed with every window attached, `displayUpdate` returns, and among what
it sends the cursor-position escapes and the characters are `scanTokens`: cell
after cell in scan order, nothing for a cell that does not differ, and for a
differing cell `(row, col)` the escape `ESC[row+1;col+1H` exactly when
`(row, col - 1)` is no differing cell of the display (which covers the first
cell emitted in the pass), followed by the character of the cell.  Hence the
number of cursor-position escapes is `runCount`, the number of maximal runs of
horizontally adjacent differing cells within a row. -/
theorem displayUpdate_cursor_runs (s : World) (L : List Nat) (fuel : Nat) (ws : Point)
    (hstack : StackIs s L)
    (hatt : ∀ b ∈ L, ∀ wb, s.windows b = some wb → wb.display = DisplayPtr.valid)
    (hfuel : L.length ≤ fuel) (hvis : s.display.hidden = false)
    (hdirty : s.display.dirty = true) (hauto : s.display.auto_size = false) :
    ∃ s' out, displayUpdate fuel ws s = .ok s' ∧ s'.display.term = s.display.term ++ out ∧
      out.filter cursorOrChar = scanTokens fuel s ∧
      (out.filter isCursorPos).length = runCount fuel s := by
  obtain ⟨s', hup, _, _, _, out, hterm, hfilter⟩ := displayUpdate_pass fuel ws s hvis hdirty
    hauto (fun i j hi0 hi1 hj0 hj1 =>
      renderPoint_returns s L fuel i j hstack hatt hfuel ⟨hi0, hi1⟩ ⟨hj0, hj1⟩)
  refine ⟨s', out, hup, hterm, hfilter, ?_⟩
  rw [filter_cursor_of_filter, hfilter]
  exact scanTokens_cursor_count fuel s

/-- C22 on `worldAB`, two overlapping windows on a fresh 4 x 6 display. -/
theorem displayUpdate_cursor_runs_witness :
    ∃ s' out, displayUpdate 2 ⟨0, 0⟩ (getWorld worldAB) = .ok s' ∧
      s'.display.term = (getWorld worldAB).display.term ++ out ∧
      out.filter cursorOrChar = scanTokens 2 (getWorld worldAB) ∧
      (out.filter isCursorPos).length = runCount 2 (getWorld worldAB) :=
  displayUpdate_cursor_runs (getWorld worldAB) [0, 1] 2 ⟨0, 0⟩
    ⟨by decide, ⟨_, rfl, rfl, rfl, ⟨_, rfl, rfl, rfl, trivial⟩⟩, rfl, rfl⟩
    (by
      intro b hb wb hwb
      simp only [List.mem_cons, List.mem_singleton, List.not_mem_nil, or_false] at hb
      rcases hb with rfl | rfl
      · have h : (getWorld worldAB).windows 0 = some (getWindow (getWorld worldAB) 0) := rfl
        rw [h] at hwb
        cases hwb
        rfl
      · have h : (getWorld worldAB).windows 1 = some (getWindow (getWorld worldAB) 1) := rfl
        rw [h] at hwb
        cases hwb
        rfl)
    (by decide) rfl rfl rfl

/-! ## Iterations of the print loop -/

/-- The print loop is the iteration of `printIter`. -/
theorem windowPrintLoop_iter (str : List Char) (d : Int) (fuel : Nat) (w : Window)
    (i x y : Int) :
    windowPrintLoop str d (fuel + 1) w i x y =
      match printIter str d w i x y with
      | .error e => .error e
      | .ok (PrintStep.done w1 finished) => .ok (w1, finished)
      | .ok (PrintStep.next w1 i1 x1 y1) => windowPrintLoop str d fuel w1 i1 x1 y1 := by
  rw [windowPrintLoop]
  unfold printIter
  cases strAt str i with
  | error e => rfl
  | ok c =>
    simp only
    by_cases h0 : c = '\x00'
    · simp only [h0, if_true]
    simp only [h0, if_false]
    by_cases hrow : x + d ≥ w.dim.x - d
    · simp only [hrow, if_true]
    simp only [hrow, if_false]
    by_cases hcond : isNotPrinted c = true ∧ i + y + d < w.dim.y - d
    · simp only [hcond, and_self, if_true]
      cases (if c = '\t' then
            tabLoop (x + d) i d (Int.tdiv (i + y + 8) 8 * 8 - (i + y)).toNat w y
          else Except.ok (w, y)) with
      | error e => rfl
      | ok p =>
        obtain ⟨w1, y1⟩ := p
        simp only
        cases putCell w1 (x + d) (i + y1 + d) c with
        | error e => rfl
        | ok w2 => rfl
    · simp only [hcond, if_false]
      cases strAt str (if isNotPrinted c = true then i - 1 else i) with
      | error e => rfl
      | ok c1 =>
        simp only
        by_cases hr : c1 = '\r'
        · simp only [hr, if_true]
          cases strAt str ((if isNotPrinted c = true then i - 1 else i) + 1) with
          | error e => rfl
          | ok c2 => rfl
        · simp only [hr, if_false]

theorem strAt_ok (str : List Char) (i : Int) (h0 : 0 ≤ i) (h1 : i ≤ str.length) :
    ∃ c, strAt str i = .ok c := by
  unfold strAt
  rw [if_neg (by omega)]
  exact ⟨_, rfl⟩

theorem isNotPrinted_ne_newline (c : Char) (h : isNotPrinted c = true) : c ≠ '\n' := by
  intro e
  rw [e] at h
  simp [isNotPrinted] at h

/-- One iteration from a loop state with `0 ≤ i ≤ length` in which the first
character fits: the string is read inside its bounds, and when the loop goes on
the next state has `1 ≤ i ≤ length`, the same window shape, and is either at the
next character or at the same character one row further down. -/
theorem printIter_step (str : List Char) (d : Int) (w : Window) (i x y : Int)
    (hi0 : 0 ≤ i) (hi1 : i ≤ str.length) (hfit : i = 0 → y + d < w.dim.y - d) :
    printIter str d w i x y ≠ .error Fault.strIndex ∧
    ∀ w2 i2 x2 y2, printIter str d w i x y = .ok (PrintStep.next w2 i2 x2 y2) →
      1 ≤ i2 ∧ i2 ≤ str.length ∧ SameMeta w w2 ∧ i < str.length ∧ x + d < w.dim.x - d ∧
      ((i2 = i + 1 ∧ x ≤ x2) ∨ (i2 = i ∧ x2 = x + 1)) := by
  obtain ⟨c, hc⟩ := strAt_ok str i hi0 hi1
  unfold printIter
  rw [hc]
  simp only
  by_cases h0 : c = '\x00'
  · rw [if_pos h0]
    exact ⟨fun h => (by cases h), fun _ _ _ _ h => (by cases h)⟩
  rw [if_neg h0]
  obtain ⟨_, hilt⟩ := strAt_nonzero_lt str i c hc h0
  by_cases hrow : x + d ≥ w.dim.x - d
  · rw [if_pos hrow]
    exact ⟨fun h => (by cases h), fun _ _ _ _ h => (by cases h)⟩
  rw [if_neg hrow]
  by_cases hcond : isNotPrinted c = true ∧ i + y + d < w.dim.y - d
  · rw [if_pos hcond]
    cases ht : (if c = '\t' then
        tabLoop (x + d) i d (Int.tdiv (i + y + 8) 8 * 8 - (i + y)).toNat w y
      else Except.ok (w, y)) with
    | error e =>
      simp only
      refine ⟨?_, fun _ _ _ _ h => (by cases h)⟩
      intro h
      simp only [Except.error.injEq] at h
      subst h
      by_cases hct : c = '\t'
      · rw [if_pos hct] at ht
        have := tabLoop_error _ _ _ _ _ _ _ ht
        cases this
      · rw [if_neg hct] at ht
        cases ht
    | ok p =>
      obtain ⟨w1, y1⟩ := p
      simp only
      have hm1 : SameMeta w w1 := by
        by_cases hct : c = '\t'
        · rw [if_pos hct] at ht
          exact (tabLoop_frame _ _ _ _ _ _ _ _ ht).2.1
        · rw [if_neg hct] at ht
          simp only [Except.ok.injEq, Prod.mk.injEq] at ht
          rw [← ht.1]
          exact sameMeta_refl _
      cases hput : putCell w1 (x + d) (i + y1 + d) c with
      | error e =>
        simp only
        refine ⟨?_, fun _ _ _ _ h => (by cases h)⟩
        intro h
        simp only [Except.error.injEq] at h
        subst h
        have := putCell_error _ _ _ _ _ hput
        cases this
      | ok w2 =>
        simp only
        refine ⟨fun h => (by cases h), ?_⟩
        intro w3 i3 x3 y3 h
        simp only [Except.ok.injEq, PrintStep.next.injEq] at h
        obtain ⟨rfl, rfl, rfl, rfl⟩ := h
        have hm2 := (putCell_spec w1 w2 _ _ _ hput).1
        exact ⟨by omega, by omega, sameMeta_trans hm1 hm2, hilt, by omega,
          Or.inl ⟨rfl, le_refl _⟩⟩
  · rw [if_neg hcond]
    by_cases hnp : isNotPrinted c = true
    · have hi1' : 1 ≤ i := by
        by_contra hlt
        have hz : i = 0 := by omega
        exact hcond ⟨hnp, by have := hfit hz; omega⟩
      simp only [hnp, if_true]
      obtain ⟨c1, hc1⟩ := strAt_ok str (i - 1) (by omega) (by omega)
      rw [hc1]
      simp only
      by_cases hr : c1 = '\r'
      · rw [if_pos hr]
        have hsame : i - 1 + 1 = i := by ring
        rw [hsame, hc]
        simp only
        refine ⟨fun h => (by cases h), ?_⟩
        intro w3 i3 x3 y3 h
        simp only [Except.ok.injEq, PrintStep.next.injEq] at h
        obtain ⟨rfl, rfl, rfl, rfl⟩ := h
        have hnn := isNotPrinted_ne_newline c hnp
        refine ⟨by omega, by omega, sameMeta_refl _, hilt, by omega, Or.inr ⟨rfl, ?_⟩⟩
        simp only [ne_eq, hnn, not_false_eq_true, if_true]
      · rw [if_neg hr]
        refine ⟨fun h => (by cases h), ?_⟩
        intro w3 i3 x3 y3 h
        simp only [Except.ok.injEq, PrintStep.next.injEq] at h
        obtain ⟨rfl, rfl, rfl, rfl⟩ := h
        exact ⟨by omega, by omega, sameMeta_refl _, hilt, by omega,
          Or.inr ⟨by ring, rfl⟩⟩
    · simp only [hnp, Bool.false_eq_true, if_false]
      rw [hc]
      simp only
      by_cases hr : c = '\r'
      · rw [if_pos hr]
        obtain ⟨c2, hc2⟩ := strAt_ok str (i + 1) (by omega) (by omega)
        rw [hc2]
        simp only
        refine ⟨fun h => (by cases h), ?_⟩
        intro w3 i3 x3 y3 h
        simp only [Except.ok.injEq, PrintStep.next.injEq] at h
        obtain ⟨rfl, rfl, rfl, rfl⟩ := h
        refine ⟨by omega, by omega, sameMeta_refl _, hilt, by omega, Or.inl ⟨rfl, ?_⟩⟩
        split <;> omega
      · rw [if_neg hr]
        refine ⟨fun h => (by cases h), ?_⟩
        intro w3 i3 x3 y3 h
        simp only [Except.ok.injEq, PrintStep.next.injEq] at h
        obtain ⟨rfl, rfl, rfl, rfl⟩ := h
        exact ⟨by omega, by omega, sameMeta_refl _, hilt, by omega,
          Or.inl ⟨rfl, by omega⟩⟩

/-- Every loop state of a print started at a column inside the content area has
`0 ≤ i ≤ length`, is past the first character unless that character fits, and
has the window shape of the start. -/
theorem loopState_inv (str : List Char) (d : Int) (w0 : Window) (x0 y0 : Int)
    (hfit : y0 + d < w0.dim.y - d) :
    ∀ (w : Window) (i x y : Int), LoopState str d w0 x0 y0 w i x y →
      0 ≤ i ∧ i ≤ str.length ∧ (i = 0 → y + d < w.dim.y - d) ∧ SameMeta w0 w := by
  intro w i x y h
  induction h with
  | start => exact ⟨le_refl _, by omega, fun _ => hfit, sameMeta_refl _⟩
  | step w i x y w1 i1 x1 y1 _ hit ih =>
    obtain ⟨h0, h1, h2, hm⟩ := ih
    obtain ⟨ha, hb, hm1, _, _, _⟩ := (printIter_step str d w i x y h0 h1 h2).2 w1 i1 x1 y1 hit
    exact ⟨by omega, hb, fun hz => by omega, sameMeta_trans hm hm1⟩

/-- The print loop never reads the string outside its bounds. -/
theorem printLoop_reads (str : List Char) (d : Int) :
    ∀ (fuel : Nat) (w : Window) (i x y : Int), 0 ≤ i → i ≤ str.length →
      (i = 0 → y + d < w.dim.y - d) →
      windowPrintLoop str d fuel w i x y ≠ .error Fault.strIndex := by
  intro fuel
  induction fuel with
  | zero =>
    intro w i x y _ _ _ h
    simp [windowPrintLoop] at h
  | succ fuel ih =>
    intro w i x y h0 h1 h2 h
    rw [windowPrintLoop_iter] at h
    obtain ⟨hne, hnext⟩ := printIter_step str d w i x y h0 h1 h2
    cases hit : printIter str d w i x y with
    | error e =>
      rw [hit] at h hne
      simp only [Except.error.injEq] at h
      subst h
      exact hne rfl
    | ok r =>
      cases r with
      | done w1 fl =>
        rw [hit] at h
        cases h
      | next w1 i1 x1 y1 =>
        rw [hit] at h
        simp only at h
        obtain ⟨ha, hb, hm1, _, _, _⟩ := hnext w1 i1 x1 y1 hit
        exact ih w1 i1 x1 y1 (by omega) hb (fun hz => by omega) h

/-- The call `windowPrint` at a column inside the content area never reads the
string outside its bounds. -/
theorem windowPrint_reads (s : World) (a : Nat) (w : Window) (str : List Char) (x y : Int)
    (hw : s.windows a = some w) (hfit : y + w.d < w.dim.y - w.d) :
    windowPrint s a str x y ≠ .error Fault.strIndex := by
  intro h
  unfold windowPrint derefWindow at h
  rw [hw] at h
  simp only at h
  cases hloop : windowPrintLoop str w.d (printFuel w str x) w 0 x y with
  | error e =>
    rw [hloop] at h
    simp only [Except.error.injEq] at h
    subst h
    exact printLoop_reads str w.d _ w 0 x y (le_refl _) (by omega) (fun _ => hfit) hloop
  | ok p =>
    obtain ⟨w1, fl⟩ := p
    rw [hloop] at h
    simp only at h
    cases fl with
    | false => simp at h
    | true =>
      simp only [if_true, markDirty, derefDisplay] at h
      cases hd : w1.display with
      | raw n => rw [hd] at h; cases h
      | valid => rw [hd] at h; cases h

/-- One iteration on a string without tab, from a loop state with non-negative
row and column: the iteration stores inside the grid, so it ends normally, and
the next loop state again has a non-negative row and column. -/
theorem printIter_plain (str : List Char) (d : Int) (w : Window) (i x y : Int)
    (hd : 0 ≤ d) (hi0 : 0 ≤ i) (hi1 : i ≤ str.length) (hfit : i = 0 → y + d < w.dim.y - d)
    (hx : 0 ≤ x) (hcol : 0 ≤ i + y) (htab : ∀ c ∈ str, c ≠ '\t') :
    ∃ r, printIter str d w i x y = .ok r ∧
      ∀ w2 i2 x2 y2, r = PrintStep.next w2 i2 x2 y2 → 0 ≤ x2 ∧ 0 ≤ i2 + y2 := by
  obtain ⟨c, hc⟩ := strAt_ok str i hi0 hi1
  unfold printIter
  rw [hc]
  simp only
  by_cases h0 : c = '\x00'
  · rw [if_pos h0]
    exact ⟨_, rfl, fun _ _ _ _ h => (by cases h)⟩
  rw [if_neg h0]
  obtain ⟨_, hilt⟩ := strAt_nonzero_lt str i c hc h0
  have hmem : c ∈ str := by
    have e : c = str.getD i.toNat '\x00' := by
      unfold strAt at hc
      rw [if_neg (by omega)] at hc
      simp only [Except.ok.injEq] at hc
      exact hc.symm
    rw [e]
    exact getD_mem str i.toNat (by omega)
  have hct : c ≠ '\t' := htab c hmem
  by_cases hrow : x + d ≥ w.dim.x - d
  · rw [if_pos hrow]
    exact ⟨_, rfl, fun _ _ _ _ h => (by cases h)⟩
  rw [if_neg hrow]
  by_cases hcond : isNotPrinted c = true ∧ i + y + d < w.dim.y - d
  · rw [if_pos hcond, if_neg hct]
    simp only
    have hin : inBlock w.dim (x + d) (i + y + d) = true :=
      (inBlock_iff _ _ _).2 ⟨by omega, by omega, by omega, by omega⟩
    rw [putCell_ok w _ _ c hin]
    refine ⟨_, rfl, ?_⟩
    intro w2 i2 x2 y2 h
    simp only [PrintStep.next.injEq] at h
    obtain ⟨_, rfl, rfl, rfl⟩ := h
    exact ⟨hx, by omega⟩
  · rw [if_neg hcond]
    by_cases hnp : isNotPrinted c = true
    · have hi1' : 1 ≤ i := by
        by_contra hlt
        have hz : i = 0 := by omega
        exact hcond ⟨hnp, by have := hfit hz; omega⟩
      simp only [hnp, if_true]
      obtain ⟨c1, hc1⟩ := strAt_ok str (i - 1) (by omega) (by omega)
      rw [hc1]
      simp only
      by_cases hr : c1 = '\r'
      · rw [if_pos hr]
        have hsame : i - 1 + 1 = i := by ring
        rw [hsame, hc]
        refine ⟨_, rfl, ?_⟩
        intro w2 i2 x2 y2 h
        simp only [PrintStep.next.injEq] at h
        obtain ⟨_, rfl, rfl, rfl⟩ := h
        refine ⟨?_, hcol⟩
        split <;> omega
      · rw [if_neg hr]
        refine ⟨_, rfl, ?_⟩
        intro w2 i2 x2 y2 h
        simp only [PrintStep.next.injEq] at h
        obtain ⟨_, rfl, rfl, rfl⟩ := h
        exact ⟨by omega, by omega⟩
    · simp only [hnp, Bool.false_eq_true, if_false]
      rw [hc]
      simp only
      by_cases hr : c = '\r'
      · rw [if_pos hr]
        obtain ⟨c2, hc2⟩ := strAt_ok str (i + 1) (by omega) (by omega)
        rw [hc2]
        refine ⟨_, rfl, ?_⟩
        intro w2 i2 x2 y2 h
        simp only [PrintStep.next.injEq] at h
        obtain ⟨_, rfl, rfl, rfl⟩ := h
        refine ⟨?_, by omega⟩
        split <;> omega
      · rw [if_neg hr]
        refine ⟨_, rfl, ?_⟩
        intro w2 i2 x2 y2 h
        simp only [PrintStep.next.injEq] at h
        obtain ⟨_, rfl, rfl, rfl⟩ := h
        exact ⟨by omega, by omega⟩

/-- On a string without tab the print loop ends normally. -/
theorem printLoop_plain (str : List Char) (d : Int) (hd : 0 ≤ d)
    (htab : ∀ c ∈ str, c ≠ '\t') :
    ∀ (fuel : Nat) (w : Window) (i x y : Int), 0 ≤ i → i ≤ str.length →
      (i = 0 → y + d < w.dim.y - d) → 0 ≤ x → 0 ≤ i + y →
      (str.length - i).toNat + (w.dim.x - d - d - x).toNat + 1 ≤ fuel →
      ∃ r, windowPrintLoop str d fuel w i x y = .ok r := by
  intro fuel
  induction fuel with
  | zero => intro w i x y _ _ _ _ _ hf; omega
  | succ fuel ih =>
    intro w i x y h0 h1 h2 hx hcol hf
    rw [windowPrintLoop_iter]
    obtain ⟨r, hit, hpos⟩ := printIter_plain str d w i x y hd h0 h1 h2 hx hcol htab
    obtain ⟨_, hnext⟩ := printIter_step str d w i x y h0 h1 h2
    rw [hit]
    cases r with
    | done w1 fl => exact ⟨_, rfl⟩
    | next w1 i1 x1 y1 =>
      simp only
      obtain ⟨ha, hb, hm1, hlt, hrow, hprog⟩ := hnext w1 i1 x1 y1 hit
      obtain ⟨hx1, hcol1⟩ := hpos w1 i1 x1 y1 rfl
      have hdim : w1.dim = w.dim := sameMeta_dim hm1
      refine ih w1 i1 x1 y1 (by omega) hb (fun hz => by omega) hx1 hcol1 ?_
      rw [hdim]
      rcases hprog with ⟨e1, e2⟩ | ⟨e1, e2⟩ <;> omega

/-- An iteration of the print loop can only fail by a read outside the string
or by a store outside the grid. -/
theorem printIter_fault (str : List Char) (d : Int) (w : Window) (i x y : Int) (e : Fault)
    (h : printIter str d w i x y = .error e) :
    e = Fault.strIndex ∨ e = Fault.gridIndex := by
  unfold printIter at h
  cases hc : strAt str i with
  | error e1 =>
    rw [hc] at h
    simp only [Except.error.injEq] at h
    subst h
    exact Or.inl (strAt_error _ _ _ hc)
  | ok c =>
    rw [hc] at h
    simp only at h
    by_cases h0 : c = '\x00'
    · rw [if_pos h0] at h; cases h
    rw [if_neg h0] at h
    by_cases hrow : x + d ≥ w.dim.x - d
    · rw [if_pos hrow] at h; cases h
    rw [if_neg hrow] at h
    by_cases hcond : isNotPrinted c = true ∧ i + y + d < w.dim.y - d
    · rw [if_pos hcond] at h
      cases ht : (if c = '\t' then
          tabLoop (x + d) i d (Int.tdiv (i + y + 8) 8 * 8 - (i + y)).toNat w y
        else Except.ok (w, y)) with
      | error e1 =>
        rw [ht] at h
        simp only [Except.error.injEq] at h
        subst h
        by_cases hct : c = '\t'
        · rw [if_pos hct] at ht
          exact Or.inr (tabLoop_error _ _ _ _ _ _ _ ht)
        · rw [if_neg hct] at ht
          cases ht
      | ok p =>
        obtain ⟨w1, y1⟩ := p
        rw [ht] at h
        simp only at h
        cases hput : putCell w1 (x + d) (i + y1 + d) c with
        | error e1 =>
          rw [hput] at h
          simp only [Except.error.injEq] at h
          subst h
          exact Or.inr (putCell_error _ _ _ _ _ hput)
        | ok w2 =>
          rw [hput] at h
          cases h
    · rw [if_neg hcond] at h
      cases hc1 : strAt str (if isNotPrinted c = true then i - 1 else i) with
      | error e1 =>
        rw [hc1] at h
        simp only [Except.error.injEq] at h
        subst h
        exact Or.inl (strAt_error _ _ _ hc1)
      | ok c1 =>
        rw [hc1] at h
        simp only at h
        by_cases hr : c1 = '\r'
        · rw [if_pos hr] at h
          cases hc2 : strAt str ((if isNotPrinted c = true then i - 1 else i) + 1) with
          | error e1 =>
            rw [hc2] at h
            simp only [Except.error.injEq] at h
            subst h
            exact Or.inl (strAt_error _ _ _ hc2)
          | ok c2 =>
            rw [hc2] at h
            cases h
        · rw [if_neg hr] at h
          cases h

/-- The print loop can only fail for lack of fuel, by a read outside the string
or by a store outside the grid. -/
theorem printLoop_fault (str : List Char) (d : Int) :
    ∀ (fuel : Nat) (w : Window) (i x y : Int) (e : Fault),
      windowPrintLoop str d fuel w i x y = .error e →
      e = Fault.fuel ∨ e = Fault.strIndex ∨ e = Fault.gridIndex := by
  intro fuel
  induction fuel with
  | zero =>
    intro w i x y e h
    simp only [windowPrintLoop, Except.error.injEq] at h
    exact Or.inl h.symm
  | succ fuel ih =>
    intro w i x y e h
    rw [windowPrintLoop_iter] at h
    cases hit : printIter str d w i x y with
    | error e1 =>
      rw [hit] at h
      simp only [Except.error.injEq] at h
      subst h
      exact Or.inr (printIter_fault str d w i x y e1 hit)
    | ok r =>
      cases r with
      | done w1 fl =>
        rw [hit] at h
        cases h
      | next w1 i1 x1 y1 =>
        rw [hit] at h
        exact ih w1 i1 x1 y1 e h

/-- On an attached window, at a column inside the content area, `windowPrint`
can only fail by a store outside the grid. -/
theorem windowPrint_fault (s : World) (a : Nat) (w : Window) (str : List Char) (x y : Int)
    (hw : s.windows a = some w) (hfit : y + w.d < w.dim.y - w.d)
    (hd : w.display = DisplayPtr.valid) (e : Fault)
    (h : windowPrint s a str x y = .error e) : e = Fault.gridIndex := by
  have hfuel := windowPrint_fuel s a str x y
  have hread := windowPrint_reads s a w str x y hw hfit
  cases hloop : windowPrintLoop str w.d (printFuel w str x) w 0 x y with
  | error e1 =>
    have he : windowPrint s a str x y = .error e1 := by
      simp only [windowPrint, derefWindow, hw, hloop]
    rw [he] at h hfuel hread
    simp only [Except.error.injEq] at h
    subst h
    rcases printLoop_fault str w.d _ w 0 x y e1 hloop with h1 | h1 | h1
    · subst h1; exact absurd rfl hfuel
    · subst h1; exact absurd rfl hread
    · exact h1
  | ok p =>
    obtain ⟨w1, fl⟩ := p
    have hm : SameMeta w w1 := (penStep_printLoop str w.d _ w 0 x y w1 fl hloop).1
    obtain ⟨s', hp, _⟩ := windowPrint_of_loop s a w w1 str x y fl hw hd hloop hm
    rw [hp] at h
    cases h

/-! ## C23: forward progress of `windowPrint` -/

/-- C23: for every window, every string and every start position with
`0 ≤ row` and `0 ≤ col < content width`, `windowPrint` terminates: its loop ends
within `printFuel` iterations, and never by a read of the string at a negative
index or past the terminator.  In every loop state `(i, x, y)` the run passes
through, `0 ≤ i ≤ length`, the iteration reads the string inside its bounds, and
when the loop goes on the next state is at the next character (row not
decreased) or at the same character one row further down.  On a window attached
to its display the call returns normally unless it stores outside the grid, and
it returns normally whenever the string has no tab. -/
theorem windowPrint_forward_progress (s : World) (a : Nat) (w : Window) (str : List Char)
    (x y : Int) (hw : s.windows a = some w) (hx : 0 ≤ x) (hy0 : 0 ≤ y)
    (hy1 : y < w.dim.y - w.d - w.d) :
    windowPrint s a str x y ≠ .error Fault.fuel ∧
    windowPrint s a str x y ≠ .error Fault.strIndex ∧
    (∀ w1 i x1 y1, LoopState str w.d w x y w1 i x1 y1 →
      0 ≤ i ∧ i ≤ str.length ∧ printIter str w.d w1 i x1 y1 ≠ .error Fault.strIndex ∧
      ∀ w2 i2 x2 y2, printIter str w.d w1 i x1 y1 = .ok (PrintStep.next w2 i2 x2 y2) →
        (i2 = i + 1 ∧ x1 ≤ x2) ∨ (i2 = i ∧ x2 = x1 + 1)) ∧
    (w.display = DisplayPtr.valid →
      (∀ e, windowPrint s a str x y = .error e → e = Fault.gridIndex) ∧
      ((∀ c ∈ str, c ≠ '\t') → ∃ s', windowPrint s a str x y = .ok s')) := by
  have hfit : y + w.d < w.dim.y - w.d := by omega
  refine ⟨windowPrint_fuel s a str x y, windowPrint_reads s a w str x y hw hfit, ?_, ?_⟩
  · intro w1 i x1 y1 hreach
    obtain ⟨h0, h1, h2, _⟩ := loopState_inv str w.d w x y hfit w1 i x1 y1 hreach
    obtain ⟨hne, hnext⟩ := printIter_step str w.d w1 i x1 y1 h0 h1 h2
    exact ⟨h0, h1, hne, fun w2 i2 x2 y2 hit => (hnext w2 i2 x2 y2 hit).2.2.2.2.2⟩
  · intro hd
    refine ⟨fun e he => windowPrint_fault s a w str x y hw hfit hd e he, ?_⟩
    intro htab
    have hdc := window_d_cases w
    obtain ⟨r, hloop⟩ := printLoop_plain str w.d (by omega) htab (printFuel w str x) w 0 x y
      (le_refl _) (by omega) (fun _ => hfit) hx (by omega) (by simp only [printFuel]; omega)
    obtain ⟨w1, fl⟩ := r
    have hm : SameMeta w w1 := (penStep_printLoop str w.d _ w 0 x y w1 fl hloop).1
    obtain ⟨s', hp, _⟩ := windowPrint_of_loop s a w w1 str x y fl hw hd hloop hm
    exact ⟨s', hp⟩

/-- C23 on the bordered window of `worldTiny` (content 1 x 6) and a text with a
tab, a bare carriage return and a newline, printed at (0, 0). -/
theorem windowPrint_forward_progress_witness :
    windowPrint (getWorld worldTiny) 0 ['a', '\t', '\r', 'b', '\n', 'c'] 0 0
      ≠ .error Fault.fuel ∧
    windowPrint (getWorld worldTiny) 0 ['a', '\t', '\r', 'b', '\n', 'c'] 0 0
      ≠ .error Fault.strIndex ∧
    (∀ w1 i x1 y1,
      LoopState ['a', '\t', '\r', 'b', '\n', 'c'] (getWindow (getWorld worldTiny) 0).d
        (getWindow (getWorld worldTiny) 0) 0 0 w1 i x1 y1 →
      0 ≤ i ∧ i ≤ ['a', '\t', '\r', 'b', '\n', 'c'].length ∧
      printIter ['a', '\t', '\r', 'b', '\n', 'c'] (getWindow (getWorld worldTiny) 0).d
        w1 i x1 y1 ≠ .error Fault.strIndex ∧
      ∀ w2 i2 x2 y2,
        printIter ['a', '\t', '\r', 'b', '\n', 'c'] (getWindow (getWorld worldTiny) 0).d
          w1 i x1 y1 = .ok (PrintStep.next w2 i2 x2 y2) →
        (i2 = i + 1 ∧ x1 ≤ x2) ∨ (i2 = i ∧ x2 = x1 + 1)) ∧
    ((getWindow (getWorld worldTiny) 0).display = DisplayPtr.valid →
      (∀ e, windowPrint (getWorld worldTiny) 0 ['a', '\t', '\r', 'b', '\n', 'c'] 0 0
        = .error e → e = Fault.gridIndex) ∧
      ((∀ c ∈ ['a', '\t', '\r', 'b', '\n', 'c'], c ≠ '\t') →
        ∃ s', windowPrint (getWorld worldTiny) 0 ['a', '\t', '\r', 'b', '\n', 'c'] 0 0
          = .ok s')) :=
  windowPrint_forward_progress (getWorld worldTiny) 0 (getWindow (getWorld worldTiny) 0)
    ['a', '\t', '\r', 'b', '\n', 'c'] 0 0 rfl (by decide) (by decide) (by decide)

end TextDisplay
